import Mathlib

/-!
Shallow embedding of the FusedAdam optimizer step dispatch implemented in
transformer_engine/pytorch/optimizers/fused_adam.py.  Every tensor is modelled
as a single rational value (one scalar element), which is faithful for the
dispatch, bookkeeping and elementwise-update layer verified here: the external
fused kernels apply the same elementwise function to every element.  Machine
floats are modelled by exact rationals; the square root is exact on the
perfect-square inputs exercised here.  Python dict state is modelled by
association lists, exceptions by an error sum type, and the per-call kernel
launches by an explicit trace.
-/

namespace TE

/-- Gradient tensor: scalar value plus the sparse-storage flag of its data. -/
structure Grad where
  value : ℚ
  is_sparse : Bool
deriving DecidableEq, Repr

/-- Storage type of a parameter.  `fp8` stands for an object of class
Float8Tensor (the isinstance check in the source); `other` is any dtype
outside the supported set, hitting the final else branch. -/
inductive DType
  | float32
  | float16
  | bfloat16
  | fp8
  | other
deriving DecidableEq, Repr

/-- Model parameter tensor: identity key (dict key in self.state), storage
type, shape, scalar data value, optional gradient, and whether its fp8
metadata store is initialized (p._fp8_meta is not None). -/
structure Param where
  id : ℕ
  dtype : DType
  shape : List ℕ
  value : ℚ
  grad : Option Grad
  fp8_meta_initialized : Bool
deriving DecidableEq, Repr

/-- Master-weight shadow recorded in a parameter's state: the master_weights
list index it was taken from, its shape, scalar value and gradient. -/
structure Master where
  slot : ℕ
  shape : List ℕ
  value : ℚ
  grad : Option Grad
deriving DecidableEq, Repr

/-- Per-parameter optimizer state: the two moment accumulators and the
optional master weight (source lines 209-222). -/
structure ParamState where
  exp_avg : ℚ
  exp_avg_sq : ℚ
  master_param : Option Master
deriving DecidableEq, Repr

/-- Tensor supplied in the master_weights constructor argument. -/
structure MTensor where
  shape : List ℕ
  value : ℚ
  grad : Option Grad
deriving DecidableEq, Repr

/-- Parameter group: member parameters plus hyperparameters; the step counter
is absent until the first call that processes the group. -/
structure Group where
  params : List Param
  lr : ℚ
  betas : ℚ × ℚ
  eps : ℚ
  weight_decay : ℚ
  bias_correction : Bool
  step : Option ℕ
deriving DecidableEq, Repr

/-- The optimizer object: groups, lazily filled per-parameter state map,
constructor flags, optional master weights, and the device-resident overflow
buffer (initialized to 0 in the constructor). -/
structure FusedAdam where
  param_groups : List Group
  state : List (ℕ × ParamState)
  adam_w_mode : Bool
  capturable : Bool
  master_weights : Option (List MTensor)
  dummy_overflow_buf : ℤ
deriving DecidableEq, Repr

/-- Lookup in the per-parameter state map. -/
def slookup : List (ℕ × ParamState) → ℕ → Option ParamState
  | [], _ => none
  | (k, v) :: rest, pid => if k = pid then some v else slookup rest pid

/-- Store into the per-parameter state map: replace an existing entry or
append a new one. -/
def sset : List (ℕ × ParamState) → ℕ → ParamState → List (ℕ × ParamState)
  | [], pid, st => [(pid, st)]
  | (k, v) :: rest, pid, st =>
      if k = pid then (pid, st) :: rest else (k, v) :: sset rest pid st

/-- Lookup of a parameter by identity in a parameter list. -/
def plookup : List Param → ℕ → Option Param
  | [], _ => none
  | p :: ps, pid => if p.id = pid then some p else plookup ps pid

/-- Overwrite the data value of the parameter with the given identity. -/
def setPValue : List Param → ℕ → ℚ → List Param
  | [], _, _ => []
  | p :: ps, pid, v =>
      if p.id = pid then { p with value := v } :: ps else p :: setPValue ps pid v

/-- Truthiness of self.master_weights in the source: None and the empty list
are both falsy in Python. -/
def FusedAdam.masterOn (self : FusedAdam) : Bool :=
  match self.master_weights with
  | none => false
  | some l => !l.isEmpty

/-- Indexing self.master_weights[i]; none models the IndexError case. -/
def FusedAdam.mwGet (self : FusedAdam) (i : ℕ) : Option MTensor :=
  match self.master_weights with
  | none => none
  | some l => l.get? i

/-- Errors raised synchronously by a step call. -/
inductive StepError
  | sparseGrad
  | unsupportedType
  | fp8MetaUninit
  | fp8Capturable
  | mixedF16Bf16
  | masterShapeMismatch
  | masterIndexOOB
deriving DecidableEq, Repr

/-- External fused kernel entry points selected by the dispatcher. -/
inductive KernelKind
  | adam
  | adam_fp8
  | adam_capturable
  | adam_capturable_master
deriving DecidableEq, Repr

/-- One recorded kernel launch: which entry point and the batch size. -/
structure KernelCall where
  kind : KernelKind
  batch : ℕ
deriving DecidableEq, Repr

/-- One slot of the parallel tensor lists built for a bucket: parameter
identity, resolved gradient value, parameter value, the two moments, and the
master weight reference captured when the lists were built. -/
structure Entry where
  pid : ℕ
  g : ℚ
  p : ℚ
  m : ℚ
  v : ℚ
  master_param : Option Master
deriving DecidableEq, Repr

/-- Mutable context of the classification loop over one group's parameters:
the state map, the call-wide master_param_idx counter, the three bucket lists
and the two low-precision flags (all reset per group except smap and midx). -/
structure CState where
  smap : List (ℕ × ParamState)
  midx : ℕ
  fp8 : List Entry
  f16 : List Entry
  f32 : List Entry
  hasFp16 : Bool
  hasBf16 : Bool
deriving DecidableEq, Repr

/-- External grad scaler: per-device overflow flag and current scale. -/
structure Scaler where
  foundInf : ℤ
  scale : ℚ
deriving DecidableEq, Repr

/-- Per-call capturable inputs derived from the optional scaler: overflow flag
is 0 and the unscale factor 1 when no scaler is supplied (source lines
303-318). -/
structure Env where
  foundInf : ℤ
  invScale : ℚ
deriving DecidableEq, Repr

def mkEnv : Option Scaler → Env
  | none => ⟨0, 1⟩
  | some s => ⟨s.foundInf, 1 / s.scale⟩

/-- FP8 metadata getter; raises when the metadata store is uninitialized
(source lines 13-26).  The scale, amax and scale_inv values live in the
external metadata store and play no role in the dispatch logic itself. -/
def get_fp8_meta (p : Param) : Except StepError Unit :=
  if p.fp8_meta_initialized = true then .ok () else .error .fp8MetaUninit

/-- Exact rational square root, used to model the kernel's real square root;
it is exact on rationals that are squares of rationals, the only inputs this
development evaluates it on. -/
def ratSqrt (q : ℚ) : ℚ :=
  (Nat.sqrt q.num.toNat : ℚ) / (Nat.sqrt q.den : ℚ)

/-- Modelled from the spec: the section 4.4 update-mathematics contract that
the external fused kernels (tex.multi_tensor_adam and variants, not part of
this repository) must realize, for one element: gradient unscaling, optional
folded L2 decay, moment updates, bias correction, and the parameter update
with decoupled decay in adamw mode. -/
def adamMath (invScale lr beta1 beta2 eps wd : ℚ) (t : ℕ) (adamw bias : Bool)
    (g m v p : ℚ) : ℚ × ℚ × ℚ :=
  let g1 := g * invScale
  let g2 := if adamw = true then g1 else g1 + wd * p
  let m1 := beta1 * m + (1 - beta1) * g2
  let v1 := beta2 * v + (1 - beta2) * g2 * g2
  let b1 : ℚ := if bias = true then 1 - beta1 ^ t else 1
  let b2 : ℚ := if bias = true then 1 - beta2 ^ t else 1
  let stepSize := lr / b1
  let denom := ratSqrt (v1 / b2) + eps
  let p1 := if adamw = true then p - lr * wd * p - stepSize * m1 / denom
            else p - stepSize * m1 / denom
  (m1, v1, p1)

/-- State initialization for a first-seen parameter (source lines 208-222):
zero moments, and in master-weights mode a shadow for every non-float32
parameter taken at the current master_param_idx, whose shape must match. -/
def initParamState (self : FusedAdam) (cs : CState) (p : Param) :
    Except StepError (ParamState × CState) :=
  match slookup cs.smap p.id with
  | some st => .ok (st, cs)
  | none =>
    if self.masterOn = true ∧ p.dtype ≠ DType.float32 then
      match self.mwGet cs.midx with
      | none => .error .masterIndexOOB
      | some mt =>
        if mt.shape = p.shape then
          let st : ParamState := ⟨0, 0, some ⟨cs.midx, mt.shape, mt.value, mt.grad⟩⟩
          .ok (st, { cs with smap := sset cs.smap p.id st, midx := cs.midx + 1 })
        else .error .masterShapeMismatch
    else
      let st : ParamState := ⟨0, 0, none⟩
      .ok (st, { cs with smap := sset cs.smap p.id st })

/-- Gradient resolution (source lines 224-228): prefer the master parameter's
gradient when master weights are active and one is present. -/
def resolvedGrad (self : FusedAdam) (st : ParamState) (p : Param) : Option Grad :=
  match st.master_param with
  | some mp => if self.masterOn = true ∧ mp.grad.isSome = true then mp.grad else p.grad
  | none => p.grad

/-- One slot of the parallel lists for a classified parameter; the master
reference is appended only in master-weights mode (source lines 242-243,
251-252). -/
def mkEntry (self : FusedAdam) (st : ParamState) (gr : Grad) (p : Param) : Entry :=
  ⟨p.id, gr.value, p.value, st.exp_avg, st.exp_avg_sq,
    if self.masterOn = true then st.master_param else none⟩

/-- Representation bucketing of one gradient-bearing parameter (source lines
235-262): fp8 needs its metadata, float16 and bfloat16 share one bucket and
set the mixing flags, float32 has its own bucket, anything else raises. -/
def bucketAppend (self : FusedAdam) (st : ParamState) (gr : Grad) (p : Param)
    (cs : CState) : Except StepError CState :=
  match p.dtype with
  | .fp8 =>
    match get_fp8_meta p with
    | .error e => .error e
    | .ok _ => .ok { cs with fp8 := cs.fp8 ++ [mkEntry self st gr p] }
  | .float16 => .ok { cs with f16 := cs.f16 ++ [mkEntry self st gr p], hasFp16 := true }
  | .bfloat16 => .ok { cs with f16 := cs.f16 ++ [mkEntry self st gr p], hasBf16 := true }
  | .float32 => .ok { cs with f32 := cs.f32 ++ [mkEntry self st gr p] }
  | .other => .error .unsupportedType

/-- Body of the classification loop for one parameter (source lines 205-273):
state initialization, gradient resolution, skip on null gradient, sparse
check, bucketing, then the fp8-with-capturable and mixed-low-precision
checks. -/
def classify1 (self : FusedAdam) (cs : CState) (p : Param) : Except StepError CState :=
  match initParamState self cs p with
  | .error e => .error e
  | .ok (st, cs1) =>
    match resolvedGrad self st p with
    | none => .ok cs1
    | some gr =>
      if gr.is_sparse = true then .error .sparseGrad
      else
        match bucketAppend self st gr p cs1 with
        | .error e => .error e
        | .ok cs2 =>
          if self.capturable = true ∧ cs2.fp8 ≠ [] then .error .fp8Capturable
          else if cs2.hasFp16 = true ∧ cs2.hasBf16 = true then .error .mixedF16Bf16
          else .ok cs2

/-- Classification loop over a group's parameter list. -/
def classify (self : FusedAdam) : CState → List Param → Except StepError CState
  | cs, [] => .ok cs
  | cs, p :: ps =>
    match classify1 self cs p with
    | .error e => .error e
    | .ok cs1 => classify self cs1 ps

/-- Scalar arguments handed to a fused kernel launch. -/
structure KernelArgs where
  invScale : ℚ
  lr : ℚ
  beta1 : ℚ
  beta2 : ℚ
  eps : ℚ
  weight_decay : ℚ
  t : ℕ
  adamw : Bool
  bias : Bool
deriving DecidableEq, Repr

/-- Modelled from the spec: in-place effect of the external kernel on one
batch slot.  With a master shadow the update applies to the master value and
the working parameter is recomputed from the updated master (identity cast in
this exact-arithmetic model); otherwise the parameter is updated directly. -/
def applyEntry (a : KernelArgs) (useMaster : Bool) (e : Entry)
    (ps : List Param) (smap : List (ℕ × ParamState)) :
    List Param × List (ℕ × ParamState) :=
  match (if useMaster = true then e.master_param else none) with
  | some mp =>
    let r := adamMath a.invScale a.lr a.beta1 a.beta2 a.eps a.weight_decay a.t
      a.adamw a.bias e.g e.m e.v mp.value
    (setPValue ps e.pid r.2.2,
     sset smap e.pid ⟨r.1, r.2.1, some { mp with value := r.2.2 }⟩)
  | none =>
    let r := adamMath a.invScale a.lr a.beta1 a.beta2 a.eps a.weight_decay a.t
      a.adamw a.bias e.g e.m e.v e.p
    let keep : Option Master :=
      match slookup smap e.pid with
      | some st0 => st0.master_param
      | none => e.master_param
    (setPValue ps e.pid r.2.2, sset smap e.pid ⟨r.1, r.2.1, keep⟩)

def applyEntries (a : KernelArgs) (useMaster : Bool) :
    List Entry → List Param × List (ℕ × ParamState) → List Param × List (ℕ × ParamState)
  | [], acc => acc
  | e :: es, acc => applyEntries a useMaster es (applyEntry a useMaster e acc.1 acc.2)

/-- Modelled from the spec: multi_tensor_applier and the external kernels are
not part of this repository.  One bucket launch: skipped when the bucket is
empty (the source guards each call with a length check), recorded in the
trace when launched, and a complete no-op on the state when the overflow skip
buffer equals 1 (spec section 4.4 step 1). -/
def apply_multi_tensor_adam (kind : KernelKind) (noop : Bool) (a : KernelArgs)
    (useMaster : Bool) (entries : List Entry) (ps : List Param)
    (smap : List (ℕ × ParamState)) (tr : List KernelCall) :
    List Param × List (ℕ × ParamState) × List KernelCall :=
  if entries = [] then (ps, smap, tr)
  else if noop = true then (ps, smap, tr ++ [⟨kind, entries.length⟩])
  else
    let r := applyEntries a useMaster entries (ps, smap)
    (r.1, r.2, tr ++ [⟨kind, entries.length⟩])

/-- Result of the dispatch phase for one group. -/
structure DRes where
  params : List Param
  smap : List (ℕ × ParamState)
  buf : ℤ
  tr : List KernelCall
deriving DecidableEq, Repr

/-- Dispatch selection for one group (source lines 299-390): capturable mode
first copies the freshly queried overflow flag into the skip buffer and then
launches the capturable kernels on the f16 and f32 buckets; non-capturable
master mode launches adam on f16, adam_fp8 on fp8 and adam on f32; plain mode
launches adam on f16 and f32 only (the fp8 bucket is not dispatched). -/
def dispatchGroup (self : FusedAdam) (env : Env) (g : Group) (t : ℕ) (cs : CState)
    (buf : ℤ) : DRes :=
  let args : KernelArgs := ⟨1, g.lr, g.betas.1, g.betas.2, g.eps, g.weight_decay, t,
    self.adam_w_mode, g.bias_correction⟩
  if self.capturable = true then
    let buf1 := env.foundInf
    let noop := decide (buf1 = 1)
    let cargs := { args with invScale := env.invScale }
    if self.masterOn = true then
      let r1 := apply_multi_tensor_adam .adam_capturable_master noop cargs true cs.f16
        g.params cs.smap []
      let r2 := apply_multi_tensor_adam .adam_capturable noop cargs false cs.f32
        r1.1 r1.2.1 r1.2.2
      ⟨r2.1, r2.2.1, buf1, r2.2.2⟩
    else
      let r1 := apply_multi_tensor_adam .adam_capturable noop cargs false cs.f16
        g.params cs.smap []
      let r2 := apply_multi_tensor_adam .adam_capturable noop cargs false cs.f32
        r1.1 r1.2.1 r1.2.2
      ⟨r2.1, r2.2.1, buf1, r2.2.2⟩
  else if self.masterOn = true then
    let r1 := apply_multi_tensor_adam .adam false args true cs.f16 g.params cs.smap []
    let r2 := apply_multi_tensor_adam .adam_fp8 false args true cs.fp8 r1.1 r1.2.1 r1.2.2
    let r3 := apply_multi_tensor_adam .adam false args false cs.f32 r2.1 r2.2.1 r2.2.2
    ⟨r3.1, r3.2.1, buf, r3.2.2⟩
  else
    let r1 := apply_multi_tensor_adam .adam false args false cs.f16 g.params cs.smap []
    let r2 := apply_multi_tensor_adam .adam false args false cs.f32 r1.1 r1.2.1 r1.2.2
    ⟨r2.1, r2.2.1, buf, r2.2.2⟩

/-- Result of processing one group. -/
structure GRes where
  group : Group
  smap : List (ℕ × ParamState)
  midx : ℕ
  buf : ℤ
  tr : List KernelCall
deriving DecidableEq, Repr

/-- Step counter value for a processed group (source lines 170-177): started
at 1 on first sight; otherwise incremented by 1 in non-capturable mode, and
by 1 or 0 in capturable mode according to the overflow buffer value read at
increment time. -/
def stepT (self : FusedAdam) (g : Group) (buf : ℤ) : ℕ :=
  match g.step with
  | some s => s + (if self.capturable = true then (if buf ≠ 1 then 1 else 0) else 1)
  | none => 1

/-- Processing of one group within a step call (source lines 161-390): empty
groups are skipped entirely; otherwise the step counter is initialized to 1
or incremented (unconditionally in non-capturable mode, gated by the current
overflow-buffer value in capturable mode), the parameters are classified, and
the buckets dispatched. -/
def stepGroup (self : FusedAdam) (env : Env) (g : Group)
    (smap : List (ℕ × ParamState)) (midx : ℕ) (buf : ℤ) : Except StepError GRes :=
  if g.params = [] then .ok ⟨g, smap, midx, buf, []⟩
  else
    let t : ℕ := stepT self g buf
    match classify self ⟨smap, midx, [], [], [], false, false⟩ g.params with
    | .error e => .error e
    | .ok cs =>
      let d := dispatchGroup self env g t cs buf
      .ok ⟨{ g with step := some t, params := d.params }, d.smap, cs.midx, d.buf, d.tr⟩

/-- Loop over the parameter groups, threading the state map, the call-wide
master index counter and the overflow buffer; the kernel-launch trace is
accumulated even when a later group raises. -/
def runGroups (self : FusedAdam) (env : Env) :
    List Group → List (ℕ × ParamState) → ℕ → ℤ →
    Except StepError (List Group × List (ℕ × ParamState) × ℤ) × List KernelCall
  | [], smap, _, buf => (.ok ([], smap, buf), [])
  | g :: gs, smap, midx, buf =>
    match stepGroup self env g smap midx buf with
    | .error e => (.error e, [])
    | .ok r =>
      match runGroups self env gs r.smap r.midx r.buf with
      | (.error e, tr2) => (.error e, r.tr ++ tr2)
      | (.ok (gs', smap2, buf2), tr2) => (.ok (r.group :: gs', smap2, buf2), r.tr ++ tr2)

/-- One optimization step (source lines 146-392): master_param_idx starts at
0 on every call; on success the groups, the state map and the overflow buffer
are committed back into the optimizer. -/
def FusedAdam.step (self : FusedAdam) (grad_scaler : Option Scaler) :
    Except StepError FusedAdam × List KernelCall :=
  match runGroups self (mkEnv grad_scaler) self.param_groups self.state 0
      self.dummy_overflow_buf with
  | (.error e, tr) => (.error e, tr)
  | (.ok (gs, smap, buf), tr) =>
    (.ok { self with param_groups := gs, state := smap, dummy_overflow_buf := buf }, tr)

/-- Assign every parameter's gradient by identity, modelling the caller
setting gradients between two step calls. -/
def setGrads (o : FusedAdam) (f : ℕ → Option Grad) : FusedAdam :=
  { o with param_groups := o.param_groups.map fun g =>
      { g with params := g.params.map fun p => { p with grad := f p.id } } }

/-- Run a sequence of step calls, each preceded by a gradient assignment. -/
def runCalls : FusedAdam → List ((ℕ → Option Grad) × Option Scaler) →
    Except StepError FusedAdam
  | o, [] => .ok o
  | o, (f, s) :: rest =>
    match ((setGrads o f).step s).1 with
    | .error _ => .error .sparseGrad
    | .ok o1 => runCalls o1 rest

def exIsOk : Except StepError FusedAdam → Bool
  | .ok _ => true
  | .error _ => false

def exGet (d : FusedAdam) : Except StepError FusedAdam → FusedAdam
  | .ok o => o
  | .error _ => d

/-- All parameters of all groups in encounter order. -/
def flatParams (o : FusedAdam) : List Param :=
  (o.param_groups.map Group.params).flatten

/-- Data value of the parameter with the given identity, if any. -/
def pvalue (o : FusedAdam) (pid : ℕ) : Option ℚ :=
  (plookup (flatParams o) pid).map Param.value

/-- Number of parameters in the list that are first-seen with respect to the
given state map and not stored in float32: exactly those that consume a
master-weights slot. -/
def freshNonF32 (smap : List (ℕ × ParamState)) : List Param → ℕ
  | [] => 0
  | p :: ps =>
      (if slookup smap p.id = none ∧ p.dtype ≠ DType.float32 then 1 else 0) +
        freshNonF32 smap ps

/-- Identity signature of a master shadow: its assigned slot and its shape
(the parts never touched by the update kernels, which only rewrite the master
value). -/
def msig : Option Master → Option (ℕ × List ℕ)
  | none => none
  | some m => some (m.slot, m.shape)

/-- Identity signature of a state entry: present or not, and if present the
signature of its master shadow. -/
def smsig : Option ParamState → Option (Option (ℕ × List ℕ))
  | none => none
  | some st => some (msig st.master_param)

/-- A parameter that cannot raise a representation, sparsity or metadata
error when classified with master weights disabled. -/
def okParam (p : Param) : Bool :=
  match p.grad with
  | none => true
  | some gr =>
    !gr.is_sparse && !(decide (p.dtype = DType.other)) &&
      (!(decide (p.dtype = DType.fp8)) || p.fp8_meta_initialized)

/-- Pending gradient with master weights disabled. -/
def pending (p : Param) : Bool := p.grad.isSome

def pendingOf (d : DType) (p : Param) : Bool := pending p && decide (p.dtype = d)

/-- The group contains both a pending float16 and a pending bfloat16
parameter. -/
def mixedGroup (g : Group) : Bool :=
  g.params.any (pendingOf DType.float16) && g.params.any (pendingOf DType.bfloat16)

/-- The group contains a pending fp8 parameter. -/
def fp8PendingGroup (g : Group) : Bool := g.params.any (pendingOf DType.fp8)

/-! Concrete instances used to evaluate the claims on closed inputs. -/

/-- A gradient-free float32 parameter of shape [1]. -/
def g32 (pid : ℕ) (v : ℚ) (gr : Option Grad) : Param := ⟨pid, .float32, [1], v, gr, false⟩

/-- The concrete section 6 scenario: one float32 parameter p = 1 with
gradient 0.1, lr = 1e-3, betas = (0.9, 0.999), eps = 1e-8, no weight decay,
bias correction and adamw mode on. -/
def c8opt : FusedAdam :=
  ⟨[⟨[⟨0, .float32, [1], 1, some ⟨1/10, false⟩, false⟩], 1/1000, (9/10, 999/1000),
     1/100000000, 0, true, none⟩], [], true, false, none, 0⟩

/-- Non-capturable optimizer, one group, one parameter, no step counter yet. -/
def c2opt : FusedAdam :=
  ⟨[⟨[g32 0 5 none], 1/1000, (9/10, 999/1000), 1/100000000, 0, true, none⟩],
   [], true, false, none, 0⟩

/-- Non-capturable optimizer whose only group already has step counter 5 and
whose only parameter carries no gradient. -/
def c2c : FusedAdam :=
  ⟨[⟨[g32 0 5 none], 1/1000, (9/10, 999/1000), 1/100000000, 0, true, some 5⟩],
   [], true, false, none, 0⟩

/-- Capturable optimizer with an initialized counter, overflow buffer 1 and
buffer agreeing with the incoming flag. -/
def c1w : FusedAdam :=
  ⟨[⟨[g32 0 5 none], 1/1000, (9/10, 999/1000), 1/100000000, 0, true, some 3⟩],
   [], true, true, none, 1⟩

/-- Capturable optimizer with an initialized counter whose overflow buffer
still holds 0 from the previous call. -/
def c1c : FusedAdam :=
  ⟨[⟨[g32 0 5 none], 1/1000, (9/10, 999/1000), 1/100000000, 0, true, some 1⟩],
   [], true, true, none, 0⟩

/-- Capturable optimizer with two initialized single-parameter groups and
overflow buffer 1 from the previous call. -/
def c10w : FusedAdam :=
  ⟨[⟨[g32 0 5 none], 1/1000, (9/10, 999/1000), 1/100000000, 0, true, some 1⟩,
    ⟨[g32 1 6 none], 1/1000, (9/10, 999/1000), 1/100000000, 0, true, some 1⟩],
   [], true, true, none, 1⟩

/-- Master-weights optimizer with one gradient-free float16 parameter and two
master tensors. -/
def c4opt : FusedAdam :=
  ⟨[⟨[⟨0, .float16, [1], 5, none, false⟩], 1/1000, (9/10, 999/1000), 1/100000000,
     0, true, none⟩],
   [], true, false, some [⟨[1], 10, none⟩, ⟨[1], 20, none⟩], 0⟩

/-- The optimizer of c4opt after one call, with a second float16 parameter
appended to the group before the next call. -/
def c4optB : FusedAdam :=
  let o1 := exGet c4opt (c4opt.step none).1
  { o1 with param_groups := o1.param_groups.map fun g =>
      { g with params := g.params ++ [⟨1, .float16, [1], 6, none, false⟩] } }

/-- A pending float16 parameter and a pending bfloat16 parameter in two
different groups of the same call. -/
def c5opt : FusedAdam :=
  ⟨[⟨[⟨0, .float16, [1], 1, some ⟨1/10, false⟩, false⟩], 1/1000, (9/10, 999/1000),
     1/100000000, 0, true, none⟩,
    ⟨[⟨1, .bfloat16, [1], 2, some ⟨1/10, false⟩, false⟩], 1/1000, (9/10, 999/1000),
     1/100000000, 0, true, none⟩],
   [], true, false, none, 0⟩

/-- A pending float16 parameter and a pending bfloat16 parameter in the same
group. -/
def c5same : FusedAdam :=
  ⟨[⟨[⟨0, .float16, [1], 1, some ⟨1/10, false⟩, false⟩,
      ⟨1, .bfloat16, [1], 2, some ⟨1/10, false⟩, false⟩], 1/1000, (9/10, 999/1000),
     1/100000000, 0, true, none⟩],
   [], true, false, none, 0⟩

/-- Capturable optimizer whose group holds a pending float32 parameter and a
pending fp8 parameter with initialized metadata. -/
def c6opt : FusedAdam :=
  ⟨[⟨[g32 0 5 (some ⟨1/10, false⟩), ⟨1, .fp8, [1], 2, some ⟨1/10, false⟩, true⟩],
     1/1000, (9/10, 999/1000), 1/100000000, 0, true, none⟩],
   [], true, true, none, 0⟩

/-- Plain-mode optimizer whose group holds a pending fp8 parameter (with
initialized metadata) next to a pending float32 parameter. -/
def c3opt : FusedAdam :=
  ⟨[⟨[⟨1, .fp8, [1], 2, some ⟨1/10, false⟩, true⟩, g32 0 5 (some ⟨1/10, false⟩)],
     1/1000, (9/10, 999/1000), 1/100000000, 0, true, none⟩],
   [], true, false, none, 0⟩

end TE

namespace TE

/-! Basic lemmas about the state map and parameter-list helpers. -/

theorem slookup_sset_self (l : List (ℕ × ParamState)) (pid : ℕ) (st : ParamState) :
    slookup (sset l pid st) pid = some st := by
  induction l with
  | nil => simp [sset, slookup]
  | cons kv rest ih =>
    obtain ⟨k, v⟩ := kv
    by_cases h : k = pid
    · simp [sset, h, slookup]
    · simp [sset, h, slookup, ih]

theorem slookup_sset_other (l : List (ℕ × ParamState)) (pid pid' : ℕ) (st : ParamState)
    (h : pid' ≠ pid) : slookup (sset l pid st) pid' = slookup l pid' := by
  induction l with
  | nil => simp [sset, slookup, Ne.symm h]
  | cons kv rest ih =>
    obtain ⟨k, v⟩ := kv
    by_cases hk : k = pid
    · subst hk
      simp [sset, slookup, Ne.symm h, h]
    · by_cases hk' : k = pid'
      · simp [sset, hk, slookup, hk', h]
      · simp [sset, hk, slookup, hk', ih]

theorem slookup_sset_isSome (l : List (ℕ × ParamState)) (pid pid' : ℕ) (st : ParamState) :
    (slookup (sset l pid st) pid').isSome =
      ((slookup l pid').isSome || decide (pid' = pid)) := by
  by_cases h : pid' = pid
  · subst h; simp [slookup_sset_self]
  · simp [slookup_sset_other l pid pid' st h, h]

theorem plookup_append (a b : List Param) (pid : ℕ) :
    plookup (a ++ b) pid =
      match plookup a pid with
      | some p => some p
      | none => plookup b pid := by
  induction a with
  | nil => simp [plookup]
  | cons p ps ih =>
    by_cases h : p.id = pid
    · simp [plookup, h]
    · simp [plookup, h, ih]

theorem plookup_setPValue_other (ps : List Param) (pid pid' : ℕ) (v : ℚ) (h : pid' ≠ pid) :
    plookup (setPValue ps pid v) pid' = plookup ps pid' := by
  induction ps with
  | nil => simp [setPValue]
  | cons p rest ih =>
    by_cases hk : p.id = pid
    · simp [setPValue, hk, plookup, Ne.symm h]
    · by_cases hk' : p.id = pid'
      · simp [setPValue, hk, plookup, hk', h]
      · simp [setPValue, hk, plookup, hk', ih]

theorem setPValue_ids (ps : List Param) (pid : ℕ) (v : ℚ) :
    (setPValue ps pid v).map Param.id = ps.map Param.id := by
  induction ps with
  | nil => simp [setPValue]
  | cons p rest ih =>
    by_cases hk : p.id = pid
    · simp [setPValue, hk]
    · simp [setPValue, hk, ih]

end TE

namespace TE

/-! Case-analysis lemmas for one classification iteration. -/

/-- Complete case analysis of a successful state initialization. -/
theorem initParamState_spec {self : FusedAdam} {cs : CState} {p : Param}
    {st : ParamState} {cs1 : CState}
    (h : initParamState self cs p = .ok (st, cs1)) :
    cs1.fp8 = cs.fp8 ∧ cs1.f16 = cs.f16 ∧ cs1.f32 = cs.f32 ∧
    cs1.hasFp16 = cs.hasFp16 ∧ cs1.hasBf16 = cs.hasBf16 ∧
    ((slookup cs.smap p.id = some st ∧ cs1 = cs) ∨
     (slookup cs.smap p.id = none ∧ st.exp_avg = 0 ∧ st.exp_avg_sq = 0 ∧
      cs1.smap = sset cs.smap p.id st ∧
      ((self.masterOn = true ∧ p.dtype ≠ DType.float32 ∧ cs1.midx = cs.midx + 1 ∧
        ∃ mt, self.mwGet cs.midx = some mt ∧ mt.shape = p.shape ∧
          st.master_param = some ⟨cs.midx, mt.shape, mt.value, mt.grad⟩) ∨
       (¬(self.masterOn = true ∧ p.dtype ≠ DType.float32) ∧ cs1.midx = cs.midx ∧
        st.master_param = none)))) := by
  unfold initParamState at h
  split at h
  next st0 hl =>
    simp only [Except.ok.injEq, Prod.mk.injEq] at h
    obtain ⟨h1, h2⟩ := h
    subst h1; subst h2
    exact ⟨rfl, rfl, rfl, rfl, rfl, Or.inl ⟨hl, rfl⟩⟩
  next hl =>
    split at h
    next hm =>
      split at h
      next hg => cases h
      next mt hg =>
        split at h
        next hsh =>
          simp only [Except.ok.injEq, Prod.mk.injEq] at h
          obtain ⟨h1, h2⟩ := h
          subst h1; subst h2
          refine ⟨rfl, rfl, rfl, rfl, rfl, Or.inr ⟨hl, rfl, rfl, rfl, Or.inl ?_⟩⟩
          exact ⟨hm.1, hm.2, rfl, mt, hg, hsh, rfl⟩
        next hsh => cases h
    next hm =>
      simp only [Except.ok.injEq, Prod.mk.injEq] at h
      obtain ⟨h1, h2⟩ := h
      subst h1; subst h2
      exact ⟨rfl, rfl, rfl, rfl, rfl, Or.inr ⟨hl, rfl, rfl, rfl, Or.inr ⟨hm, rfl, rfl⟩⟩⟩

/-- Complete case analysis of a successful bucket append. -/
theorem bucketAppend_spec {self : FusedAdam} {st : ParamState} {gr : Grad} {p : Param}
    {cs cs' : CState} (h : bucketAppend self st gr p cs = .ok cs') :
    ((p.dtype = DType.fp8 ∧ p.fp8_meta_initialized = true ∧
       cs' = { cs with fp8 := cs.fp8 ++ [mkEntry self st gr p] }) ∨
     (p.dtype = DType.float16 ∧
       cs' = { cs with f16 := cs.f16 ++ [mkEntry self st gr p], hasFp16 := true }) ∨
     (p.dtype = DType.bfloat16 ∧
       cs' = { cs with f16 := cs.f16 ++ [mkEntry self st gr p], hasBf16 := true }) ∨
     (p.dtype = DType.float32 ∧
       cs' = { cs with f32 := cs.f32 ++ [mkEntry self st gr p] })) := by
  unfold bucketAppend at h
  cases hd : p.dtype <;> rw [hd] at h
  · exact Or.inr (Or.inr (Or.inr ⟨rfl, (Except.ok.injEq _ _).mp h |>.symm⟩))
  · exact Or.inr (Or.inl ⟨rfl, (Except.ok.injEq _ _).mp h |>.symm⟩)
  · exact Or.inr (Or.inr (Or.inl ⟨rfl, (Except.ok.injEq _ _).mp h |>.symm⟩))
  · unfold get_fp8_meta at h
    by_cases hmeta : p.fp8_meta_initialized = true
    · rw [if_pos hmeta] at h
      simp only [Except.ok.injEq] at h
      exact Or.inl ⟨rfl, hmeta, h.symm⟩
    · rw [if_neg hmeta] at h; cases h
  · cases h

/-- Complete case analysis of a successful classification iteration. -/
theorem classify1_spec {self : FusedAdam} {cs : CState} {p : Param} {cs' : CState}
    (h : classify1 self cs p = .ok cs') :
    ∃ st cs1, initParamState self cs p = .ok (st, cs1) ∧
      ((resolvedGrad self st p = none ∧ cs' = cs1) ∨
       (∃ gr, resolvedGrad self st p = some gr ∧ gr.is_sparse = false ∧
         bucketAppend self st gr p cs1 = .ok cs' ∧
         ¬(self.capturable = true ∧ cs'.fp8 ≠ []) ∧
         ¬(cs'.hasFp16 = true ∧ cs'.hasBf16 = true))) := by
  unfold classify1 at h
  split at h
  next e hi => cases h
  next st cs1 hi =>
    refine ⟨st, cs1, hi, ?_⟩
    split at h
    next hg =>
      simp only [Except.ok.injEq] at h
      exact Or.inl ⟨hg, h.symm⟩
    next gr hg =>
      split at h
      next hsp => cases h
      next hsp =>
        split at h
        next e hb => cases h
        next cs2 hb =>
          split at h
          next hc => cases h
          next hc =>
            split at h
            next hx => cases h
            next hx =>
              simp only [Except.ok.injEq] at h
              subst h
              refine Or.inr ⟨gr, hg, ?_, hb, hc, hx⟩
              cases hv : gr.is_sparse
              · rfl
              · exact absurd hv hsp

end TE

namespace TE

/-! Reductions of one classification iteration and its effect on the state map. -/

theorem initParamState_noMaster {self : FusedAdam} {cs : CState} {p : Param}
    (hm : self.masterOn = false) :
    initParamState self cs p =
      match slookup cs.smap p.id with
      | some st => .ok (st, cs)
      | none => .ok (⟨0, 0, none⟩, { cs with smap := sset cs.smap p.id ⟨0, 0, none⟩ }) := by
  unfold initParamState
  cases slookup cs.smap p.id
  · simp [hm]
  · simp

theorem resolvedGrad_noMaster {self : FusedAdam} {st : ParamState} {p : Param}
    (hm : self.masterOn = false) : resolvedGrad self st p = p.grad := by
  unfold resolvedGrad
  cases st.master_param
  · rfl
  · simp [hm]

/-- A successful bucket append changes neither the state map nor the master
index counter. -/
theorem bucketAppend_smap {self : FusedAdam} {st : ParamState} {gr : Grad} {p : Param}
    {cs cs' : CState} (h : bucketAppend self st gr p cs = .ok cs') :
    cs'.smap = cs.smap ∧ cs'.midx = cs.midx := by
  rcases bucketAppend_spec h with ⟨_, _, h⟩ | ⟨_, h⟩ | ⟨_, h⟩ | ⟨_, h⟩ <;> subst h <;>
    exact ⟨rfl, rfl⟩

/-- Classifying one parameter leaves every other parameter's state entry
untouched. -/
theorem classify1_smap_other {self : FusedAdam} {cs : CState} {p : Param} {cs' : CState}
    (h : classify1 self cs p = .ok cs') (pid : ℕ) (hne : pid ≠ p.id) :
    slookup cs'.smap pid = slookup cs.smap pid := by
  obtain ⟨st, cs1, hi, hrest⟩ := classify1_spec h
  obtain ⟨-, -, -, -, -, hcase⟩ := initParamState_spec hi
  have h1 : slookup cs1.smap pid = slookup cs.smap pid := by
    rcases hcase with ⟨-, hc⟩ | ⟨-, -, -, hsm, -⟩
    · rw [hc]
    · rw [hsm]; exact slookup_sset_other _ _ _ _ hne
  rcases hrest with ⟨-, hc'⟩ | ⟨gr, -, -, hb, -, -⟩
  · rw [hc', h1]
  · rw [(bucketAppend_smap hb).1, h1]

/-- Classifying one parameter preserves every already-present state entry. -/
theorem classify1_smap_keep {self : FusedAdam} {cs : CState} {p : Param} {cs' : CState}
    (h : classify1 self cs p = .ok cs') {pid : ℕ} {st0 : ParamState}
    (hst : slookup cs.smap pid = some st0) : slookup cs'.smap pid = some st0 := by
  by_cases hne : pid = p.id
  · subst hne
    obtain ⟨st, cs1, hi, hrest⟩ := classify1_spec h
    obtain ⟨-, -, -, -, -, hcase⟩ := initParamState_spec hi
    have h1 : slookup cs1.smap p.id = some st0 := by
      rcases hcase with ⟨-, hc⟩ | ⟨hnone, -⟩
      · rw [hc]; exact hst
      · rw [hnone] at hst; cases hst
    rcases hrest with ⟨-, hc'⟩ | ⟨gr, -, -, hb, -, -⟩
    · rw [hc']; exact h1
    · rw [(bucketAppend_smap hb).1]; exact h1
  · rw [classify1_smap_other h pid hne]; exact hst

/-- A first-seen parameter gets a zero-moment state entry, with a master
shadow taken at the current index exactly when master weights are active and
the parameter is not float32. -/
theorem classify1_smap_fresh {self : FusedAdam} {cs : CState} {p : Param} {cs' : CState}
    (h : classify1 self cs p = .ok cs') (hfresh : slookup cs.smap p.id = none) :
    ∃ st, slookup cs'.smap p.id = some st ∧ st.exp_avg = 0 ∧ st.exp_avg_sq = 0 ∧
      ((self.masterOn = true ∧ p.dtype ≠ DType.float32 ∧
        ∃ mt, self.mwGet cs.midx = some mt ∧ mt.shape = p.shape ∧
          st.master_param = some ⟨cs.midx, mt.shape, mt.value, mt.grad⟩) ∨
       (¬(self.masterOn = true ∧ p.dtype ≠ DType.float32) ∧ st.master_param = none)) := by
  obtain ⟨st, cs1, hi, hrest⟩ := classify1_spec h
  obtain ⟨-, -, -, -, -, hcase⟩ := initParamState_spec hi
  rcases hcase with ⟨hsome, -⟩ | ⟨-, hm1, hm2, hsm, hmaster⟩
  · rw [hfresh] at hsome; cases hsome
  · have h1 : slookup cs1.smap p.id = some st := by
      rw [hsm]; exact slookup_sset_self _ _ _
    have h2 : slookup cs'.smap p.id = some st := by
      rcases hrest with ⟨-, hc'⟩ | ⟨gr, -, -, hb, -, -⟩
      · rw [hc']; exact h1
      · rw [(bucketAppend_smap hb).1]; exact h1
    refine ⟨st, h2, hm1, hm2, ?_⟩
    rcases hmaster with ⟨ha, hb', -, mt, hg, hsh, hmp⟩ | ⟨ha, -, hmp⟩
    · exact Or.inl ⟨ha, hb', mt, hg, hsh, hmp⟩
    · exact Or.inr ⟨ha, hmp⟩

/-- Master-index accounting for one classification iteration. -/
theorem classify1_midx {self : FusedAdam} {cs : CState} {p : Param} {cs' : CState}
    (h : classify1 self cs p = .ok cs') :
    cs'.midx = cs.midx +
      (if (slookup cs.smap p.id) = none ∧ self.masterOn = true ∧ p.dtype ≠ DType.float32
       then 1 else 0) := by
  obtain ⟨st, cs1, hi, hrest⟩ := classify1_spec h
  obtain ⟨-, -, -, -, -, hcase⟩ := initParamState_spec hi
  have h1 : cs'.midx = cs1.midx := by
    rcases hrest with ⟨-, hc'⟩ | ⟨gr, -, -, hb, -, -⟩
    · rw [hc']
    · exact (bucketAppend_smap hb).2
  rcases hcase with ⟨hsome, hc⟩ | ⟨hnone, -, -, -, hmaster⟩
  · rw [h1, hc, if_neg]
    · simp
    · rintro ⟨hn, -⟩; rw [hsome] at hn; cases hn
  · rcases hmaster with ⟨ha, hb', hmidx, -⟩ | ⟨ha, hmidx, -⟩
    · rw [h1, hmidx, if_pos ⟨hnone, ha, hb'⟩]
    · rw [h1, hmidx, if_neg]
      · simp
      · rintro ⟨-, hx⟩; exact ha hx

end TE

namespace TE

/-! Bucket contents, flags, and error analysis of one classification
iteration. -/

/-- Provenance of bucket entries created by one classification iteration. -/
theorem classify1_bucket_pids {self : FusedAdam} {cs : CState} {p : Param} {cs' : CState}
    (h : classify1 self cs p = .ok cs') (e : Entry) :
    (e ∈ cs'.fp8 → e ∈ cs.fp8 ∨ (e.pid = p.id ∧ p.dtype = DType.fp8)) ∧
    (e ∈ cs'.f16 → e ∈ cs.f16 ∨
      (e.pid = p.id ∧ (p.dtype = DType.float16 ∨ p.dtype = DType.bfloat16))) ∧
    (e ∈ cs'.f32 → e ∈ cs.f32 ∨ (e.pid = p.id ∧ p.dtype = DType.float32)) := by
  obtain ⟨st, cs1, hi, hrest⟩ := classify1_spec h
  obtain ⟨hb8, hb16, hb32, -, -, -⟩ := initParamState_spec hi
  rcases hrest with ⟨-, hc'⟩ | ⟨gr, -, -, hb, -, -⟩
  · subst hc'
    rw [hb8, hb16, hb32]
    exact ⟨fun hx => Or.inl hx, fun hx => Or.inl hx, fun hx => Or.inl hx⟩
  · rcases bucketAppend_spec hb with ⟨hd, -, hc⟩ | ⟨hd, hc⟩ | ⟨hd, hc⟩ | ⟨hd, hc⟩ <;>
      subst hc <;>
      refine ⟨?_, ?_, ?_⟩ <;>
      intro hx <;>
      simp only [List.mem_append, List.mem_singleton, hb8, hb16, hb32] at hx ⊢ <;>
      first
      | (rcases hx with hx | hx
         · exact Or.inl hx
         · subst hx; exact Or.inr ⟨rfl, by simp [hd]⟩)
      | exact Or.inl hx

/-- With master weights disabled, a parameter with no gradient contributes
nothing to any bucket and leaves the flags alone. -/
theorem classify1_skip_noMaster {self : FusedAdam} {cs : CState} {p : Param} {cs' : CState}
    (h : classify1 self cs p = .ok cs') (hm : self.masterOn = false)
    (hg : p.grad = none) :
    cs'.fp8 = cs.fp8 ∧ cs'.f16 = cs.f16 ∧ cs'.f32 = cs.f32 ∧
    cs'.hasFp16 = cs.hasFp16 ∧ cs'.hasBf16 = cs.hasBf16 ∧ cs'.midx = cs.midx := by
  obtain ⟨st, cs1, hi, hrest⟩ := classify1_spec h
  obtain ⟨hb8, hb16, hb32, hf1, hf2, hcase⟩ := initParamState_spec hi
  have hmidx : cs1.midx = cs.midx := by
    rcases hcase with ⟨-, hc⟩ | ⟨-, -, -, -, ⟨hmm, -⟩ | ⟨-, hx, -⟩⟩
    · rw [hc]
    · rw [hm] at hmm; cases hmm
    · exact hx
  rcases hrest with ⟨-, hc'⟩ | ⟨gr, hgr, -, -, -, -⟩
  · subst hc'; exact ⟨hb8, hb16, hb32, hf1, hf2, hmidx⟩
  · rw [resolvedGrad_noMaster hm, hg] at hgr; cases hgr

theorem resolvedGrad_some {self : FusedAdam} {st : ParamState} {p : Param} {mp : Master}
    (hmp : st.master_param = some mp) :
    resolvedGrad self st p =
      if self.masterOn = true ∧ mp.grad.isSome = true then mp.grad else p.grad := by
  unfold resolvedGrad; rw [hmp]

theorem resolvedGrad_mnone {self : FusedAdam} {st : ParamState} {p : Param}
    (hmp : st.master_param = none) : resolvedGrad self st p = p.grad := by
  unfold resolvedGrad; rw [hmp]

/-- A parameter with no gradient whose master shadow (existing or freshly
assigned) also carries no gradient contributes nothing to any bucket. -/
theorem classify1_skip_master {self : FusedAdam} {cs : CState} {p : Param} {cs' : CState}
    (h : classify1 self cs p = .ok cs') (hg : p.grad = none)
    (hmw : ∀ l, self.master_weights = some l → ∀ mt ∈ l, mt.grad = none)
    (hstm : ∀ st, slookup cs.smap p.id = some st →
      ∀ mp, st.master_param = some mp → mp.grad = none) :
    cs'.fp8 = cs.fp8 ∧ cs'.f16 = cs.f16 ∧ cs'.f32 = cs.f32 ∧
    cs'.hasFp16 = cs.hasFp16 ∧ cs'.hasBf16 = cs.hasBf16 := by
  obtain ⟨st, cs1, hi, hrest⟩ := classify1_spec h
  obtain ⟨hb8, hb16, hb32, hf1, hf2, hcase⟩ := initParamState_spec hi
  have hmgr : ∀ mp, st.master_param = some mp → mp.grad = none := by
    rcases hcase with ⟨hsome, -⟩ | ⟨-, -, -, -, ⟨-, -, -, mt, hgmt, -, hmp⟩ | ⟨-, -, hmp⟩⟩
    · exact hstm st hsome
    · intro mp hmp'
      rw [hmp] at hmp'
      cases hmp'
      obtain ⟨l, hl⟩ : ∃ l, self.master_weights = some l := by
        unfold FusedAdam.mwGet at hgmt
        cases hml : self.master_weights with
        | none => rw [hml] at hgmt; cases hgmt
        | some l => exact ⟨l, rfl⟩
      have : mt ∈ l := by
        unfold FusedAdam.mwGet at hgmt
        rw [hl] at hgmt
        exact List.get?_mem hgmt
      simpa using hmw l hl mt this
    · intro mp hmp'; rw [hmp] at hmp'; cases hmp'
  rcases hrest with ⟨-, hc'⟩ | ⟨gr, hgr, -, -, -, -⟩
  · subst hc'; exact ⟨hb8, hb16, hb32, hf1, hf2⟩
  · exfalso
    cases hmp : st.master_param with
    | none => rw [resolvedGrad_mnone hmp, hg] at hgr; cases hgr
    | some mp =>
      rw [resolvedGrad_some hmp] at hgr
      by_cases hcond : self.masterOn = true ∧ mp.grad.isSome = true
      · rw [if_pos hcond, hmgr mp hmp] at hgr
        cases hgr
      · rw [if_neg hcond, hg] at hgr
        cases hgr

/-- With master weights disabled, a pending fp8 parameter is appended to the
fp8 bucket. -/
theorem classify1_pending_fp8 {self : FusedAdam} {cs : CState} {p : Param} {cs' : CState}
    (h : classify1 self cs p = .ok cs') (hm : self.masterOn = false)
    (hd : p.dtype = DType.fp8) (hg : pending p = true) :
    ∃ e, cs'.fp8 = cs.fp8 ++ [e] ∧ e.pid = p.id := by
  obtain ⟨st, cs1, hi, hrest⟩ := classify1_spec h
  obtain ⟨hb8, -, -, -, -, -⟩ := initParamState_spec hi
  rcases hrest with ⟨hgr, -⟩ | ⟨gr, -, -, hb, -, -⟩
  · rw [resolvedGrad_noMaster hm] at hgr
    unfold pending at hg
    rw [hgr] at hg
    cases hg
  · rcases bucketAppend_spec hb with ⟨-, -, hc⟩ | ⟨hd', -⟩ | ⟨hd', -⟩ | ⟨hd', -⟩
    · subst hc
      exact ⟨mkEntry self st gr p, by rw [hb8], rfl⟩
    · rw [hd] at hd'; cases hd'
    · rw [hd] at hd'; cases hd'
    · rw [hd] at hd'; cases hd'

/-- With capturable mode and master weights disabled, a successful
classification iteration never sees a pending fp8 parameter. -/
theorem classify1_no_fp8_capturable {self : FusedAdam} {cs : CState} {p : Param}
    {cs' : CState} (h : classify1 self cs p = .ok cs') (hm : self.masterOn = false)
    (hcap : self.capturable = true) (hd : p.dtype = DType.fp8) (hg : pending p = true) :
    False := by
  obtain ⟨e, he, -⟩ := classify1_pending_fp8 h hm hd hg
  obtain ⟨st, cs1, hi, hrest⟩ := classify1_spec h
  rcases hrest with ⟨hgr, -⟩ | ⟨gr, -, -, -, hc, -⟩
  · rw [resolvedGrad_noMaster hm] at hgr
    unfold pending at hg
    rw [hgr] at hg
    cases hg
  · exact hc ⟨hcap, by rw [he]; simp⟩

end TE

namespace TE

/-! Flags and error analysis of one classification iteration with master
weights disabled. -/

theorem classify1_flags_noMaster {self : FusedAdam} {cs : CState} {p : Param}
    {cs' : CState} (h : classify1 self cs p = .ok cs') (hm : self.masterOn = false) :
    cs'.hasFp16 = (cs.hasFp16 || pendingOf DType.float16 p) ∧
    cs'.hasBf16 = (cs.hasBf16 || pendingOf DType.bfloat16 p) := by
  obtain ⟨st, cs1, hi, hrest⟩ := classify1_spec h
  obtain ⟨-, -, -, hf1, hf2, -⟩ := initParamState_spec hi
  rcases hrest with ⟨hgr, hc'⟩ | ⟨gr, hgr, -, hb, -, -⟩
  · rw [resolvedGrad_noMaster hm] at hgr
    subst hc'
    have hp : pending p = false := by unfold pending; rw [hgr]; rfl
    simp [pendingOf, hp, hf1, hf2]
  · rw [resolvedGrad_noMaster hm] at hgr
    have hp : pending p = true := by unfold pending; rw [hgr]; rfl
    rcases bucketAppend_spec hb with ⟨hd, -, hc⟩ | ⟨hd, hc⟩ | ⟨hd, hc⟩ | ⟨hd, hc⟩ <;>
      subst hc <;> simp [pendingOf, hp, hd, hf1, hf2]

theorem initParamState_noMaster_ok {self : FusedAdam} {cs : CState} {p : Param}
    {e : StepError} (hm : self.masterOn = false) :
    initParamState self cs p ≠ .error e := by
  rw [initParamState_noMaster hm]
  cases slookup cs.smap p.id <;> simp

/-- A failing bucket append is an unsupported type or missing fp8 metadata. -/
theorem bucketAppend_error_spec {self : FusedAdam} {st : ParamState} {gr : Grad}
    {p : Param} {cs : CState} {e : StepError}
    (h : bucketAppend self st gr p cs = .error e) :
    (p.dtype = DType.other ∧ e = .unsupportedType) ∨
    (p.dtype = DType.fp8 ∧ p.fp8_meta_initialized = false ∧ e = .fp8MetaUninit) := by
  unfold bucketAppend at h
  cases hd : p.dtype <;> rw [hd] at h
  · cases h
  · cases h
  · cases h
  · unfold get_fp8_meta at h
    by_cases hmeta : p.fp8_meta_initialized = true
    · rw [if_pos hmeta] at h
      simp at h
    · rw [if_neg hmeta] at h
      simp only [Except.error.injEq] at h
      refine Or.inr ⟨rfl, ?_, h.symm⟩
      cases hv : p.fp8_meta_initialized
      · rfl
      · exact absurd hv hmeta
  · cases h
    exact Or.inl ⟨rfl, rfl⟩

/-- Complete analysis of a failing classification iteration with master
weights disabled: the parameter had a pending gradient and the error is one
of the five classification errors, each with its trigger. -/
theorem classify1_error_spec_noMaster {self : FusedAdam} {cs : CState} {p : Param}
    {e : StepError} (hm : self.masterOn = false) (h : classify1 self cs p = .error e) :
    ∃ gr, p.grad = some gr ∧
      ((gr.is_sparse = true ∧ e = .sparseGrad) ∨
       (gr.is_sparse = false ∧ p.dtype = DType.other ∧ e = .unsupportedType) ∨
       (gr.is_sparse = false ∧ p.dtype = DType.fp8 ∧ p.fp8_meta_initialized = false ∧
         e = .fp8MetaUninit) ∨
       (gr.is_sparse = false ∧ e = .fp8Capturable ∧ self.capturable = true ∧
         (cs.fp8 ≠ [] ∨ p.dtype = DType.fp8)) ∨
       (gr.is_sparse = false ∧ e = .mixedF16Bf16 ∧
         (cs.hasFp16 || pendingOf DType.float16 p) = true ∧
         (cs.hasBf16 || pendingOf DType.bfloat16 p) = true)) := by
  unfold classify1 at h
  split at h
  next e0 hi => exact absurd hi (initParamState_noMaster_ok hm)
  next st cs1 hi =>
    obtain ⟨hb8, hb16, hb32, hf1, hf2, -⟩ := initParamState_spec hi
    split at h
    next hg => cases h
    next gr hg =>
      rw [resolvedGrad_noMaster hm] at hg
      refine ⟨gr, hg, ?_⟩
      have hp : pending p = true := by unfold pending; rw [hg]; rfl
      split at h
      next hsp =>
        cases h
        exact Or.inl ⟨hsp, rfl⟩
      next hsp =>
        have hsp' : gr.is_sparse = false := by
          cases hv : gr.is_sparse
          · rfl
          · exact absurd hv hsp
        split at h
        next e1 hb =>
          cases h
          rcases bucketAppend_error_spec hb with ⟨hd, he⟩ | ⟨hd, hmeta, he⟩
          · exact Or.inr (Or.inl ⟨hsp', hd, he⟩)
          · exact Or.inr (Or.inr (Or.inl ⟨hsp', hd, hmeta, he⟩))
        next cs2 hb =>
          split at h
          next hc =>
            cases h
            rcases bucketAppend_spec hb with ⟨hd, -, hcc⟩ | ⟨hd, hcc⟩ | ⟨hd, hcc⟩ | ⟨hd, hcc⟩ <;>
              subst hcc
            · exact Or.inr (Or.inr (Or.inr (Or.inl ⟨hsp', rfl, hc.1, Or.inr hd⟩)))
            all_goals
              refine Or.inr (Or.inr (Or.inr (Or.inl ⟨hsp', rfl, hc.1, Or.inl ?_⟩)))
            · have := hc.2
              rw [hb8] at this
              exact this
            · have := hc.2
              rw [hb8] at this
              exact this
            · have := hc.2
              rw [hb8] at this
              exact this
          next hc =>
            split at h
            next hx =>
              cases h
              rcases bucketAppend_spec hb with ⟨hd, -, hcc⟩ | ⟨hd, hcc⟩ | ⟨hd, hcc⟩ | ⟨hd, hcc⟩ <;>
                subst hcc <;>
                refine Or.inr (Or.inr (Or.inr (Or.inr ⟨hsp', rfl, ?_, ?_⟩))) <;>
                simp only [pendingOf, hp, hd] at * <;>
                simp only [hf1, hf2] at hx <;>
                simp [hx.1, hx.2, hd]
            next hx => cases h

end TE

namespace TE

/-- With master weights disabled, a clean parameter (no sparse pending
gradient, supported dtype, initialized fp8 metadata), no fp8 conflict with
capturable mode, and no float16/bfloat16 mixing can not make the
classification iteration fail. -/
theorem classify1_ok_of_clean {self : FusedAdam} {cs : CState} {p : Param}
    (hm : self.masterOn = false) (hok : okParam p = true)
    (hcap : self.capturable = true → cs.fp8 = [] ∧ pendingOf DType.fp8 p = false)
    (hmix : ¬((cs.hasFp16 || pendingOf DType.float16 p) = true ∧
              (cs.hasBf16 || pendingOf DType.bfloat16 p) = true)) :
    ∃ cs', classify1 self cs p = .ok cs' := by
  cases hres : classify1 self cs p with
  | ok cs' => exact ⟨cs', rfl⟩
  | error e =>
    exfalso
    obtain ⟨gr, hg, hcases⟩ := classify1_error_spec_noMaster hm hres
    have hp : pending p = true := by unfold pending; rw [hg]; rfl
    unfold okParam at hok
    rw [hg] at hok
    simp only [Bool.and_eq_true, Bool.not_eq_true', Bool.or_eq_true,
      decide_eq_false_iff_not, decide_eq_true_eq, Bool.not_eq_true] at hok
    obtain ⟨⟨hok1, hok2⟩, hok3⟩ := hok
    rcases hcases with ⟨hsp, -⟩ | ⟨-, hd, -⟩ | ⟨-, hd, hmeta, -⟩ | ⟨-, -, hcapt, hff⟩ |
      ⟨-, -, h1, h2⟩
    · rw [hok1] at hsp; cases hsp
    · exact hok2 hd
    · rcases hok3 with hx | hx
      · simp [hd] at hx
      · rw [hx] at hmeta; cases hmeta
    · obtain ⟨hempty, hpend⟩ := hcap hcapt
      rcases hff with hx | hx
      · exact hx hempty
      · rw [pendingOf, hp, hx] at hpend
        simp at hpend
    · exact hmix ⟨h1, h2⟩

/-- With master weights disabled, a parameter that is not a pending fp8
parameter leaves the fp8 bucket unchanged. -/
theorem classify1_fp8_eq {self : FusedAdam} {cs : CState} {p : Param} {cs' : CState}
    (h : classify1 self cs p = .ok cs') (hm : self.masterOn = false)
    (hnp : pendingOf DType.fp8 p = false) : cs'.fp8 = cs.fp8 := by
  obtain ⟨st, cs1, hi, hrest⟩ := classify1_spec h
  obtain ⟨hb8, -, -, -, -, -⟩ := initParamState_spec hi
  rcases hrest with ⟨-, hc'⟩ | ⟨gr, hgr, -, hb, -, -⟩
  · subst hc'; exact hb8
  · rw [resolvedGrad_noMaster hm] at hgr
    have hp : pending p = true := by unfold pending; rw [hgr]; rfl
    rcases bucketAppend_spec hb with ⟨hd, -, hc⟩ | ⟨hd, hc⟩ | ⟨hd, hc⟩ | ⟨hd, hc⟩ <;> subst hc
    · rw [pendingOf, hp, hd] at hnp
      simp at hnp
    · exact hb8
    · exact hb8
    · exact hb8

end TE

namespace TE

/-! Lemmas about the whole classification loop over a parameter list. -/

theorem freshNonF32_cons (smap : List (ℕ × ParamState)) (q : Param) (ps : List Param) :
    freshNonF32 smap (q :: ps) =
      (if slookup smap q.id = none ∧ q.dtype ≠ DType.float32 then 1 else 0) +
        freshNonF32 smap ps := rfl

theorem freshNonF32_congr {smap smap' : List (ℕ × ParamState)} :
    ∀ {ps : List Param}, (∀ p ∈ ps, slookup smap' p.id = slookup smap p.id) →
    freshNonF32 smap' ps = freshNonF32 smap ps := by
  intro ps
  induction ps with
  | nil => intro _; rfl
  | cons q rest ih =>
    intro h
    rw [freshNonF32_cons, freshNonF32_cons, h q (List.mem_cons_self q rest),
      ih fun p hp => h p (List.mem_cons_of_mem q hp)]

/-- Provenance of bucket entries with master weights disabled: new entries
carry the identity of a pending parameter of the matching representation. -/
theorem classify1_bucket_pids_noMaster {self : FusedAdam} {cs : CState} {p : Param}
    {cs' : CState} (h : classify1 self cs p = .ok cs') (hm : self.masterOn = false)
    (e : Entry) :
    (e ∈ cs'.fp8 → e ∈ cs.fp8 ∨
      (e.pid = p.id ∧ p.dtype = DType.fp8 ∧ pending p = true)) ∧
    (e ∈ cs'.f16 → e ∈ cs.f16 ∨
      (e.pid = p.id ∧ (p.dtype = DType.float16 ∨ p.dtype = DType.bfloat16) ∧
        pending p = true)) ∧
    (e ∈ cs'.f32 → e ∈ cs.f32 ∨
      (e.pid = p.id ∧ p.dtype = DType.float32 ∧ pending p = true)) := by
  obtain ⟨st, cs1, hi, hrest⟩ := classify1_spec h
  obtain ⟨hb8, hb16, hb32, -, -, -⟩ := initParamState_spec hi
  rcases hrest with ⟨-, hc'⟩ | ⟨gr, hgr, -, hb, -, -⟩
  · subst hc'
    rw [hb8, hb16, hb32]
    exact ⟨fun hx => Or.inl hx, fun hx => Or.inl hx, fun hx => Or.inl hx⟩
  · rw [resolvedGrad_noMaster hm] at hgr
    have hp : pending p = true := by unfold pending; rw [hgr]; rfl
    rcases bucketAppend_spec hb with ⟨hd, -, hc⟩ | ⟨hd, hc⟩ | ⟨hd, hc⟩ | ⟨hd, hc⟩ <;>
      subst hc <;>
      refine ⟨?_, ?_, ?_⟩ <;>
      intro hx <;>
      simp only [List.mem_append, List.mem_singleton, hb8, hb16, hb32] at hx ⊢ <;>
      first
      | (rcases hx with hx | hx
         · exact Or.inl hx
         · subst hx; exact Or.inr ⟨rfl, by simp [hd], hp⟩)
      | exact Or.inl hx

theorem classify_smap_keep {self : FusedAdam} :
    ∀ {ps : List Param} {cs cs' : CState}, classify self cs ps = .ok cs' →
    ∀ {pid : ℕ} {st : ParamState}, slookup cs.smap pid = some st →
    slookup cs'.smap pid = some st := by
  intro ps
  induction ps with
  | nil =>
    intro cs cs' h pid st hst
    unfold classify at h
    simp only [Except.ok.injEq] at h
    subst h
    exact hst
  | cons p rest ih =>
    intro cs cs' h pid st hst
    unfold classify at h
    split at h
    next e h1 => cases h
    next cs1 h1 => exact ih h (classify1_smap_keep h1 hst)

theorem classify_smap_other {self : FusedAdam} :
    ∀ {ps : List Param} {cs cs' : CState}, classify self cs ps = .ok cs' →
    ∀ {pid : ℕ}, pid ∉ ps.map Param.id →
    slookup cs'.smap pid = slookup cs.smap pid := by
  intro ps
  induction ps with
  | nil =>
    intro cs cs' h pid _
    unfold classify at h
    simp only [Except.ok.injEq] at h
    subst h
    rfl
  | cons p rest ih =>
    intro cs cs' h pid hpid
    unfold classify at h
    split at h
    next e h1 => cases h
    next cs1 h1 =>
      simp only [List.map_cons, List.mem_cons, not_or] at hpid
      rw [ih h (by simpa using hpid.2), classify1_smap_other h1 pid hpid.1]

theorem classify_smap_present {self : FusedAdam} :
    ∀ {ps : List Param} {cs cs' : CState}, classify self cs ps = .ok cs' →
    ∀ p ∈ ps, (slookup cs'.smap p.id).isSome = true := by
  intro ps
  induction ps with
  | nil =>
    intro cs cs' h p hp
    cases hp
  | cons q rest ih =>
    intro cs cs' h p hp
    unfold classify at h
    split at h
    next e h1 => cases h
    next cs1 h1 =>
      rcases List.mem_cons.mp hp with hp | hp
      · subst hp
        by_cases hfresh : slookup cs.smap p.id = none
        · obtain ⟨st, hst, -⟩ := classify1_smap_fresh h1 hfresh
          rw [classify_smap_keep h hst]
          rfl
        · cases hx : slookup cs.smap p.id with
          | none => exact absurd hx hfresh
          | some st =>
            rw [classify_smap_keep h (classify1_smap_keep h1 hx)]
            rfl
      · exact ih h p hp

theorem classify_bucket_pids {self : FusedAdam} :
    ∀ {ps : List Param} {cs cs' : CState}, classify self cs ps = .ok cs' →
    ∀ e : Entry,
    (e ∈ cs'.fp8 → e ∈ cs.fp8 ∨ ∃ p ∈ ps, e.pid = p.id) ∧
    (e ∈ cs'.f16 → e ∈ cs.f16 ∨ ∃ p ∈ ps, e.pid = p.id) ∧
    (e ∈ cs'.f32 → e ∈ cs.f32 ∨ ∃ p ∈ ps, e.pid = p.id) := by
  intro ps
  induction ps with
  | nil =>
    intro cs cs' h e
    unfold classify at h
    simp only [Except.ok.injEq] at h
    subst h
    exact ⟨fun hx => Or.inl hx, fun hx => Or.inl hx, fun hx => Or.inl hx⟩
  | cons q rest ih =>
    intro cs cs' h e
    unfold classify at h
    split at h
    next e0 h1 => cases h
    next cs1 h1 =>
      obtain ⟨ih8, ih16, ih32⟩ := ih h e
      obtain ⟨c8, c16, c32⟩ := classify1_bucket_pids h1 e
      refine ⟨?_, ?_, ?_⟩ <;> intro hx
      · rcases ih8 hx with hx' | ⟨p, hp, hpe⟩
        · rcases c8 hx' with hx'' | ⟨hpe, -⟩
          · exact Or.inl hx''
          · exact Or.inr ⟨q, List.mem_cons_self q rest, hpe⟩
        · exact Or.inr ⟨p, List.mem_cons_of_mem q hp, hpe⟩
      · rcases ih16 hx with hx' | ⟨p, hp, hpe⟩
        · rcases c16 hx' with hx'' | ⟨hpe, -⟩
          · exact Or.inl hx''
          · exact Or.inr ⟨q, List.mem_cons_self q rest, hpe⟩
        · exact Or.inr ⟨p, List.mem_cons_of_mem q hp, hpe⟩
      · rcases ih32 hx with hx' | ⟨p, hp, hpe⟩
        · rcases c32 hx' with hx'' | ⟨hpe, -⟩
          · exact Or.inl hx''
          · exact Or.inr ⟨q, List.mem_cons_self q rest, hpe⟩
        · exact Or.inr ⟨p, List.mem_cons_of_mem q hp, hpe⟩

end TE

namespace TE

/-! Master-index accounting and slot assignment across a parameter list. -/

theorem classify_midx_acc {self : FusedAdam} (hmon : self.masterOn = true) :
    ∀ {ps : List Param} {cs cs' : CState}, classify self cs ps = .ok cs' →
    (ps.map Param.id).Nodup →
    cs'.midx = cs.midx + freshNonF32 cs.smap ps := by
  intro ps
  induction ps with
  | nil =>
    intro cs cs' h _
    unfold classify at h
    simp only [Except.ok.injEq] at h
    subst h
    rfl
  | cons q rest ih =>
    intro cs cs' h hnd
    unfold classify at h
    split at h
    next e h1 => cases h
    next cs1 h1 =>
      rw [List.map_cons, List.nodup_cons] at hnd
      have hcong : freshNonF32 cs1.smap rest = freshNonF32 cs.smap rest := by
        apply freshNonF32_congr
        intro p hp
        refine classify1_smap_other h1 p.id fun hx => ?_
        exact hnd.1 (hx ▸ List.mem_map_of_mem Param.id hp)
      rw [ih h hnd.2, hcong, classify1_midx h1, freshNonF32_cons]
      simp only [hmon, true_and]
      omega

/-- Slot assignment: a first-seen parameter at a given position in the
traversal order receives its state there, and in master-weights mode (when it
is not float32) the master shadow taken at the index that counts the
slot-consuming parameters processed before it. -/
theorem classify_fresh_spec {self : FusedAdam} (hmon : self.masterOn = true) :
    ∀ {pre : List Param} {p : Param} {suf : List Param} {cs cs' : CState},
    classify self cs (pre ++ p :: suf) = .ok cs' →
    (((pre ++ p :: suf).map Param.id).Nodup) →
    slookup cs.smap p.id = none →
    ∃ st, slookup cs'.smap p.id = some st ∧ st.exp_avg = 0 ∧ st.exp_avg_sq = 0 ∧
      ((self.masterOn = true ∧ p.dtype ≠ DType.float32 ∧
        ∃ mt, self.mwGet (cs.midx + freshNonF32 cs.smap pre) = some mt ∧
          mt.shape = p.shape ∧
          st.master_param = some ⟨cs.midx + freshNonF32 cs.smap pre, mt.shape,
            mt.value, mt.grad⟩) ∨
       (¬(self.masterOn = true ∧ p.dtype ≠ DType.float32) ∧ st.master_param = none)) := by
  intro pre
  induction pre with
  | nil =>
    intro p suf cs cs' h hnd hfresh
    rw [List.nil_append] at h
    unfold classify at h
    split at h
    next e h1 => cases h
    next cs1 h1 =>
      obtain ⟨st, hst, hz1, hz2, hmaster⟩ := classify1_smap_fresh h1 hfresh
      refine ⟨st, classify_smap_keep h hst, hz1, hz2, ?_⟩
      have hz : cs.midx + freshNonF32 cs.smap [] = cs.midx := by
        unfold freshNonF32
        omega
      rw [hz]
      exact hmaster
  | cons q pre' ih =>
    intro p suf cs cs' h hnd hfresh
    rw [List.cons_append] at h
    unfold classify at h
    split at h
    next e h1 => cases h
    next cs1 h1 =>
      rw [List.cons_append, List.map_cons, List.nodup_cons] at hnd
      have hpq : p.id ≠ q.id := by
        intro hx
        exact hnd.1 (hx ▸ List.mem_map_of_mem Param.id (by simp))
      have hfresh1 : slookup cs1.smap p.id = none := by
        rw [classify1_smap_other h1 p.id hpq]
        exact hfresh
      obtain ⟨st, hst, hz1, hz2, hmaster⟩ := ih h hnd.2 hfresh1
      have hcong : freshNonF32 cs1.smap pre' = freshNonF32 cs.smap pre' := by
        apply freshNonF32_congr
        intro r hr
        refine classify1_smap_other h1 r.id fun hx => ?_
        exact hnd.1 (hx ▸ List.mem_map_of_mem Param.id (by simp [hr]))
      have hidx : cs1.midx + freshNonF32 cs1.smap pre' =
          cs.midx + freshNonF32 cs.smap (q :: pre') := by
        rw [hcong, classify1_midx h1, freshNonF32_cons]
        simp only [hmon, true_and]
        omega
      rw [hidx] at hmaster
      exact ⟨st, hst, hz1, hz2, hmaster⟩

/-! Flags, mixing, and the capturable fp8 exclusion across a parameter
list. -/

theorem classify1_flags_ok {self : FusedAdam} {cs : CState} {p : Param} {cs' : CState}
    (h : classify1 self cs p = .ok cs')
    (hmix : ¬(cs.hasFp16 = true ∧ cs.hasBf16 = true)) :
    ¬(cs'.hasFp16 = true ∧ cs'.hasBf16 = true) := by
  obtain ⟨st, cs1, hi, hrest⟩ := classify1_spec h
  obtain ⟨-, -, -, hf1, hf2, -⟩ := initParamState_spec hi
  rcases hrest with ⟨-, hc'⟩ | ⟨gr, -, -, -, -, hx⟩
  · subst hc'; rw [hf1, hf2]; exact hmix
  · exact hx

theorem classify_flags_noMaster {self : FusedAdam} (hm : self.masterOn = false) :
    ∀ {ps : List Param} {cs cs' : CState}, classify self cs ps = .ok cs' →
    cs'.hasFp16 = (cs.hasFp16 || ps.any (pendingOf DType.float16)) ∧
    cs'.hasBf16 = (cs.hasBf16 || ps.any (pendingOf DType.bfloat16)) := by
  intro ps
  induction ps with
  | nil =>
    intro cs cs' h
    unfold classify at h
    simp only [Except.ok.injEq] at h
    subst h
    simp
  | cons q rest ih =>
    intro cs cs' h
    unfold classify at h
    split at h
    next e h1 => cases h
    next cs1 h1 =>
      obtain ⟨hq1, hq2⟩ := classify1_flags_noMaster h1 hm
      obtain ⟨hr1, hr2⟩ := ih h
      rw [hr1, hr2, hq1, hq2]
      simp [Bool.or_assoc]

theorem classify_flags_ok {self : FusedAdam} :
    ∀ {ps : List Param} {cs cs' : CState}, classify self cs ps = .ok cs' →
    ¬(cs.hasFp16 = true ∧ cs.hasBf16 = true) →
    ¬(cs'.hasFp16 = true ∧ cs'.hasBf16 = true) := by
  intro ps
  induction ps with
  | nil =>
    intro cs cs' h hmix
    unfold classify at h
    simp only [Except.ok.injEq] at h
    subst h
    exact hmix
  | cons q rest ih =>
    intro cs cs' h hmix
    unfold classify at h
    split at h
    next e h1 => cases h
    next cs1 h1 => exact ih h (classify1_flags_ok h1 hmix)

/-- In capturable mode with master weights disabled, a successful
classification finds no pending fp8 parameter and does not grow the fp8
bucket. -/
theorem classify_capturable_no_fp8 {self : FusedAdam} (hm : self.masterOn = false)
    (hcap : self.capturable = true) :
    ∀ {ps : List Param} {cs cs' : CState}, classify self cs ps = .ok cs' →
    cs'.fp8 = cs.fp8 ∧ ps.any (pendingOf DType.fp8) = false := by
  intro ps
  induction ps with
  | nil =>
    intro cs cs' h
    unfold classify at h
    simp only [Except.ok.injEq] at h
    subst h
    exact ⟨rfl, rfl⟩
  | cons q rest ih =>
    intro cs cs' h
    unfold classify at h
    split at h
    next e h1 => cases h
    next cs1 h1 =>
      by_cases hq : pendingOf DType.fp8 q = true
      · exfalso
        have hqd : q.dtype = DType.fp8 := by
          unfold pendingOf at hq
          simp only [Bool.and_eq_true, decide_eq_true_eq] at hq
          exact hq.2
        have hqp : pending q = true := by
          unfold pendingOf at hq
          simp only [Bool.and_eq_true] at hq
          exact hq.1
        exact classify1_no_fp8_capturable h1 hm hcap hqd hqp
      · obtain ⟨hr1, hr2⟩ := ih h
        refine ⟨by rw [hr1, classify1_fp8_eq h1 hm (by
          cases hx : pendingOf DType.fp8 q
          · rfl
          · exact absurd hx hq)], ?_⟩
        rw [List.any_cons, hr2]
        cases hx : pendingOf DType.fp8 q
        · rfl
        · exact absurd hx hq

end TE

namespace TE

/-! Success and error analysis of the whole classification loop with master
weights disabled. -/

theorem classify_ok_of_clean {self : FusedAdam} (hm : self.masterOn = false) :
    ∀ {ps : List Param} {cs : CState},
    (∀ p ∈ ps, okParam p = true) →
    (self.capturable = true → cs.fp8 = [] ∧ ps.any (pendingOf DType.fp8) = false) →
    ¬((cs.hasFp16 || ps.any (pendingOf DType.float16)) = true ∧
      (cs.hasBf16 || ps.any (pendingOf DType.bfloat16)) = true) →
    ∃ cs', classify self cs ps = .ok cs' := by
  intro ps
  induction ps with
  | nil =>
    intro cs _ _ _
    exact ⟨cs, rfl⟩
  | cons q rest ih =>
    intro cs hok hcap hmix
    have hcapq : self.capturable = true → cs.fp8 = [] ∧ pendingOf DType.fp8 q = false := by
      intro hc
      obtain ⟨h1, h2⟩ := hcap hc
      rw [List.any_cons] at h2
      exact ⟨h1, by
        cases hx : pendingOf DType.fp8 q
        · rfl
        · rw [hx] at h2; simp at h2⟩
    have hmixq : ¬((cs.hasFp16 || pendingOf DType.float16 q) = true ∧
        (cs.hasBf16 || pendingOf DType.bfloat16 q) = true) := by
      intro ⟨h1, h2⟩
      refine hmix ⟨?_, ?_⟩ <;>
        simp only [List.any_cons, Bool.or_eq_true] at *
      · rcases h1 with h1 | h1
        · exact Or.inl h1
        · exact Or.inr (Or.inl h1)
      · rcases h2 with h2 | h2
        · exact Or.inl h2
        · exact Or.inr (Or.inl h2)
    obtain ⟨cs1, h1⟩ := classify1_ok_of_clean hm (hok q (List.mem_cons_self q rest)) hcapq hmixq
    have hokr : ∀ p ∈ rest, okParam p = true := fun p hp =>
      hok p (List.mem_cons_of_mem q hp)
    have hcapr : self.capturable = true → cs1.fp8 = [] ∧ rest.any (pendingOf DType.fp8) = false := by
      intro hc
      obtain ⟨hb1, hb2⟩ := hcap hc
      rw [List.any_cons] at hb2
      refine ⟨?_, ?_⟩
      · rw [classify1_fp8_eq h1 hm (by
          cases hx : pendingOf DType.fp8 q
          · rfl
          · rw [hx] at hb2; simp at hb2)]
        exact hb1
      · cases hx : rest.any (pendingOf DType.fp8)
        · rfl
        · rw [hx] at hb2; simp at hb2
    have hmixr : ¬((cs1.hasFp16 || rest.any (pendingOf DType.float16)) = true ∧
        (cs1.hasBf16 || rest.any (pendingOf DType.bfloat16)) = true) := by
      obtain ⟨hf1, hf2⟩ := classify1_flags_noMaster h1 hm
      rw [hf1, hf2]
      intro ⟨h1', h2'⟩
      refine hmix ⟨?_, ?_⟩ <;>
        simp only [List.any_cons, Bool.or_eq_true] at *
      · rcases h1' with (h1' | h1') | h1'
        · exact Or.inl h1'
        · exact Or.inr (Or.inl h1')
        · exact Or.inr (Or.inr h1')
      · rcases h2' with (h2' | h2') | h2'
        · exact Or.inl h2'
        · exact Or.inr (Or.inl h2')
        · exact Or.inr (Or.inr h2')
    obtain ⟨cs', hrest⟩ := ih hokr hcapr hmixr
    refine ⟨cs', ?_⟩
    unfold classify
    rw [h1]
    exact hrest

/-- With master weights disabled and clean parameters, a classification
failure can only be the fp8-with-capturable error or the mixing error. -/
theorem classify_error_cases {self : FusedAdam} (hm : self.masterOn = false) :
    ∀ {ps : List Param} {cs : CState} {e : StepError},
    classify self cs ps = .error e →
    (∀ p ∈ ps, okParam p = true) →
    e = StepError.fp8Capturable ∨ e = StepError.mixedF16Bf16 := by
  intro ps
  induction ps with
  | nil =>
    intro cs e h _
    cases h
  | cons q rest ih =>
    intro cs e h hok
    unfold classify at h
    split at h
    next e0 h1 =>
      cases h
      obtain ⟨gr, hg, hcases⟩ := classify1_error_spec_noMaster hm h1
      have hokq := hok q (List.mem_cons_self q rest)
      unfold okParam at hokq
      rw [hg] at hokq
      simp only [Bool.and_eq_true, Bool.not_eq_true', Bool.or_eq_true,
        decide_eq_false_iff_not, decide_eq_true_eq, Bool.not_eq_true] at hokq
      obtain ⟨⟨hok1, hok2⟩, hok3⟩ := hokq
      rcases hcases with ⟨hsp, -⟩ | ⟨-, hd, -⟩ | ⟨-, hd, hmeta, -⟩ | ⟨-, he, -, -⟩ |
        ⟨-, he, -, -⟩
      · rw [hok1] at hsp; cases hsp
      · exact absurd hd hok2
      · rcases hok3 with hx | hx
        · simp [hd] at hx
        · rw [hx] at hmeta; cases hmeta
      · exact Or.inl he
      · exact Or.inr he
    next cs1 h1 => exact ih h (fun p hp => hok p (List.mem_cons_of_mem q hp))

/-- With master weights disabled, clean parameters and no fp8-capturable
conflict, a classification failure is the mixing error. -/
theorem classify_error_mixed {self : FusedAdam} (hm : self.masterOn = false) :
    ∀ {ps : List Param} {cs : CState} {e : StepError},
    classify self cs ps = .error e →
    (∀ p ∈ ps, okParam p = true) →
    (self.capturable = true → cs.fp8 = [] ∧ ps.any (pendingOf DType.fp8) = false) →
    e = StepError.mixedF16Bf16 := by
  intro ps
  induction ps with
  | nil =>
    intro cs e h _ _
    cases h
  | cons q rest ih =>
    intro cs e h hok hcap
    unfold classify at h
    split at h
    next e0 h1 =>
      cases h
      obtain ⟨gr, hg, hcases⟩ := classify1_error_spec_noMaster hm h1
      have hokq := hok q (List.mem_cons_self q rest)
      unfold okParam at hokq
      rw [hg] at hokq
      simp only [Bool.and_eq_true, Bool.not_eq_true', Bool.or_eq_true,
        decide_eq_false_iff_not, decide_eq_true_eq, Bool.not_eq_true] at hokq
      obtain ⟨⟨hok1, hok2⟩, hok3⟩ := hokq
      have hp : pending q = true := by unfold pending; rw [hg]; rfl
      rcases hcases with ⟨hsp, -⟩ | ⟨-, hd, -⟩ | ⟨-, hd, hmeta, -⟩ | ⟨-, -, hcapt, hff⟩ |
        ⟨-, he, -, -⟩
      · rw [hok1] at hsp; cases hsp
      · exact absurd hd hok2
      · rcases hok3 with hx | hx
        · simp [hd] at hx
        · rw [hx] at hmeta; cases hmeta
      · exfalso
        obtain ⟨hempty, hnofp8⟩ := hcap hcapt
        rw [List.any_cons] at hnofp8
        rcases hff with hx | hx
        · exact hx hempty
        · rw [pendingOf, hp, hx] at hnofp8
          simp at hnofp8
      · exact he
    next cs1 h1 =>
      refine ih h (fun p hp => hok p (List.mem_cons_of_mem q hp)) ?_
      intro hc
      obtain ⟨hb1, hb2⟩ := hcap hc
      rw [List.any_cons] at hb2
      refine ⟨?_, ?_⟩
      · rw [classify1_fp8_eq h1 hm (by
          cases hx : pendingOf DType.fp8 q
          · rfl
          · rw [hx] at hb2; simp at hb2)]
        exact hb1
      · cases hx : rest.any (pendingOf DType.fp8)
        · rfl
        · rw [hx] at hb2; simp at hb2

/-- With master weights disabled, clean parameters and no possible mixing, a
classification failure is the fp8-with-capturable error. -/
theorem classify_error_fp8cap {self : FusedAdam} (hm : self.masterOn = false) :
    ∀ {ps : List Param} {cs : CState} {e : StepError},
    classify self cs ps = .error e →
    (∀ p ∈ ps, okParam p = true) →
    ¬((cs.hasFp16 || ps.any (pendingOf DType.float16)) = true ∧
      (cs.hasBf16 || ps.any (pendingOf DType.bfloat16)) = true) →
    e = StepError.fp8Capturable := by
  intro ps
  induction ps with
  | nil =>
    intro cs e h _ _
    cases h
  | cons q rest ih =>
    intro cs e h hok hmix
    unfold classify at h
    split at h
    next e0 h1 =>
      cases h
      obtain ⟨gr, hg, hcases⟩ := classify1_error_spec_noMaster hm h1
      have hokq := hok q (List.mem_cons_self q rest)
      unfold okParam at hokq
      rw [hg] at hokq
      simp only [Bool.and_eq_true, Bool.not_eq_true', Bool.or_eq_true,
        decide_eq_false_iff_not, decide_eq_true_eq, Bool.not_eq_true] at hokq
      obtain ⟨⟨hok1, hok2⟩, hok3⟩ := hokq
      rcases hcases with ⟨hsp, -⟩ | ⟨-, hd, -⟩ | ⟨-, hd, hmeta, -⟩ | ⟨-, he, -, -⟩ |
        ⟨-, -, hx1, hx2⟩
      · rw [hok1] at hsp; cases hsp
      · exact absurd hd hok2
      · rcases hok3 with hx | hx
        · simp [hd] at hx
        · rw [hx] at hmeta; cases hmeta
      · exact he
      · exfalso
        refine hmix ⟨?_, ?_⟩ <;>
          simp only [List.any_cons, Bool.or_eq_true] at *
        · rcases hx1 with hx1 | hx1
          · exact Or.inl hx1
          · exact Or.inr (Or.inl hx1)
        · rcases hx2 with hx2 | hx2
          · exact Or.inl hx2
          · exact Or.inr (Or.inl hx2)
    next cs1 h1 =>
      refine ih h (fun p hp => hok p (List.mem_cons_of_mem q hp)) ?_
      obtain ⟨hf1, hf2⟩ := classify1_flags_noMaster h1 hm
      rw [hf1, hf2]
      intro ⟨h1', h2'⟩
      refine hmix ⟨?_, ?_⟩ <;>
        simp only [List.any_cons, Bool.or_eq_true] at *
      · rcases h1' with (h1' | h1') | h1'
        · exact Or.inl h1'
        · exact Or.inr (Or.inl h1')
        · exact Or.inr (Or.inr h1')
      · rcases h2' with (h2' | h2') | h2'
        · exact Or.inl h2'
        · exact Or.inr (Or.inl h2')
        · exact Or.inr (Or.inr h2')

end TE

namespace TE

/-- With master weights disabled, a first-seen parameter ends the
classification with the zero state. -/
theorem classify_fresh_noMaster {self : FusedAdam} (hm : self.masterOn = false) :
    ∀ {ps : List Param} {cs cs' : CState}, classify self cs ps = .ok cs' →
    ∀ {p : Param}, p ∈ ps → slookup cs.smap p.id = none →
    (ps.map Param.id).Nodup →
    slookup cs'.smap p.id = some ⟨0, 0, none⟩ := by
  intro ps
  induction ps with
  | nil =>
    intro cs cs' h p hp
    cases hp
  | cons q rest ih =>
    intro cs cs' h p hp hfresh hnd
    unfold classify at h
    split at h
    next e h1 => cases h
    next cs1 h1 =>
      rw [List.map_cons, List.nodup_cons] at hnd
      rcases List.mem_cons.mp hp with hp | hp
      · subst hp
        obtain ⟨st, hst, hz1, hz2, hmaster⟩ := classify1_smap_fresh h1 hfresh
        have hmn : st.master_param = none := by
          rcases hmaster with ⟨hx, -⟩ | ⟨-, hx⟩
          · rw [hm] at hx; cases hx
          · exact hx
        have : st = ⟨0, 0, none⟩ := by
          cases st
          simp only at hz1 hz2 hmn
          rw [hz1, hz2, hmn]
        rw [this] at hst
        exact classify_smap_keep h hst
      · have hne : p.id ≠ q.id := by
          intro hx
          exact hnd.1 (hx ▸ List.mem_map_of_mem Param.id hp)
        have hfresh1 : slookup cs1.smap p.id = none := by
          rw [classify1_smap_other h1 p.id hne]
          exact hfresh
        exact ih h hp hfresh1 hnd.2

/-- Parameters whose identity never carries a gradient (directly or through
the master shadow) leave no bucket entry with that identity. -/
theorem classify_skip_pid {self : FusedAdam} (pid : ℕ) :
    ∀ {ps : List Param} {cs cs' : CState},
    classify self cs ps = .ok cs' →
    (∀ p ∈ ps, p.id = pid → p.grad = none) →
    (∀ l, self.master_weights = some l → ∀ mt ∈ l, mt.grad = none) →
    (∀ st, slookup cs.smap pid = some st →
      ∀ mp, st.master_param = some mp → mp.grad = none) →
    (∀ e : Entry, (e ∈ cs.fp8 ∨ e ∈ cs.f16 ∨ e ∈ cs.f32) → e.pid ≠ pid) →
    ∀ e : Entry, (e ∈ cs'.fp8 ∨ e ∈ cs'.f16 ∨ e ∈ cs'.f32) → e.pid ≠ pid := by
  intro ps
  induction ps with
  | nil =>
    intro cs cs' h _ _ _ hinit e he
    unfold classify at h
    simp only [Except.ok.injEq] at h
    subst h
    exact hinit e he
  | cons q rest ih =>
    intro cs cs' h hgr hmw hstm hinit e he
    unfold classify at h
    split at h
    next e0 h1 => cases h
    next cs1 h1 =>
      have hstm1 : ∀ st, slookup cs1.smap pid = some st →
          ∀ mp, st.master_param = some mp → mp.grad = none := by
        by_cases hq : q.id = pid
        · by_cases hfresh : slookup cs.smap q.id = none
          · obtain ⟨st, hst, -, -, hmaster⟩ := classify1_smap_fresh h1 hfresh
            intro st' hst' mp hmp
            rw [hq] at hst
            rw [hst] at hst'
            cases hst'
            rcases hmaster with ⟨-, -, mt, hgmt, -, hmpm⟩ | ⟨-, hmpm⟩
            · rw [hmpm] at hmp
              cases hmp
              obtain ⟨l, hl⟩ : ∃ l, self.master_weights = some l := by
                unfold FusedAdam.mwGet at hgmt
                cases hml : self.master_weights with
                | none => rw [hml] at hgmt; cases hgmt
                | some l => exact ⟨l, rfl⟩
              have hml : mt ∈ l := by
                unfold FusedAdam.mwGet at hgmt
                rw [hl] at hgmt
                exact List.get?_mem hgmt
              simpa using hmw l hl mt hml
            · rw [hmpm] at hmp; cases hmp
          · cases hx : slookup cs.smap q.id with
            | none => exact absurd hx hfresh
            | some st0 =>
              intro st' hst' mp hmp
              have := classify1_smap_keep h1 hx
              rw [hq] at this
              rw [this] at hst'
              cases hst'
              exact hstm st0 (hq ▸ hx) mp hmp
        · intro st' hst' mp hmp
          rw [classify1_smap_other h1 pid fun hx => hq hx.symm] at hst'
          exact hstm st' hst' mp hmp
      by_cases hq : q.id = pid
      · obtain ⟨hb8, hb16, hb32, -, -⟩ :=
          classify1_skip_master h1 (hgr q (List.mem_cons_self q rest) hq) hmw
            (by rw [hq]; exact hstm)
        refine ih h (fun p hp hpe => hgr p (List.mem_cons_of_mem q hp) hpe) hmw hstm1
          ?_ e he
        intro e' he'
        rw [hb8, hb16, hb32] at he'
        exact hinit e' he'
      · refine ih h (fun p hp hpe => hgr p (List.mem_cons_of_mem q hp) hpe) hmw hstm1
          ?_ e he
        intro e' he'
        obtain ⟨c8, c16, c32⟩ := classify1_bucket_pids h1 e'
        rcases he' with he' | he' | he'
        · rcases c8 he' with hx | ⟨hpe, -⟩
          · exact hinit e' (Or.inl hx)
          · rw [hpe]; exact hq
        · rcases c16 he' with hx | ⟨hpe, -⟩
          · exact hinit e' (Or.inr (Or.inl hx))
          · rw [hpe]; exact hq
        · rcases c32 he' with hx | ⟨hpe, -⟩
          · exact hinit e' (Or.inr (Or.inr hx))
          · rw [hpe]; exact hq

end TE

namespace TE

/-! Lemmas about the dispatch phase: kernel write-backs touch exactly the
bucketed identities, preserve master slots and shapes, and the no-op path
leaves everything unchanged. -/

theorem applyEntry_other {a : KernelArgs} {useMaster : Bool} {e : Entry}
    {ps : List Param} {smap : List (ℕ × ParamState)} {pid : ℕ} (hne : e.pid ≠ pid) :
    plookup (applyEntry a useMaster e ps smap).1 pid = plookup ps pid ∧
    slookup (applyEntry a useMaster e ps smap).2 pid = slookup smap pid := by
  unfold applyEntry
  cases (if useMaster = true then e.master_param else none) <;>
    exact ⟨plookup_setPValue_other ps e.pid pid _ fun hx => hne hx.symm,
      slookup_sset_other smap e.pid pid _ fun hx => hne hx.symm⟩

theorem applyEntries_other {a : KernelArgs} {useMaster : Bool} :
    ∀ {entries : List Entry} {ps : List Param} {smap : List (ℕ × ParamState)} {pid : ℕ},
    (∀ e ∈ entries, e.pid ≠ pid) →
    plookup (applyEntries a useMaster entries (ps, smap)).1 pid = plookup ps pid ∧
    slookup (applyEntries a useMaster entries (ps, smap)).2 pid = slookup smap pid := by
  intro entries
  induction entries with
  | nil =>
    intro ps smap pid _
    exact ⟨rfl, rfl⟩
  | cons e es ih =>
    intro ps smap pid h
    have he := @applyEntry_other a useMaster e ps smap pid
      (h e (List.mem_cons_self e es))
    have hrec := @ih (applyEntry a useMaster e ps smap).1
      (applyEntry a useMaster e ps smap).2 pid
      (fun e' he' => h e' (List.mem_cons_of_mem e he'))
    unfold applyEntries
    constructor
    · rw [hrec.1.trans he.1]
    · rw [hrec.2.trans he.2]

theorem apply_mta_other {kind : KernelKind} {noop : Bool} {a : KernelArgs}
    {useMaster : Bool} {entries : List Entry} {ps : List Param}
    {smap : List (ℕ × ParamState)} {tr : List KernelCall} {pid : ℕ}
    (h : ∀ e ∈ entries, e.pid ≠ pid) :
    plookup (apply_multi_tensor_adam kind noop a useMaster entries ps smap tr).1 pid =
      plookup ps pid ∧
    slookup (apply_multi_tensor_adam kind noop a useMaster entries ps smap tr).2.1 pid =
      slookup smap pid := by
  unfold apply_multi_tensor_adam
  by_cases hemp : entries = []
  · rw [if_pos hemp]
    exact ⟨rfl, rfl⟩
  · rw [if_neg hemp]
    by_cases hnoop : noop = true
    · rw [if_pos hnoop]
      exact ⟨rfl, rfl⟩
    · rw [if_neg hnoop]
      exact applyEntries_other h

theorem apply_mta_noop {kind : KernelKind} {a : KernelArgs} {useMaster : Bool}
    {entries : List Entry} {ps : List Param} {smap : List (ℕ × ParamState)}
    {tr : List KernelCall} :
    (apply_multi_tensor_adam kind true a useMaster entries ps smap tr).1 = ps ∧
    (apply_multi_tensor_adam kind true a useMaster entries ps smap tr).2.1 = smap := by
  unfold apply_multi_tensor_adam
  by_cases hemp : entries = []
  · rw [if_pos hemp]
    exact ⟨rfl, rfl⟩
  · rw [if_neg hemp, if_pos rfl]
    exact ⟨rfl, rfl⟩

theorem apply_mta_trace {kind : KernelKind} {noop : Bool} {a : KernelArgs}
    {useMaster : Bool} {entries : List Entry} {ps : List Param}
    {smap : List (ℕ × ParamState)} {tr : List KernelCall} :
    ∀ c ∈ (apply_multi_tensor_adam kind noop a useMaster entries ps smap tr).2.2,
      c ∈ tr ∨ c.kind = kind := by
  unfold apply_multi_tensor_adam
  by_cases hemp : entries = []
  · rw [if_pos hemp]
    exact fun c hc => Or.inl hc
  · rw [if_neg hemp]
    by_cases hnoop : noop = true
    · rw [if_pos hnoop]
      intro c hc
      rcases List.mem_append.mp hc with hc | hc
      · exact Or.inl hc
      · rw [List.mem_singleton.mp hc]
        exact Or.inr rfl
    · rw [if_neg hnoop]
      intro c hc
      rcases List.mem_append.mp hc with hc | hc
      · exact Or.inl hc
      · rw [List.mem_singleton.mp hc]
        exact Or.inr rfl

theorem applyEntries_smsig {a : KernelArgs} {useMaster : Bool} :
    ∀ {entries : List Entry} {ps : List Param} {smap : List (ℕ × ParamState)} {pid : ℕ},
    (∀ e ∈ entries, e.pid = pid →
      ∃ st, slookup smap pid = some st ∧
        (useMaster = true → msig e.master_param = msig st.master_param)) →
    smsig (slookup (applyEntries a useMaster entries (ps, smap)).2 pid) =
      smsig (slookup smap pid) := by
  intro entries
  induction entries with
  | nil =>
    intro ps smap pid _
    rfl
  | cons e es ih =>
    intro ps smap pid h
    by_cases hpe : e.pid = pid
    · obtain ⟨st, hst, hsig⟩ := h e (List.mem_cons_self e es) hpe
      have hwrite : ∃ st1, slookup (applyEntry a useMaster e ps smap).2 pid = some st1 ∧
          msig st1.master_param = msig st.master_param := by
        unfold applyEntry
        cases hb : (if useMaster = true then e.master_param else none) with
        | some mp =>
          refine ⟨_, by rw [← hpe]; exact slookup_sset_self _ _ _, ?_⟩
          have hu : useMaster = true := by
            cases hu : useMaster
            · rw [hu] at hb; cases hb
            · rfl
          have hem : e.master_param = some mp := by
            rw [hu] at hb
            simpa using hb
          have := hsig hu
          rw [hem] at this
          simpa [msig] using this
        | none =>
          refine ⟨_, by rw [← hpe]; exact slookup_sset_self _ _ _, ?_⟩
          simp only []
          rw [hpe, hst]
      obtain ⟨st1, hst1, hsig1⟩ := hwrite
      have hrec := @ih (applyEntry a useMaster e ps smap).1
        (applyEntry a useMaster e ps smap).2 pid
        (fun e' he' hpe' => by
          obtain ⟨st0, hst0, hsig0⟩ := h e' (List.mem_cons_of_mem e he') hpe'
          refine ⟨st1, hst1, fun hu => ?_⟩
          rw [hst0] at hst
          cases hst
          rw [hsig0 hu, ← hsig1])
      unfold applyEntries
      rw [hrec, hst1, hst]
      simp [smsig, hsig1]
    · have he := @applyEntry_other a useMaster e ps smap pid hpe
      have hrec := @ih (applyEntry a useMaster e ps smap).1
        (applyEntry a useMaster e ps smap).2 pid
        (fun e' he' hpe' => by
          obtain ⟨st0, hst0, hsig0⟩ := h e' (List.mem_cons_of_mem e he') hpe'
          exact ⟨st0, by rw [he.2]; exact hst0, hsig0⟩)
      unfold applyEntries
      rw [hrec, he.2]

theorem apply_mta_smsig {kind : KernelKind} {noop : Bool} {a : KernelArgs}
    {useMaster : Bool} {entries : List Entry} {ps : List Param}
    {smap : List (ℕ × ParamState)} {tr : List KernelCall} {pid : ℕ}
    (h : ∀ e ∈ entries, e.pid = pid →
      ∃ st, slookup smap pid = some st ∧
        (useMaster = true → msig e.master_param = msig st.master_param)) :
    smsig (slookup (apply_multi_tensor_adam kind noop a useMaster entries ps smap tr).2.1 pid) =
      smsig (slookup smap pid) := by
  unfold apply_multi_tensor_adam
  by_cases hemp : entries = []
  · rw [if_pos hemp]
  · rw [if_neg hemp]
    by_cases hnoop : noop = true
    · rw [if_pos hnoop]
    · rw [if_neg hnoop]
      exact applyEntries_smsig h

end TE

namespace TE

/-! Lemmas about the whole dispatch phase of one group. -/

theorem dispatchGroup_other {self : FusedAdam} {env : Env} {g : Group} {t : ℕ}
    {cs : CState} {buf : ℤ} {pid : ℕ}
    (h : ∀ e : Entry, (e ∈ cs.fp8 ∨ e ∈ cs.f16 ∨ e ∈ cs.f32) → e.pid ≠ pid) :
    plookup (dispatchGroup self env g t cs buf).params pid = plookup g.params pid ∧
    slookup (dispatchGroup self env g t cs buf).smap pid = slookup cs.smap pid := by
  have h8 : ∀ e ∈ cs.fp8, e.pid ≠ pid := fun e he => h e (Or.inl he)
  have h16 : ∀ e ∈ cs.f16, e.pid ≠ pid := fun e he => h e (Or.inr (Or.inl he))
  have h32 : ∀ e ∈ cs.f32, e.pid ≠ pid := fun e he => h e (Or.inr (Or.inr he))
  unfold dispatchGroup
  by_cases hc : self.capturable = true
  · rw [if_pos hc]
    by_cases hmon : self.masterOn = true
    · rw [if_pos hmon]
      simp only []
      obtain ⟨ha1, ha2⟩ := apply_mta_other h16
      obtain ⟨hb1, hb2⟩ := apply_mta_other h32
      exact ⟨hb1.trans ha1, hb2.trans ha2⟩
    · rw [if_neg hmon]
      simp only []
      obtain ⟨ha1, ha2⟩ := apply_mta_other h16
      obtain ⟨hb1, hb2⟩ := apply_mta_other h32
      exact ⟨hb1.trans ha1, hb2.trans ha2⟩
  · rw [if_neg hc]
    by_cases hmon : self.masterOn = true
    · rw [if_pos hmon]
      simp only []
      obtain ⟨ha1, ha2⟩ := apply_mta_other h16
      obtain ⟨hb1, hb2⟩ := apply_mta_other h8
      obtain ⟨hc1, hc2⟩ := apply_mta_other h32
      exact ⟨(hc1.trans hb1).trans ha1, (hc2.trans hb2).trans ha2⟩
    · rw [if_neg hmon]
      simp only []
      obtain ⟨ha1, ha2⟩ := apply_mta_other h16
      obtain ⟨hb1, hb2⟩ := apply_mta_other h32
      exact ⟨hb1.trans ha1, hb2.trans ha2⟩

theorem dispatchGroup_buf {self : FusedAdam} {env : Env} {g : Group} {t : ℕ}
    {cs : CState} {buf : ℤ} :
    (dispatchGroup self env g t cs buf).buf =
      if self.capturable = true then env.foundInf else buf := by
  unfold dispatchGroup
  by_cases hc : self.capturable = true
  · rw [if_pos hc, if_pos hc]
    by_cases hmon : self.masterOn = true
    · rw [if_pos hmon]
    · rw [if_neg hmon]
  · rw [if_neg hc, if_neg hc]
    by_cases hmon : self.masterOn = true
    · rw [if_pos hmon]
    · rw [if_neg hmon]

/-- When the freshly queried overflow flag equals 1 in capturable mode, the
dispatch phase changes neither the parameters nor the state map. -/
theorem dispatchGroup_noop {self : FusedAdam} {env : Env} {g : Group} {t : ℕ}
    {cs : CState} {buf : ℤ} (hc : self.capturable = true) (hf : env.foundInf = 1) :
    (dispatchGroup self env g t cs buf).params = g.params ∧
    (dispatchGroup self env g t cs buf).smap = cs.smap := by
  unfold dispatchGroup
  rw [if_pos hc]
  have hd : decide (env.foundInf = 1) = true := by rw [hf]; rfl
  by_cases hmon : self.masterOn = true
  · rw [if_pos hmon]
    simp only [hd]
    obtain ⟨ha1, ha2⟩ := @apply_mta_noop KernelKind.adam_capturable_master _ _ cs.f16 g.params cs.smap _
    rw [ha1, ha2]
    obtain ⟨hb1, hb2⟩ := @apply_mta_noop KernelKind.adam_capturable _ _ cs.f32 g.params cs.smap _
    rw [hb1, hb2]
    exact ⟨rfl, rfl⟩
  · rw [if_neg hmon]
    simp only [hd]
    obtain ⟨ha1, ha2⟩ := @apply_mta_noop KernelKind.adam_capturable _ _ cs.f16 g.params cs.smap _
    rw [ha1, ha2]
    obtain ⟨hb1, hb2⟩ := @apply_mta_noop KernelKind.adam_capturable _ _ cs.f32 g.params cs.smap _
    rw [hb1, hb2]
    exact ⟨rfl, rfl⟩

/-- In capturable mode every launch uses one of the two capturable kernels. -/
theorem dispatchGroup_trace_capturable {self : FusedAdam} {env : Env} {g : Group}
    {t : ℕ} {cs : CState} {buf : ℤ} (hc : self.capturable = true) :
    ∀ c ∈ (dispatchGroup self env g t cs buf).tr,
      c.kind = KernelKind.adam_capturable ∨ c.kind = KernelKind.adam_capturable_master := by
  unfold dispatchGroup
  rw [if_pos hc]
  by_cases hmon : self.masterOn = true
  · rw [if_pos hmon]
    intro c hcm
    rcases apply_mta_trace c hcm with hx | hx
    · rcases apply_mta_trace c hx with hx' | hx'
      · cases hx'
      · exact Or.inr hx'
    · exact Or.inl hx
  · rw [if_neg hmon]
    intro c hcm
    rcases apply_mta_trace c hcm with hx | hx
    · rcases apply_mta_trace c hx with hx' | hx'
      · cases hx'
      · exact Or.inl hx'
    · exact Or.inl hx

/-- With master weights disabled, the fp8 kernel is never launched. -/
theorem dispatchGroup_trace_noMaster {self : FusedAdam} {env : Env} {g : Group}
    {t : ℕ} {cs : CState} {buf : ℤ} (hmon : self.masterOn = false) :
    ∀ c ∈ (dispatchGroup self env g t cs buf).tr, c.kind ≠ KernelKind.adam_fp8 := by
  unfold dispatchGroup
  rw [hmon]
  by_cases hc : self.capturable = true
  · rw [if_pos hc]
    simp only [Bool.false_eq_true, if_false]
    intro c hcm
    rcases apply_mta_trace c hcm with hx | hx
    · rcases apply_mta_trace c hx with hx' | hx'
      · cases hx'
      · rw [hx']; intro hk; cases hk
    · rw [hx]; intro hk; cases hk
  · rw [if_neg hc]
    simp only [Bool.false_eq_true, if_false]
    intro c hcm
    rcases apply_mta_trace c hcm with hx | hx
    · rcases apply_mta_trace c hx with hx' | hx'
      · cases hx'
      · rw [hx']; intro hk; cases hk
    · rw [hx]; intro hk; cases hk

/-- Coherence of bucket entries transfers along a state map that preserves
presence and master signature. -/
theorem coh_transfer {smap1 smap0 : List (ℕ × ParamState)} {pid : ℕ}
    {entries : List Entry}
    (hpres : smsig (slookup smap1 pid) = smsig (slookup smap0 pid))
    (h : ∀ e ∈ entries, e.pid = pid →
      ∃ st, slookup smap0 pid = some st ∧ msig e.master_param = msig st.master_param) :
    ∀ e ∈ entries, e.pid = pid →
      ∃ st, slookup smap1 pid = some st ∧ msig e.master_param = msig st.master_param := by
  intro e he hpe
  obtain ⟨st, h1, h2⟩ := h e he hpe
  rw [h1] at hpres
  cases hx : slookup smap1 pid with
  | none => rw [hx] at hpres; cases hpres
  | some st1 =>
    rw [hx] at hpres
    refine ⟨st1, rfl, ?_⟩
    unfold smsig at hpres
    simp only [Option.some.injEq] at hpres
    rw [h2, ← hpres]

/-- Presence of a state entry transfers along signature preservation. -/
theorem presence_transfer {smap1 smap0 : List (ℕ × ParamState)} {pid : ℕ}
    (hpres : smsig (slookup smap1 pid) = smsig (slookup smap0 pid))
    {st : ParamState} (h : slookup smap0 pid = some st) :
    ∃ st1, slookup smap1 pid = some st1 := by
  rw [h] at hpres
  cases hx : slookup smap1 pid with
  | none => rw [hx] at hpres; cases hpres
  | some st1 => exact ⟨st1, rfl⟩

/-- The dispatch phase preserves presence, slot and shape of every master
shadow, provided the bucket entries captured the state's master shadows
whenever master weights are active. -/
theorem dispatchGroup_smsig {self : FusedAdam} {env : Env} {g : Group} {t : ℕ}
    {cs : CState} {buf : ℤ} {pid : ℕ}
    (hcoh : ∀ e : Entry, (e ∈ cs.fp8 ∨ e ∈ cs.f16 ∨ e ∈ cs.f32) → e.pid = pid →
      ∃ st, slookup cs.smap pid = some st ∧
        (self.masterOn = true → msig e.master_param = msig st.master_param)) :
    smsig (slookup (dispatchGroup self env g t cs buf).smap pid) =
      smsig (slookup cs.smap pid) := by
  unfold dispatchGroup
  by_cases hc : self.capturable = true
  · rw [if_pos hc]
    by_cases hmon : self.masterOn = true
    · rw [if_pos hmon]
      simp only []
      have hco16 : ∀ e ∈ cs.f16, e.pid = pid →
          ∃ st, slookup cs.smap pid = some st ∧
            msig e.master_param = msig st.master_param :=
        fun e he hpe => Exists.imp (fun st hh => ⟨hh.1, hh.2 hmon⟩)
          (hcoh e (Or.inr (Or.inl he)) hpe)
      have hco32 : ∀ e ∈ cs.f32, e.pid = pid →
          ∃ st, slookup cs.smap pid = some st ∧
            msig e.master_param = msig st.master_param :=
        fun e he hpe => Exists.imp (fun st hh => ⟨hh.1, hh.2 hmon⟩)
          (hcoh e (Or.inr (Or.inr he)) hpe)
      refine Eq.trans (apply_mta_smsig ?_) (apply_mta_smsig (fun e he hpe =>
        Exists.imp (fun st hh => ⟨hh.1, fun _ => hh.2⟩) (hco16 e he hpe)))
      exact fun e he hpe =>
        Exists.imp (fun st hh => ⟨hh.1, fun _ => hh.2⟩)
          (coh_transfer (apply_mta_smsig (fun e1 he1 hpe1 =>
            Exists.imp (fun st hh => ⟨hh.1, fun _ => hh.2⟩) (hco16 e1 he1 hpe1)))
            hco32 e he hpe)
    · rw [if_neg hmon]
      simp only []
      have hco16 : ∀ e ∈ cs.f16, e.pid = pid →
          ∃ st, slookup cs.smap pid = some st :=
        fun e he hpe => Exists.imp (fun st hh => hh.1)
          (hcoh e (Or.inr (Or.inl he)) hpe)
      have hco32 : ∀ e ∈ cs.f32, e.pid = pid →
          ∃ st, slookup cs.smap pid = some st :=
        fun e he hpe => Exists.imp (fun st hh => hh.1)
          (hcoh e (Or.inr (Or.inr he)) hpe)
      refine Eq.trans (apply_mta_smsig ?_) (apply_mta_smsig (fun e he hpe =>
        Exists.imp (fun st hh => ⟨hh, fun hx => (Bool.false_ne_true hx).elim⟩) (hco16 e he hpe)))
      intro e he hpe
      obtain ⟨st, hst⟩ := hco32 e he hpe
      obtain ⟨st1, hst1⟩ := presence_transfer (apply_mta_smsig (fun e1 he1 hpe1 =>
        Exists.imp (fun st hh => ⟨hh, fun hx => (Bool.false_ne_true hx).elim⟩) (hco16 e1 he1 hpe1)))
        hst
      exact ⟨st1, hst1, fun hx => (Bool.false_ne_true hx).elim⟩
  · rw [if_neg hc]
    by_cases hmon : self.masterOn = true
    · rw [if_pos hmon]
      simp only []
      have hco8 : ∀ e ∈ cs.fp8, e.pid = pid →
          ∃ st, slookup cs.smap pid = some st ∧
            msig e.master_param = msig st.master_param :=
        fun e he hpe => Exists.imp (fun st hh => ⟨hh.1, hh.2 hmon⟩)
          (hcoh e (Or.inl he) hpe)
      have hco16 : ∀ e ∈ cs.f16, e.pid = pid →
          ∃ st, slookup cs.smap pid = some st ∧
            msig e.master_param = msig st.master_param :=
        fun e he hpe => Exists.imp (fun st hh => ⟨hh.1, hh.2 hmon⟩)
          (hcoh e (Or.inr (Or.inl he)) hpe)
      have hco32 : ∀ e ∈ cs.f32, e.pid = pid →
          ∃ st, slookup cs.smap pid = some st ∧
            msig e.master_param = msig st.master_param :=
        fun e he hpe => Exists.imp (fun st hh => ⟨hh.1, hh.2 hmon⟩)
          (hcoh e (Or.inr (Or.inr he)) hpe)
      refine Eq.trans (apply_mta_smsig ?_)
        (Eq.trans (apply_mta_smsig ?_) (apply_mta_smsig (fun e he hpe =>
          Exists.imp (fun st hh => ⟨hh.1, fun _ => hh.2⟩) (hco16 e he hpe))))
      · refine fun e he hpe =>
          Exists.imp (fun st hh => ⟨hh.1, fun _ => hh.2⟩)
            (coh_transfer (Eq.trans (apply_mta_smsig ?_) (apply_mta_smsig (fun e1 he1 hpe1 =>
              Exists.imp (fun st hh => ⟨hh.1, fun _ => hh.2⟩) (hco16 e1 he1 hpe1))))
              hco32 e he hpe)
        exact fun e1 he1 hpe1 =>
          Exists.imp (fun st hh => ⟨hh.1, fun _ => hh.2⟩)
            (coh_transfer (apply_mta_smsig (fun e2 he2 hpe2 =>
              Exists.imp (fun st hh => ⟨hh.1, fun _ => hh.2⟩) (hco16 e2 he2 hpe2)))
              hco8 e1 he1 hpe1)
      · exact fun e he hpe =>
          Exists.imp (fun st hh => ⟨hh.1, fun _ => hh.2⟩)
            (coh_transfer (apply_mta_smsig (fun e1 he1 hpe1 =>
              Exists.imp (fun st hh => ⟨hh.1, fun _ => hh.2⟩) (hco16 e1 he1 hpe1)))
              hco8 e he hpe)
    · rw [if_neg hmon]
      simp only []
      have hco16 : ∀ e ∈ cs.f16, e.pid = pid →
          ∃ st, slookup cs.smap pid = some st :=
        fun e he hpe => Exists.imp (fun st hh => hh.1)
          (hcoh e (Or.inr (Or.inl he)) hpe)
      have hco32 : ∀ e ∈ cs.f32, e.pid = pid →
          ∃ st, slookup cs.smap pid = some st :=
        fun e he hpe => Exists.imp (fun st hh => hh.1)
          (hcoh e (Or.inr (Or.inr he)) hpe)
      refine Eq.trans (apply_mta_smsig ?_) (apply_mta_smsig (fun e he hpe =>
        Exists.imp (fun st hh => ⟨hh, fun hx => (Bool.false_ne_true hx).elim⟩) (hco16 e he hpe)))
      intro e he hpe
      obtain ⟨st, hst⟩ := hco32 e he hpe
      obtain ⟨st1, hst1⟩ := presence_transfer (apply_mta_smsig (fun e1 he1 hpe1 =>
        Exists.imp (fun st hh => ⟨hh, fun hx => (Bool.false_ne_true hx).elim⟩) (hco16 e1 he1 hpe1)))
        hst
      exact ⟨st1, hst1, fun hx => (Bool.false_ne_true hx).elim⟩

end TE

namespace TE

/-! Lemmas about one group step and supporting coherence facts. -/

theorem initParamState_lookup {self : FusedAdam} {cs : CState} {p : Param}
    {st : ParamState} {cs1 : CState}
    (h : initParamState self cs p = .ok (st, cs1)) :
    slookup cs1.smap p.id = some st := by
  obtain ⟨-, -, -, -, -, hcase⟩ := initParamState_spec h
  rcases hcase with ⟨hsome, hc⟩ | ⟨-, -, -, hsm, -⟩
  · rw [hc]; exact hsome
  · rw [hsm]; exact slookup_sset_self _ _ _

/-- Classification keeps bucket entries coherent with the state map: every
entry points at a present state entry whose master shadow it captured (in
master-weights mode). -/
theorem classify_coherent {self : FusedAdam} :
    ∀ {ps : List Param} {cs cs' : CState}, classify self cs ps = .ok cs' →
    (ps.map Param.id).Nodup →
    (∀ e : Entry, (e ∈ cs.fp8 ∨ e ∈ cs.f16 ∨ e ∈ cs.f32) →
      e.pid ∉ ps.map Param.id ∧
      ∃ st, slookup cs.smap e.pid = some st ∧
        (self.masterOn = true → e.master_param = st.master_param)) →
    ∀ e : Entry, (e ∈ cs'.fp8 ∨ e ∈ cs'.f16 ∨ e ∈ cs'.f32) →
      ∃ st, slookup cs'.smap e.pid = some st ∧
        (self.masterOn = true → e.master_param = st.master_param) := by
  intro ps
  induction ps with
  | nil =>
    intro cs cs' h _ hinv e he
    unfold classify at h
    simp only [Except.ok.injEq] at h
    subst h
    exact (hinv e he).2
  | cons q rest ih =>
    intro cs cs' h hnd hinv e he
    unfold classify at h
    split at h
    next e0 h1 => cases h
    next cs1 h1 =>
      rw [List.map_cons, List.nodup_cons] at hnd
      refine ih h hnd.2 ?_ e he
      intro e' he'
      obtain ⟨st0, cs10, hi, hrest⟩ := classify1_spec h1
      obtain ⟨hb8, hb16, hb32, -, -, -⟩ := initParamState_spec hi
      have hnew : (e' ∈ cs.fp8 ∨ e' ∈ cs.f16 ∨ e' ∈ cs.f32) ∨
          (e'.pid = q.id ∧
            (self.masterOn = true → e'.master_param = st0.master_param) ∧
            slookup cs1.smap q.id = some st0) := by
        rcases hrest with ⟨-, hc'⟩ | ⟨gr, -, -, hb, -, -⟩
        · subst hc'
          rw [hb8, hb16, hb32] at he'
          exact Or.inl he'
        · have hlook : slookup cs1.smap q.id = some st0 := by
            rw [(bucketAppend_smap hb).1]
            exact initParamState_lookup hi
          rcases bucketAppend_spec hb with ⟨-, -, hc⟩ | ⟨-, hc⟩ | ⟨-, hc⟩ | ⟨-, hc⟩ <;>
            subst hc <;>
            rcases he' with he' | he' | he' <;>
            (try simp only [List.mem_append, List.mem_singleton, hb8, hb16, hb32] at he') <;>
            first
            | (rcases he' with he' | he'
               · first
                 | exact Or.inl (Or.inl he')
                 | exact Or.inl (Or.inr (Or.inl he'))
                 | exact Or.inl (Or.inr (Or.inr he'))
               · exact Or.inr ⟨by rw [he']; exact rfl,
                   fun hmon => by rw [he']; simp [mkEntry, hmon], hlook⟩)
            | exact Or.inl (Or.inl he')
            | exact Or.inl (Or.inr (Or.inl he'))
            | exact Or.inl (Or.inr (Or.inr he'))
      rcases hnew with hold | ⟨hpid, hmaster, hlook⟩
      · obtain ⟨hnotin, st, hst, hcap⟩ := hinv e' hold
        simp only [List.map_cons, List.mem_cons, not_or] at hnotin
        refine ⟨hnotin.2, st, ?_, hcap⟩
        rw [classify1_smap_other h1 e'.pid hnotin.1]
        exact hst
      · refine ⟨by rw [hpid]; simpa using hnd.1, st0, by rw [hpid]; exact hlook, hmaster⟩

end TE

namespace TE

/-! Lemmas about the loop over parameter groups. -/

theorem stepGroup_spec {self : FusedAdam} {env : Env} {g : Group}
    {smap : List (ℕ × ParamState)} {midx : ℕ} {buf : ℤ} {r : GRes}
    (h : stepGroup self env g smap midx buf = .ok r) :
    (g.params = [] ∧ r = ⟨g, smap, midx, buf, []⟩) ∨
    (g.params ≠ [] ∧
      ∃ cs, classify self ⟨smap, midx, [], [], [], false, false⟩ g.params = .ok cs ∧
        r = ⟨{ g with
                 step := some (stepT self g buf)
                 params := (dispatchGroup self env g (stepT self g buf) cs buf).params },
             (dispatchGroup self env g (stepT self g buf) cs buf).smap, cs.midx,
             (dispatchGroup self env g (stepT self g buf) cs buf).buf,
             (dispatchGroup self env g (stepT self g buf) cs buf).tr⟩) := by
  unfold stepGroup at h
  by_cases hemp : g.params = []
  · rw [if_pos hemp] at h
    simp only [Except.ok.injEq] at h
    exact Or.inl ⟨hemp, h.symm⟩
  · rw [if_neg hemp] at h
    split at h
    next e h1 => cases h
    next cs h1 =>
      simp only [Except.ok.injEq] at h
      exact Or.inr ⟨hemp, cs, h1, h.symm⟩

theorem stepT_congr {self : FusedAdam} {g : Group} (b b' : ℤ)
    (h : self.capturable = true → b = b') : stepT self g b = stepT self g b' := by
  unfold stepT
  cases g.step
  · rfl
  · by_cases hc : self.capturable = true
    · rw [h hc]
    · simp [hc]

/-- Step counters across one call: an empty group is untouched; a non-empty
group's counter becomes stepT computed against the buffer value current when
that group was reached, namely the entry buffer for groups preceded only by
empty groups and the freshly queried overflow value afterwards. -/
theorem runGroups_steps {self : FusedAdam} {env : Env} :
    ∀ {gs : List Group} {smap : List (ℕ × ParamState)} {midx : ℕ} {buf : ℤ}
      {gs' : List Group} {smap' : List (ℕ × ParamState)} {buf' : ℤ} {tr : List KernelCall},
    runGroups self env gs smap midx buf = (.ok (gs', smap', buf'), tr) →
    gs'.length = gs.length ∧
    ∀ i g, gs.get? i = some g →
      (g.params = [] → gs'.get? i = some g) ∧
      (g.params ≠ [] → ∃ g', gs'.get? i = some g' ∧
        g'.step = some (stepT self g
          (if (gs.take i).all (fun x => x.params.isEmpty) then buf else env.foundInf))) := by
  intro gs
  induction gs with
  | nil =>
    intro smap midx buf gs' smap' buf' tr h
    unfold runGroups at h
    simp only [Prod.mk.injEq, Except.ok.injEq] at h
    obtain ⟨⟨h1, -, -⟩, -⟩ := h
    subst h1
    refine ⟨rfl, ?_⟩
    intro i g hg
    cases hg
  | cons g0 rest ih =>
    intro smap midx buf gs' smap' buf' tr h
    unfold runGroups at h
    split at h
    next e h1 => simp at h
    next r h1 =>
      split at h
      next e tr2 h2 => simp at h
      next gs2 smap2 buf2 tr2 h2 =>
        simp only [Prod.mk.injEq, Except.ok.injEq] at h
        obtain ⟨⟨hg, hs, hb⟩, htr⟩ := h
        subst hg; subst hs; subst hb
        rcases stepGroup_spec h1 with ⟨hemp, hr⟩ | ⟨hne, cs, hcl, hr⟩
        · subst hr
          obtain ⟨ihlen, ihget⟩ := ih h2
          refine ⟨by simp [ihlen], ?_⟩
          intro i g hg
          cases i with
          | zero =>
            simp only [List.get?] at hg
            cases hg
            refine ⟨fun _ => rfl, fun hne => absurd hemp hne⟩
          | succ i' =>
            simp only [List.get?] at hg ⊢
            obtain ⟨hg1, hg2⟩ := ihget i' g hg
            refine ⟨hg1, fun hne => ?_⟩
            obtain ⟨g', hgg, hstep⟩ := hg2 hne
            refine ⟨g', hgg, ?_⟩
            rw [hstep]
            have hcond : ((g0 :: rest).take (i' + 1)).all (fun x => x.params.isEmpty) =
                (rest.take i').all (fun x => x.params.isEmpty) := by
              simp [List.take_succ_cons, List.all_cons, hemp]
            rw [hcond]
        · subst hr
          obtain ⟨ihlen, ihget⟩ := ih h2
          refine ⟨by simp [ihlen], ?_⟩
          intro i g hg
          cases i with
          | zero =>
            simp only [List.get?] at hg
            cases hg
            refine ⟨fun hx => absurd hx hne, fun _ => ?_⟩
            refine ⟨_, rfl, ?_⟩
            simp
          | succ i' =>
            simp only [List.get?] at hg ⊢
            obtain ⟨hg1, hg2⟩ := ihget i' g hg
            refine ⟨hg1, fun hgne => ?_⟩
            obtain ⟨g', hgg, hstep⟩ := hg2 hgne
            refine ⟨g', hgg, ?_⟩
            have hg0 : g0.params.isEmpty = false := by
              cases hx : g0.params with
              | nil => exact absurd hx hne
              | cons a as => rfl
            have hcond : ((g0 :: rest).take (i' + 1)).all (fun x => x.params.isEmpty) =
                false := by
              rw [List.take_succ_cons, List.all_cons, hg0, Bool.false_and]
            rw [hcond, if_neg (by simp), hstep]
            refine congrArg some ?_
            apply stepT_congr
            intro hcapt
            by_cases hcond2 : (rest.take i').all (fun x => x.params.isEmpty) = true
            · rw [if_pos hcond2]
              show (dispatchGroup self env g0 (stepT self g0 buf) cs buf).buf = env.foundInf
              rw [dispatchGroup_buf, if_pos hcapt]
            · rw [if_neg hcond2]
  
end TE

namespace TE

/-- In capturable mode with the overflow flag raised now and already raised
at call entry, the call only rewrites step counters (by zero for existing
counters, to 1 for first-sight groups); parameters and existing state
entries keep their exact values. -/
theorem runGroups_noop {self : FusedAdam} {env : Env} (hc : self.capturable = true)
    (hf : env.foundInf = 1) :
    ∀ {gs : List Group} {smap : List (ℕ × ParamState)} {midx : ℕ}
      {gs' : List Group} {smap' : List (ℕ × ParamState)} {buf' : ℤ} {tr : List KernelCall},
    runGroups self env gs smap midx 1 = (.ok (gs', smap', buf'), tr) →
    (∀ i g, gs.get? i = some g →
      gs'.get? i = some (if g.params = [] then g
        else { g with step := some (stepT self g 1) })) ∧
    (∀ pid st, slookup smap pid = some st → slookup smap' pid = some st) ∧
    buf' = 1 := by
  intro gs
  induction gs with
  | nil =>
    intro smap midx gs' smap' buf' tr h
    unfold runGroups at h
    injection h with hA hB
    injection hA with hC
    injection hC with h1 h2
    injection h2 with h2a h2b
    subst h1; subst h2a; subst h2b
    exact ⟨(fun i g hg => by cases hg), fun pid st hst => hst, rfl⟩
  | cons g0 rest ih =>
    intro smap midx gs' smap' buf' tr h
    unfold runGroups at h
    split at h
    next e h1 => simp at h
    next r h1 =>
      split at h
      next e tr2 h2 => simp at h
      next gs2 smap2 buf2 tr2 h2 =>
        simp only [Prod.mk.injEq, Except.ok.injEq] at h
        obtain ⟨⟨hg, hs, hb⟩, -⟩ := h
        subst hg; subst hs; subst hb
        rcases stepGroup_spec h1 with ⟨hemp, hr⟩ | ⟨hne, cs, hcl, hr⟩
        · subst hr
          obtain ⟨ih1, ih2, ih3⟩ := ih h2
          refine ⟨?_, ih2, ih3⟩
          intro i g hg
          cases i with
          | zero =>
            simp only [List.get?] at hg
            cases hg
            simp [hemp]
          | succ i' =>
            simp only [List.get?] at hg ⊢
            exact ih1 i' g hg
        · subst hr
          have hnoop := @dispatchGroup_noop self env g0 (stepT self g0 1) cs 1 hc hf
          have hbufd : (dispatchGroup self env g0 (stepT self g0 1) cs 1).buf = 1 := by
            rw [dispatchGroup_buf, if_pos hc, hf]
          rw [hnoop.2, hbufd] at h2
          obtain ⟨ih1, ih2, ih3⟩ := ih h2
          refine ⟨?_, ?_, ih3⟩
          · intro i g hg
            cases i with
            | zero =>
              simp only [List.get?] at hg
              cases hg
              simp only [List.get?]
              rw [if_neg hne, hnoop.1]
            | succ i' =>
              simp only [List.get?] at hg ⊢
              exact ih1 i' g hg
          · intro pid st hst
            exact ih2 pid st (classify_smap_keep hcl hst)

/-- Character of the state entry held by one identity after classification:
either it was already there, or it was created zero-initialized with a
master shadow (if any) taken from the master_weights list. -/
theorem classify_pid_state {self : FusedAdam} (pid : ℕ)
    (hmw : ∀ l, self.master_weights = some l → ∀ mt ∈ l, mt.grad = none) :
    ∀ {ps : List Param} {cs cs' : CState}, classify self cs ps = .ok cs' →
    ∀ st', slookup cs'.smap pid = some st' →
      slookup cs.smap pid = some st' ∨
      (slookup cs.smap pid = none ∧ st'.exp_avg = 0 ∧ st'.exp_avg_sq = 0 ∧
        (∀ mp, st'.master_param = some mp → mp.grad = none) ∧
        (self.masterOn = false → st'.master_param = none)) := by
  intro ps
  induction ps with
  | nil =>
    intro cs cs' h st' hst'
    unfold classify at h
    simp only [Except.ok.injEq] at h
    subst h
    exact Or.inl hst'
  | cons q rest ih =>
    intro cs cs' h st' hst'
    unfold classify at h
    split at h
    next e h1 => cases h
    next cs1 h1 =>
      rcases ih h st' hst' with hmid | ⟨hmid, hz1, hz2, hmg, hmn⟩
      · by_cases hq : q.id = pid
        · rcases hfresh : slookup cs.smap pid with _ | st0
          · obtain ⟨st, hst, hz1, hz2, hmaster⟩ := classify1_smap_fresh h1 (hq ▸ hfresh)
            rw [hq] at hst
            rw [hst] at hmid
            cases hmid
            refine Or.inr ⟨rfl, hz1, hz2, ?_, ?_⟩
            · intro mp hmp
              rcases hmaster with ⟨-, -, mt, hgmt, -, hmpm⟩ | ⟨-, hmpm⟩
              · rw [hmpm] at hmp
                cases hmp
                obtain ⟨l, hl⟩ : ∃ l, self.master_weights = some l := by
                  unfold FusedAdam.mwGet at hgmt
                  cases hml : self.master_weights with
                  | none => rw [hml] at hgmt; cases hgmt
                  | some l => exact ⟨l, rfl⟩
                have hml2 : mt ∈ l := by
                  unfold FusedAdam.mwGet at hgmt
                  rw [hl] at hgmt
                  exact List.get?_mem hgmt
                simpa using hmw l hl mt hml2
              · rw [hmpm] at hmp; cases hmp
            · intro hmoff
              rcases hmaster with ⟨hx, -⟩ | ⟨-, hmpm⟩
              · rw [hmoff] at hx; cases hx
              · exact hmpm
          · have hk := classify1_smap_keep h1 (hq ▸ hfresh)
            rw [hq] at hk
            rw [hk] at hmid
            cases hmid
            exact Or.inl rfl
        · rw [classify1_smap_other h1 pid fun hx => hq hx.symm] at hmid
          exact Or.inl hmid
      · have hcs : slookup cs.smap pid = none := by
          cases hx : slookup cs.smap pid with
          | none => rfl
          | some st0 =>
            rw [classify1_smap_keep h1 hx] at hmid
            cases hmid
        exact Or.inr ⟨hcs, hz1, hz2, hmg, hmn⟩

end TE

namespace TE

/-- Parameters whose identity never carries a pending gradient (directly or
through a master shadow) are untouched by one call: their data value is
preserved, existing state entries are preserved exactly, and any state entry
created for them is zero-initialized with a gradient-free master shadow. -/
theorem runGroups_untouched {self : FusedAdam} {env : Env} (pid : ℕ)
    (hmw : ∀ l, self.master_weights = some l → ∀ mt ∈ l, mt.grad = none) :
    ∀ {gs : List Group} {smap : List (ℕ × ParamState)} {midx : ℕ} {buf : ℤ}
      {gs' : List Group} {smap' : List (ℕ × ParamState)} {buf' : ℤ} {tr : List KernelCall},
    runGroups self env gs smap midx buf = (.ok (gs', smap', buf'), tr) →
    (∀ g ∈ gs, ∀ p ∈ g.params, p.id = pid → p.grad = none) →
    (∀ st, slookup smap pid = some st →
      ∀ mp, st.master_param = some mp → mp.grad = none) →
    plookup ((gs'.map Group.params).flatten) pid =
      plookup ((gs.map Group.params).flatten) pid ∧
    (∀ st, slookup smap pid = some st → slookup smap' pid = some st) ∧
    (∀ st', slookup smap' pid = some st' →
      slookup smap pid = some st' ∨
      (slookup smap pid = none ∧ st'.exp_avg = 0 ∧ st'.exp_avg_sq = 0 ∧
        (∀ mp, st'.master_param = some mp → mp.grad = none) ∧
        (self.masterOn = false → st'.master_param = none))) := by
  intro gs
  induction gs with
  | nil =>
    intro smap midx buf gs' smap' buf' tr h _ _
    unfold runGroups at h
    injection h with hA hB
    injection hA with hC
    injection hC with h1 h2
    injection h2 with h2a h2b
    subst h1; subst h2a
    exact ⟨rfl, fun st hst => hst, fun st' hst' => Or.inl hst'⟩
  | cons g0 rest ih =>
    intro smap midx buf gs' smap' buf' tr h hgr hstm
    unfold runGroups at h
    split at h
    next e h1 => simp at h
    next r h1 =>
      split at h
      next e tr2 h2 => simp at h
      next gs2 smap2 buf2 tr2 h2 =>
        simp only [Prod.mk.injEq, Except.ok.injEq] at h
        obtain ⟨⟨hg, hs, hb⟩, -⟩ := h
        subst hg; subst hs; subst hb
        have hgr0 : ∀ p ∈ g0.params, p.id = pid → p.grad = none :=
          hgr g0 (List.mem_cons_self g0 rest)
        have hgrr : ∀ g ∈ rest, ∀ p ∈ g.params, p.id = pid → p.grad = none :=
          fun g hgm => hgr g (List.mem_cons_of_mem g0 hgm)
        rcases stepGroup_spec h1 with ⟨hemp, hr⟩ | ⟨hne, cs, hcl, hr⟩
        · subst hr
          obtain ⟨ihA, ihB, ihC⟩ := ih h2 hgrr hstm
          refine ⟨?_, ihB, ihC⟩
          simp only [List.map_cons, List.flatten_cons]
          rw [plookup_append, plookup_append, ihA]
        · subst hr
          have hnopid : ∀ e : Entry, (e ∈ cs.fp8 ∨ e ∈ cs.f16 ∨ e ∈ cs.f32) →
              e.pid ≠ pid := by
            refine classify_skip_pid pid hcl hgr0 hmw hstm ?_
            intro e he
            rcases he with he | he | he <;> cases he
          have hdis := @dispatchGroup_other self env g0 (stepT self g0 buf) cs buf
            pid hnopid
          have hkeep : ∀ st, slookup smap pid = some st →
              slookup cs.smap pid = some st := fun st hst => classify_smap_keep hcl hst
          have hchar := classify_pid_state pid hmw hcl
          have hstm' : ∀ st, slookup (dispatchGroup self env g0 (stepT self g0 buf)
              cs buf).smap pid = some st →
              ∀ mp, st.master_param = some mp → mp.grad = none := by
            intro st hst mp hmp
            rw [hdis.2] at hst
            rcases hchar st hst with hold | ⟨-, -, -, hmg, -⟩
            · exact hstm st hold mp hmp
            · exact hmg mp hmp
          obtain ⟨ihA, ihB, ihC⟩ := ih h2 hgrr hstm'
          refine ⟨?_, ?_, ?_⟩
          · simp only [List.map_cons, List.flatten_cons]
            rw [plookup_append, plookup_append, ihA, hdis.1]
          · intro st hst
            exact ihB st (by rw [hdis.2]; exact hkeep st hst)
          · intro st' hst'
            rcases ihC st' hst' with hmid | ⟨hmid, hz1, hz2, hmg, hmn⟩
            · rw [hdis.2] at hmid
              rcases hchar st' hmid with hold | ⟨hnone, hz1, hz2, hmg, hmn⟩
              · exact Or.inl hold
              · exact Or.inr ⟨hnone, hz1, hz2, hmg, hmn⟩
            · rw [hdis.2] at hmid
              have hnone : slookup smap pid = none := by
                cases hx : slookup smap pid with
                | none => rfl
                | some st0 =>
                  rw [hkeep st0 hx] at hmid
                  cases hmid
              exact Or.inr ⟨hnone, hz1, hz2, hmg, hmn⟩

end TE

namespace TE

theorem stepGroup_error_spec {self : FusedAdam} {env : Env} {g : Group}
    {smap : List (ℕ × ParamState)} {midx : ℕ} {buf : ℤ} {e : StepError}
    (h : stepGroup self env g smap midx buf = .error e) :
    g.params ≠ [] ∧
    classify self ⟨smap, midx, [], [], [], false, false⟩ g.params = .error e := by
  unfold stepGroup at h
  by_cases hemp : g.params = []
  · rw [if_pos hemp] at h
    cases h
  · rw [if_neg hemp] at h
    split at h
    next e0 h1 =>
      cases h
      exact ⟨hemp, h1⟩
    next cs h1 => cases h

/-- Every ok run of the group loop rules out mixed halves and (in capturable
mode) pending fp8 parameters in every group (master weights disabled). -/
theorem runGroups_ok_noMixed {self : FusedAdam} {env : Env} (hm : self.masterOn = false) :
    ∀ {gs : List Group} {smap : List (ℕ × ParamState)} {midx : ℕ} {buf : ℤ}
      {res : List Group × List (ℕ × ParamState) × ℤ} {tr : List KernelCall},
    runGroups self env gs smap midx buf = (.ok res, tr) →
    ∀ g ∈ gs, mixedGroup g = false ∧
      (self.capturable = true → fp8PendingGroup g = false) := by
  intro gs
  induction gs with
  | nil =>
    intro smap midx buf res tr h g hg
    cases hg
  | cons g0 rest ih =>
    intro smap midx buf res tr h g hg
    unfold runGroups at h
    split at h
    next e h1 => simp at h
    next r h1 =>
      split at h
      next e tr2 h2 => simp at h
      next gs2 smap2 buf2 tr2 h2 =>
        rcases List.mem_cons.mp hg with hg | hg
        · subst hg
          rcases stepGroup_spec h1 with ⟨hemp, -⟩ | ⟨hne, cs, hcl, -⟩
          · constructor
            · unfold mixedGroup
              rw [hemp]
              rfl
            · intro _
              unfold fp8PendingGroup
              rw [hemp]
              rfl
          · have hflags := classify_flags_noMaster hm hcl
            have hok := classify_flags_ok hcl (by rintro ⟨hx, -⟩; cases hx)
            constructor
            · unfold mixedGroup
              cases hx : g.params.any (pendingOf DType.float16) with
              | false => rfl
              | true =>
                cases hy : g.params.any (pendingOf DType.bfloat16) with
                | false => rfl
                | true =>
                  exfalso
                  refine hok ⟨?_, ?_⟩
                  · rw [hflags.1, hx]; rfl
                  · rw [hflags.2, hy]; rfl
            · intro hcapt
              unfold fp8PendingGroup
              exact (classify_capturable_no_fp8 hm hcapt hcl).2
        · exact ih h2 g hg

/-- With master weights disabled and clean parameters everywhere, a whole
call succeeds when no group mixes float16 with bfloat16 and (in capturable
mode) no group has a pending fp8 parameter. -/
theorem runGroups_ok_of_clean {self : FusedAdam} {env : Env} (hm : self.masterOn = false) :
    ∀ {gs : List Group} (smap : List (ℕ × ParamState)) (midx : ℕ) (buf : ℤ),
    (∀ g ∈ gs, ∀ p ∈ g.params, okParam p = true) →
    (∀ g ∈ gs, mixedGroup g = false) →
    (self.capturable = true → ∀ g ∈ gs, fp8PendingGroup g = false) →
    ∃ res tr, runGroups self env gs smap midx buf = (.ok res, tr) := by
  intro gs
  induction gs with
  | nil =>
    intro smap midx buf _ _ _
    exact ⟨([], smap, buf), [], rfl⟩
  | cons g0 rest ih =>
    intro smap midx buf hok hmix hfp8
    by_cases hemp : g0.params = []
    · have hsg : stepGroup self env g0 smap midx buf = .ok ⟨g0, smap, midx, buf, []⟩ := by
        unfold stepGroup
        rw [if_pos hemp]
      obtain ⟨res, tr, hrest⟩ := ih smap midx buf
        (fun g hg => hok g (List.mem_cons_of_mem g0 hg))
        (fun g hg => hmix g (List.mem_cons_of_mem g0 hg))
        (fun hc g hg => hfp8 hc g (List.mem_cons_of_mem g0 hg))
      refine ⟨(g0 :: res.1, res.2.1, res.2.2), [] ++ tr, ?_⟩
      unfold runGroups
      rw [hsg]
      rw [show res = (res.1, res.2.1, res.2.2) from rfl] at hrest
      simp only [hrest]
    · have hmix0 : mixedGroup g0 = false := hmix g0 (List.mem_cons_self g0 rest)
      obtain ⟨cs, hcl⟩ := @classify_ok_of_clean self hm
        g0.params ⟨smap, midx, [], [], [], false, false⟩
        (hok g0 (List.mem_cons_self g0 rest))
        (fun hc => ⟨rfl, by
          have := hfp8 hc g0 (List.mem_cons_self g0 rest)
          unfold fp8PendingGroup at this
          exact this⟩)
        (by
          unfold mixedGroup at hmix0
          intro ⟨h1, h2⟩
          simp only [Bool.false_or] at h1 h2
          rw [h1, h2] at hmix0
          cases hmix0)
      have hsg : stepGroup self env g0 smap midx buf = .ok
          ⟨{ g0 with
               step := some (stepT self g0 buf)
               params := (dispatchGroup self env g0 (stepT self g0 buf) cs buf).params },
           (dispatchGroup self env g0 (stepT self g0 buf) cs buf).smap, cs.midx,
           (dispatchGroup self env g0 (stepT self g0 buf) cs buf).buf,
           (dispatchGroup self env g0 (stepT self g0 buf) cs buf).tr⟩ := by
        unfold stepGroup
        rw [if_neg hemp, hcl]
      obtain ⟨res, tr, hrest⟩ := ih
        (dispatchGroup self env g0 (stepT self g0 buf) cs buf).smap cs.midx
        (dispatchGroup self env g0 (stepT self g0 buf) cs buf).buf
        (fun g hg => hok g (List.mem_cons_of_mem g0 hg))
        (fun g hg => hmix g (List.mem_cons_of_mem g0 hg))
        (fun hc g hg => hfp8 hc g (List.mem_cons_of_mem g0 hg))
      refine ⟨({ g0 with
                   step := some (stepT self g0 buf)
                   params := (dispatchGroup self env g0 (stepT self g0 buf) cs buf).params } :: res.1,
                res.2.1, res.2.2),
              (dispatchGroup self env g0 (stepT self g0 buf) cs buf).tr ++ tr, ?_⟩
      unfold runGroups
      rw [hsg]
      rw [show res = (res.1, res.2.1, res.2.2) from rfl] at hrest
      simp only [hrest]

/-- With master weights disabled, clean parameters and no capturable fp8
conflict anywhere, a failing call raises the mixing error. -/
theorem runGroups_error_mixed {self : FusedAdam} {env : Env} (hm : self.masterOn = false) :
    ∀ {gs : List Group} {smap : List (ℕ × ParamState)} {midx : ℕ} {buf : ℤ}
      {e : StepError} {tr : List KernelCall},
    runGroups self env gs smap midx buf = (.error e, tr) →
    (∀ g ∈ gs, ∀ p ∈ g.params, okParam p = true) →
    (self.capturable = true → ∀ g ∈ gs, fp8PendingGroup g = false) →
    e = StepError.mixedF16Bf16 := by
  intro gs
  induction gs with
  | nil =>
    intro smap midx buf e tr h _ _
    unfold runGroups at h
    simp at h
  | cons g0 rest ih =>
    intro smap midx buf e tr h hok hfp8
    unfold runGroups at h
    split at h
    next e0 h1 =>
      injection h with hA hB
      injection hA with hC
      subst hC
      obtain ⟨-, hcl⟩ := stepGroup_error_spec h1
      refine classify_error_mixed hm hcl (hok g0 (List.mem_cons_self g0 rest)) ?_
      intro hc
      refine ⟨rfl, ?_⟩
      have := hfp8 hc g0 (List.mem_cons_self g0 rest)
      unfold fp8PendingGroup at this
      exact this
    next r h1 =>
      split at h
      next e0 tr2 h2 =>
        injection h with hA hB
        injection hA with hC
        subst hC
        exact ih h2 (fun g hg => hok g (List.mem_cons_of_mem g0 hg))
          (fun hc g hg => hfp8 hc g (List.mem_cons_of_mem g0 hg))
      next gs2 smap2 buf2 tr2 h2 => simp at h

/-- With master weights disabled, clean parameters and no possible mixing
anywhere, a failing call raises the fp8-with-capturable error. -/
theorem runGroups_error_fp8cap {self : FusedAdam} {env : Env} (hm : self.masterOn = false) :
    ∀ {gs : List Group} {smap : List (ℕ × ParamState)} {midx : ℕ} {buf : ℤ}
      {e : StepError} {tr : List KernelCall},
    runGroups self env gs smap midx buf = (.error e, tr) →
    (∀ g ∈ gs, ∀ p ∈ g.params, okParam p = true) →
    (∀ g ∈ gs, mixedGroup g = false) →
    e = StepError.fp8Capturable := by
  intro gs
  induction gs with
  | nil =>
    intro smap midx buf e tr h _ _
    unfold runGroups at h
    simp at h
  | cons g0 rest ih =>
    intro smap midx buf e tr h hok hmix
    unfold runGroups at h
    split at h
    next e0 h1 =>
      injection h with hA hB
      injection hA with hC
      subst hC
      obtain ⟨-, hcl⟩ := stepGroup_error_spec h1
      refine classify_error_fp8cap hm hcl (hok g0 (List.mem_cons_self g0 rest)) ?_
      have hmix0 := hmix g0 (List.mem_cons_self g0 rest)
      unfold mixedGroup at hmix0
      intro ⟨h1x, h2x⟩
      simp only [Bool.false_or] at h1x h2x
      rw [h1x, h2x] at hmix0
      cases hmix0
    next r h1 =>
      split at h
      next e0 tr2 h2 =>
        injection h with hA hB
        injection hA with hC
        subst hC
        exact ih h2 (fun g hg => hok g (List.mem_cons_of_mem g0 hg))
          (fun g hg => hmix g (List.mem_cons_of_mem g0 hg))
      next gs2 smap2 buf2 tr2 h2 => simp at h

/-- Trace discipline of a whole call: capturable mode launches only the two
capturable kernels, and without master weights the fp8 kernel is never
launched. -/
theorem runGroups_trace {self : FusedAdam} {env : Env} :
    ∀ {gs : List Group} {smap : List (ℕ × ParamState)} {midx : ℕ} {buf : ℤ}
      {out : Except StepError (List Group × List (ℕ × ParamState) × ℤ)}
      {tr : List KernelCall},
    runGroups self env gs smap midx buf = (out, tr) →
    (self.capturable = true → ∀ c ∈ tr,
      c.kind = KernelKind.adam_capturable ∨ c.kind = KernelKind.adam_capturable_master) ∧
    (self.masterOn = false → ∀ c ∈ tr, c.kind ≠ KernelKind.adam_fp8) := by
  intro gs
  induction gs with
  | nil =>
    intro smap midx buf out tr h
    unfold runGroups at h
    injection h with hA hB
    subst hB
    exact ⟨(fun _ c hc => by cases hc), (fun _ c hc => by cases hc)⟩
  | cons g0 rest ih =>
    intro smap midx buf out tr h
    unfold runGroups at h
    split at h
    next e h1 =>
      injection h with hA hB
      subst hB
      exact ⟨(fun _ c hc => by cases hc), (fun _ c hc => by cases hc)⟩
    next r h1 =>
      have hrtr : (self.capturable = true → ∀ c ∈ r.tr,
          c.kind = KernelKind.adam_capturable ∨
            c.kind = KernelKind.adam_capturable_master) ∧
          (self.masterOn = false → ∀ c ∈ r.tr, c.kind ≠ KernelKind.adam_fp8) := by
        rcases stepGroup_spec h1 with ⟨-, hr⟩ | ⟨-, cs, -, hr⟩
        · subst hr
          exact ⟨(fun _ c hc => by cases hc), (fun _ c hc => by cases hc)⟩
        · subst hr
          exact ⟨fun hc c hcm => dispatchGroup_trace_capturable hc c hcm,
            fun hmon c hcm => dispatchGroup_trace_noMaster hmon c hcm⟩
      split at h
      next e0 tr2 h2 =>
        injection h with hA hB
        subst hB
        obtain ⟨ih1, ih2⟩ := ih h2
        refine ⟨fun hc c hcm => ?_, fun hmon c hcm => ?_⟩
        · rcases List.mem_append.mp hcm with hx | hx
          · exact hrtr.1 hc c hx
          · exact ih1 hc c hx
        · rcases List.mem_append.mp hcm with hx | hx
          · exact hrtr.2 hmon c hx
          · exact ih2 hmon c hx
      next gs2 smap2 buf2 tr2 h2 =>
        injection h with hA hB
        subst hB
        obtain ⟨ih1, ih2⟩ := ih h2
        refine ⟨fun hc c hcm => ?_, fun hmon c hcm => ?_⟩
        · rcases List.mem_append.mp hcm with hx | hx
          · exact hrtr.1 hc c hx
          · exact ih1 hc c hx
        · rcases List.mem_append.mp hcm with hx | hx
          · exact hrtr.2 hmon c hx
          · exact ih2 hmon c hx

end TE

namespace TE

/-! Further classification and dispatch frame lemmas. -/

theorem masterOff_mw_grads {self : FusedAdam} (hm : self.masterOn = false) :
    ∀ l, self.master_weights = some l → ∀ mt ∈ l, mt.grad = none := by
  intro l hl mt hmt
  unfold FusedAdam.masterOn at hm
  rw [hl] at hm
  have hm' : (!l.isEmpty) = false := hm
  cases l with
  | nil => cases hmt
  | cons a as => simp at hm'

theorem classify_bucket_dtype {self : FusedAdam} :
    ∀ {ps : List Param} {cs cs' : CState}, classify self cs ps = .ok cs' →
    ∀ e : Entry,
    (e ∈ cs'.f16 → e ∈ cs.f16 ∨
      ∃ p ∈ ps, e.pid = p.id ∧ (p.dtype = DType.float16 ∨ p.dtype = DType.bfloat16)) ∧
    (e ∈ cs'.f32 → e ∈ cs.f32 ∨ ∃ p ∈ ps, e.pid = p.id ∧ p.dtype = DType.float32) := by
  intro ps
  induction ps with
  | nil =>
    intro cs cs' h e
    unfold classify at h
    simp only [Except.ok.injEq] at h
    subst h
    exact ⟨fun hx => Or.inl hx, fun hx => Or.inl hx⟩
  | cons q rest ih =>
    intro cs cs' h e
    unfold classify at h
    split at h
    next e0 h1 => cases h
    next cs1 h1 =>
      obtain ⟨ih16, ih32⟩ := ih h e
      obtain ⟨-, c16, c32⟩ := classify1_bucket_pids h1 e
      refine ⟨?_, ?_⟩ <;> intro hx
      · rcases ih16 hx with hx' | ⟨p, hp, hpe, hpd⟩
        · rcases c16 hx' with hx'' | ⟨hpe, hpd⟩
          · exact Or.inl hx''
          · exact Or.inr ⟨q, List.mem_cons_self q rest, hpe, hpd⟩
        · exact Or.inr ⟨p, List.mem_cons_of_mem q hp, hpe, hpd⟩
      · rcases ih32 hx with hx' | ⟨p, hp, hpe, hpd⟩
        · rcases c32 hx' with hx'' | ⟨hpe, hpd⟩
          · exact Or.inl hx''
          · exact Or.inr ⟨q, List.mem_cons_self q rest, hpe, hpd⟩
        · exact Or.inr ⟨p, List.mem_cons_of_mem q hp, hpe, hpd⟩

/-- In plain mode (neither capturable nor master weights) the dispatch keeps
every identity outside the f16 and f32 buckets untouched; in particular the
fp8 bucket is never applied. -/
theorem dispatchGroup_other_plain {self : FusedAdam} {env : Env} {g : Group} {t : ℕ}
    {cs : CState} {buf : ℤ} {pid : ℕ}
    (hc : self.capturable = false) (hm : self.masterOn = false)
    (h : ∀ e : Entry, (e ∈ cs.f16 ∨ e ∈ cs.f32) → e.pid ≠ pid) :
    plookup (dispatchGroup self env g t cs buf).params pid = plookup g.params pid ∧
    slookup (dispatchGroup self env g t cs buf).smap pid = slookup cs.smap pid := by
  have h16 : ∀ e ∈ cs.f16, e.pid ≠ pid := fun e he => h e (Or.inl he)
  have h32 : ∀ e ∈ cs.f32, e.pid ≠ pid := fun e he => h e (Or.inr he)
  unfold dispatchGroup
  rw [if_neg (by rw [hc]; exact Bool.false_ne_true),
    if_neg (by rw [hm]; exact Bool.false_ne_true)]
  simp only []
  obtain ⟨ha1, ha2⟩ := apply_mta_other h16
  obtain ⟨hb1, hb2⟩ := apply_mta_other h32
  exact ⟨hb1.trans ha1, hb2.trans ha2⟩

/-- Bucket entries of a group whose classification started from empty buckets
all carry the identity of one of the group's parameters. -/
theorem classify_empty_bucket_pids {self : FusedAdam} {ps : List Param}
    {smap : List (ℕ × ParamState)} {midx : ℕ} {cs' : CState}
    (h : classify self ⟨smap, midx, [], [], [], false, false⟩ ps = .ok cs') :
    ∀ e : Entry, (e ∈ cs'.fp8 ∨ e ∈ cs'.f16 ∨ e ∈ cs'.f32) → ∃ p ∈ ps, e.pid = p.id := by
  intro e he
  obtain ⟨h8, h16, h32⟩ := classify_bucket_pids h e
  rcases he with he | he | he
  · rcases h8 he with hx | hx
    · cases hx
    · exact hx
  · rcases h16 he with hx | hx
    · cases hx
    · exact hx
  · rcases h32 he with hx | hx
    · cases hx
    · exact hx

/-- An identity appearing in no group is left exactly alone by the whole
call: its state-map binding is unchanged. -/
theorem runGroups_absent {self : FusedAdam} {env : Env} (pid : ℕ) :
    ∀ {gs : List Group} {smap : List (ℕ × ParamState)} {midx : ℕ} {buf : ℤ}
      {gs' : List Group} {smap' : List (ℕ × ParamState)} {buf' : ℤ} {tr : List KernelCall},
    runGroups self env gs smap midx buf = (.ok (gs', smap', buf'), tr) →
    (∀ g ∈ gs, ∀ q ∈ g.params, q.id ≠ pid) →
    slookup smap' pid = slookup smap pid := by
  intro gs
  induction gs with
  | nil =>
    intro smap midx buf gs' smap' buf' tr h _
    unfold runGroups at h
    injection h with hA hB
    injection hA with hC
    injection hC with h1 h2
    injection h2 with h2a h2b
    subst h2a
    rfl
  | cons g0 rest ih =>
    intro smap midx buf gs' smap' buf' tr h habs
    unfold runGroups at h
    split at h
    next e h1 => simp at h
    next r h1 =>
      split at h
      next e tr2 h2 => simp at h
      next gs2 smap2 buf2 tr2 h2 =>
        simp only [Prod.mk.injEq, Except.ok.injEq] at h
        obtain ⟨⟨hg, hs, hb⟩, -⟩ := h
        subst hg; subst hs; subst hb
        have habs0 : ∀ q ∈ g0.params, q.id ≠ pid := habs g0 (List.mem_cons_self g0 rest)
        have habsr : ∀ g ∈ rest, ∀ q ∈ g.params, q.id ≠ pid :=
          fun g hgm => habs g (List.mem_cons_of_mem g0 hgm)
        rcases stepGroup_spec h1 with ⟨hemp, hr⟩ | ⟨hne, cs, hcl, hr⟩
        · subst hr
          exact ih h2 habsr
        · subst hr
          have hnopid : ∀ e : Entry, (e ∈ cs.fp8 ∨ e ∈ cs.f16 ∨ e ∈ cs.f32) →
              e.pid ≠ pid := by
            intro e he hx
            obtain ⟨p, hp, hpe⟩ := classify_empty_bucket_pids hcl e he
            exact habs0 p hp (hpe ▸ hx)
          have hdis := @dispatchGroup_other self env g0 (stepT self g0 buf) cs buf
            pid hnopid
          rw [ih h2 habsr, hdis.2,
            classify_smap_other hcl (fun hx => by
              obtain ⟨q, hq, hqe⟩ := List.mem_map.mp hx
              exact habs0 q hq hqe)]

end TE

namespace TE

/-! Master-slot accounting across a whole call. -/

theorem freshNonF32_append (smap : List (ℕ × ParamState)) (a b : List Param) :
    freshNonF32 smap (a ++ b) = freshNonF32 smap a + freshNonF32 smap b := by
  induction a with
  | nil =>
    rw [List.nil_append]
    rw [show freshNonF32 smap [] = 0 from rfl]
    omega
  | cons q qs ih =>
    rw [List.cons_append, freshNonF32_cons, freshNonF32_cons, ih]
    omega

theorem smsig_eq_some {x : Option ParamState} {v : Option (ℕ × List ℕ)}
    (h : smsig x = some v) : ∃ st, x = some st ∧ msig st.master_param = v := by
  cases x with
  | none => simp [smsig] at h
  | some st =>
    refine ⟨st, rfl, ?_⟩
    have h' : some (msig st.master_param) = some v := h
    injection h'

/-- A state entry present at call entry stays present across the whole call
and keeps the slot and shape of its master shadow (its moment and value
fields may be rewritten by the kernels). -/
theorem runGroups_smsig {self : FusedAdam} {env : Env} (pid : ℕ) :
    ∀ {gs : List Group} {smap : List (ℕ × ParamState)} {midx : ℕ} {buf : ℤ}
      {gs' : List Group} {smap' : List (ℕ × ParamState)} {buf' : ℤ} {tr : List KernelCall},
    runGroups self env gs smap midx buf = (.ok (gs', smap', buf'), tr) →
    (∀ g ∈ gs, (g.params.map Param.id).Nodup) →
    ∀ st, slookup smap pid = some st →
      ∃ st', slookup smap' pid = some st' ∧
        msig st'.master_param = msig st.master_param := by
  intro gs
  induction gs with
  | nil =>
    intro smap midx buf gs' smap' buf' tr h _ st hst
    unfold runGroups at h
    injection h with hA hB
    injection hA with hC
    injection hC with h1 h2
    injection h2 with h2a h2b
    subst h2a
    exact ⟨st, hst, rfl⟩
  | cons g0 rest ih =>
    intro smap midx buf gs' smap' buf' tr h hnd st hst
    unfold runGroups at h
    split at h
    next e h1 => simp at h
    next r h1 =>
      split at h
      next e tr2 h2 => simp at h
      next gs2 smap2 buf2 tr2 h2 =>
        simp only [Prod.mk.injEq, Except.ok.injEq] at h
        obtain ⟨⟨hg, hs, hb⟩, -⟩ := h
        subst hg; subst hs; subst hb
        have hndr : ∀ g ∈ rest, (g.params.map Param.id).Nodup :=
          fun g hgm => hnd g (List.mem_cons_of_mem g0 hgm)
        rcases stepGroup_spec h1 with ⟨hemp, hr⟩ | ⟨hne, cs, hcl, hr⟩
        · subst hr
          exact ih h2 hndr st hst
        · subst hr
          have hnd0 : (g0.params.map Param.id).Nodup := hnd g0 (List.mem_cons_self g0 rest)
          have hkeep : slookup cs.smap pid = some st := classify_smap_keep hcl hst
          have hcoh : ∀ e : Entry, (e ∈ cs.fp8 ∨ e ∈ cs.f16 ∨ e ∈ cs.f32) → e.pid = pid →
              ∃ st0, slookup cs.smap pid = some st0 ∧
                (self.masterOn = true → msig e.master_param = msig st0.master_param) := by
            intro e he hpe
            obtain ⟨st0, hst0, hmm⟩ := classify_coherent hcl hnd0
              (by rintro e' (he' | he' | he') <;> cases he') e he
            rw [hpe] at hst0
            exact ⟨st0, hst0, fun hmon => by rw [hmm hmon]⟩
          have hsm := @dispatchGroup_smsig self env g0 (stepT self g0 buf) cs buf
            pid hcoh
          rw [hkeep] at hsm
          obtain ⟨st1, hst1, hmsig1⟩ := smsig_eq_some hsm
          obtain ⟨st', hst', hmsig'⟩ := ih h2 hndr st1 hst1
          exact ⟨st', hst', hmsig'.trans hmsig1⟩

/-- Call-wide slot assignment for a first-seen non-float32 parameter in
master-weights mode: counting slot-consuming (first-seen, non-float32)
parameters across all groups in traversal order, the parameter's master
shadow records the slot at the call-entry counter plus the number of
slot-consuming parameters that precede it, and the shape of the parameter. -/
theorem runGroups_fresh {self : FusedAdam} {env : Env} (hmon : self.masterOn = true) :
    ∀ {gs : List Group} {smap : List (ℕ × ParamState)} {midx : ℕ} {buf : ℤ}
      {gs' : List Group} {smap' : List (ℕ × ParamState)} {buf' : ℤ} {tr : List KernelCall},
    runGroups self env gs smap midx buf = (.ok (gs', smap', buf'), tr) →
    (((gs.map Group.params).flatten.map Param.id).Nodup) →
    ∀ {pre : List Param} {p : Param} {suf : List Param},
    (gs.map Group.params).flatten = pre ++ p :: suf →
    slookup smap p.id = none →
    p.dtype ≠ DType.float32 →
    ∃ st, slookup smap' p.id = some st ∧
      msig st.master_param = some (midx + freshNonF32 smap pre, p.shape) := by
  intro gs
  induction gs with
  | nil =>
    intro smap midx buf gs' smap' buf' tr h hnd pre p suf hflat hfresh hdt
    simp only [List.map_nil, List.flatten_nil] at hflat
    cases pre with
    | nil => cases hflat
    | cons a as => cases hflat
  | cons g0 rest ih =>
    intro smap midx buf gs' smap' buf' tr h hnd pre p suf hflat hfresh hdt
    unfold runGroups at h
    split at h
    next e h1 => simp at h
    next r h1 =>
      split at h
      next e tr2 h2 => simp at h
      next gs2 smap2 buf2 tr2 h2 =>
        simp only [Prod.mk.injEq, Except.ok.injEq] at h
        obtain ⟨⟨hg, hs, hb⟩, -⟩ := h
        subst hg; subst hs; subst hb
        rcases stepGroup_spec h1 with ⟨hemp, hr⟩ | ⟨hne, cs, hcl, hr⟩
        · subst hr
          simp only [List.map_cons, List.flatten_cons, hemp, List.nil_append]
            at hflat hnd
          exact ih h2 hnd hflat hfresh hdt
        · subst hr
          simp only [List.map_cons, List.flatten_cons] at hflat
          simp only [List.map_cons, List.flatten_cons, List.map_append] at hnd
          rw [List.nodup_append] at hnd
          obtain ⟨hnd0, hndr, hdisj⟩ := hnd
          have hframe : ∀ qid, (∀ q ∈ g0.params, q.id ≠ qid) →
              slookup (dispatchGroup self env g0 (stepT self g0 buf) cs buf).smap qid =
                slookup smap qid := by
            intro qid hq
            have hnopid : ∀ e : Entry, (e ∈ cs.fp8 ∨ e ∈ cs.f16 ∨ e ∈ cs.f32) →
                e.pid ≠ qid := by
              intro e he hx
              obtain ⟨q, hqm, hqe⟩ := classify_empty_bucket_pids hcl e he
              exact hq q hqm (hqe ▸ hx)
            rw [(dispatchGroup_other hnopid).2,
              classify_smap_other hcl (fun hx => by
                obtain ⟨q, hqm, hqe⟩ := List.mem_map.mp hx
                exact hq q hqm hqe)]
          have inRest : ∀ a' : List Param, pre = g0.params ++ a' →
              (rest.map Group.params).flatten = a' ++ p :: suf →
              ∃ st, slookup smap2 p.id = some st ∧
                msig st.master_param = some (midx + freshNonF32 smap pre, p.shape) := by
            intro a' hpre hrest
            have hpmem : p.id ∈ ((rest.map Group.params).flatten).map Param.id := by
              refine List.mem_map_of_mem Param.id ?_
              rw [hrest]
              exact List.mem_append_right a' (List.mem_cons_self p suf)
            have habs0 : ∀ q ∈ g0.params, q.id ≠ p.id := by
              intro q hq hx
              exact hdisj (List.mem_map_of_mem Param.id hq) (hx ▸ hpmem)
            have hfreshd : slookup (dispatchGroup self env g0 (stepT self g0 buf)
                cs buf).smap p.id = none := by
              rw [hframe p.id habs0]
              exact hfresh
            obtain ⟨st, hst, hmsig⟩ := ih h2 hndr hrest hfreshd hdt
            refine ⟨st, hst, ?_⟩
            have hmidx : cs.midx = midx + freshNonF32 smap g0.params :=
              classify_midx_acc hmon hcl hnd0
            have hfr : freshNonF32 (dispatchGroup self env g0 (stepT self g0 buf)
                cs buf).smap a' = freshNonF32 smap a' := by
              apply freshNonF32_congr
              intro q hq
              refine hframe q.id ?_
              intro q0 hq0 hx
              have hqmem : q.id ∈ ((rest.map Group.params).flatten).map Param.id := by
                refine List.mem_map_of_mem Param.id ?_
                rw [hrest]
                exact List.mem_append_left _ hq
              exact hdisj (List.mem_map_of_mem Param.id hq0) (hx ▸ hqmem)
            have hidx : cs.midx + freshNonF32 (dispatchGroup self env g0
                (stepT self g0 buf) cs buf).smap a' =
                midx + freshNonF32 smap pre := by
              rw [hfr, hmidx, hpre, freshNonF32_append]
              omega
            rw [hmsig, hidx]
          have inG0 : ∀ suf0 : List Param, g0.params = pre ++ p :: suf0 →
              ∃ st, slookup smap2 p.id = some st ∧
                msig st.master_param = some (midx + freshNonF32 smap pre, p.shape) := by
            intro suf0 hg0
            have hcl' : classify self ⟨smap, midx, [], [], [], false, false⟩
                (pre ++ p :: suf0) = .ok cs := by
              rw [← hg0]
              exact hcl
            have hnd0' : ((pre ++ p :: suf0).map Param.id).Nodup := by
              rw [← hg0]
              exact hnd0
            obtain ⟨st, hst, hz1, hz2, hmaster⟩ :=
              classify_fresh_spec hmon hcl' hnd0' hfresh
            have hmsig : msig st.master_param =
                some (midx + freshNonF32 smap pre, p.shape) := by
              rcases hmaster with ⟨-, -, mt, -, hshape, hmp⟩ | ⟨hx, -⟩
              · rw [hmp]
                unfold msig
                rw [hshape]
              · exact absurd ⟨hmon, hdt⟩ hx
            have hcoh : ∀ e : Entry, (e ∈ cs.fp8 ∨ e ∈ cs.f16 ∨ e ∈ cs.f32) →
                e.pid = p.id →
                ∃ st0, slookup cs.smap p.id = some st0 ∧
                  (self.masterOn = true → msig e.master_param = msig st0.master_param) := by
              intro e he hpe
              obtain ⟨st0, hst0, hmm⟩ := classify_coherent hcl hnd0
                (by rintro e' (he' | he' | he') <;> cases he') e he
              rw [hpe] at hst0
              exact ⟨st0, hst0, fun hmon' => by rw [hmm hmon']⟩
            have hsm := @dispatchGroup_smsig self env g0 (stepT self g0 buf) cs buf
              p.id hcoh
            rw [hst] at hsm
            obtain ⟨st1, hst1, hmsig1⟩ := smsig_eq_some hsm
            have hpin : p.id ∈ g0.params.map Param.id := by
              refine List.mem_map_of_mem Param.id ?_
              rw [hg0]
              exact List.mem_append_right pre (List.mem_cons_self p suf0)
            have habsr : ∀ g ∈ rest, ∀ q ∈ g.params, q.id ≠ p.id := by
              intro g hgm q hq hx
              have hqflat : q ∈ (rest.map Group.params).flatten := by
                rw [List.mem_flatten]
                exact ⟨g.params, List.mem_map_of_mem Group.params hgm, hq⟩
              exact hdisj hpin (List.mem_map.mpr ⟨q, hqflat, hx⟩)
            have habs := runGroups_absent p.id h2 habsr
            rw [hst1] at habs
            exact ⟨st1, habs, hmsig1.trans hmsig⟩
          rcases List.append_eq_append_iff.mp hflat with ⟨a', hpre, hrest⟩ |
            ⟨c', hg0, hsuf⟩
          · exact inRest a' hpre hrest
          · cases c' with
            | nil =>
              rw [List.append_nil] at hg0
              rw [List.nil_append] at hsuf
              refine inRest [] ?_ ?_
              · rw [List.append_nil]
                exact hg0.symm
              · rw [List.nil_append]
                exact hsuf.symm
            | cons p0 suf0 =>
              rw [List.cons_append] at hsuf
              injection hsuf with hp0 hsuf0
              subst hp0
              exact inG0 suf0 hg0

end TE

namespace TE

/-- In plain mode (neither capturable nor master weights), an identity whose
parameters are all fp8 is classified but never dispatched: its value is
untouched, an existing state entry is kept exactly, and a created state entry
is zero-initialized with no master shadow. -/
theorem runGroups_fp8_untouched {self : FusedAdam} {env : Env} (pid : ℕ)
    (hc : self.capturable = false) (hm : self.masterOn = false) :
    ∀ {gs : List Group} {smap : List (ℕ × ParamState)} {midx : ℕ} {buf : ℤ}
      {gs' : List Group} {smap' : List (ℕ × ParamState)} {buf' : ℤ} {tr : List KernelCall},
    runGroups self env gs smap midx buf = (.ok (gs', smap', buf'), tr) →
    (∀ g ∈ gs, ∀ q ∈ g.params, q.id = pid → q.dtype = DType.fp8) →
    plookup ((gs'.map Group.params).flatten) pid =
      plookup ((gs.map Group.params).flatten) pid ∧
    (∀ st, slookup smap pid = some st → slookup smap' pid = some st) ∧
    (∀ st', slookup smap' pid = some st' →
      slookup smap pid = some st' ∨
      (slookup smap pid = none ∧ st'.exp_avg = 0 ∧ st'.exp_avg_sq = 0 ∧
        st'.master_param = none)) := by
  intro gs
  induction gs with
  | nil =>
    intro smap midx buf gs' smap' buf' tr h _
    unfold runGroups at h
    injection h with hA hB
    injection hA with hC
    injection hC with h1 h2
    injection h2 with h2a h2b
    subst h1; subst h2a
    exact ⟨rfl, fun st hst => hst, fun st' hst' => Or.inl hst'⟩
  | cons g0 rest ih =>
    intro smap midx buf gs' smap' buf' tr h hall
    unfold runGroups at h
    split at h
    next e h1 => simp at h
    next r h1 =>
      split at h
      next e tr2 h2 => simp at h
      next gs2 smap2 buf2 tr2 h2 =>
        simp only [Prod.mk.injEq, Except.ok.injEq] at h
        obtain ⟨⟨hg, hs, hb⟩, -⟩ := h
        subst hg; subst hs; subst hb
        have hall0 : ∀ q ∈ g0.params, q.id = pid → q.dtype = DType.fp8 :=
          hall g0 (List.mem_cons_self g0 rest)
        have hallr : ∀ g ∈ rest, ∀ q ∈ g.params, q.id = pid → q.dtype = DType.fp8 :=
          fun g hgm => hall g (List.mem_cons_of_mem g0 hgm)
        rcases stepGroup_spec h1 with ⟨hemp, hr⟩ | ⟨hne, cs, hcl, hr⟩
        · subst hr
          obtain ⟨ihA, ihB, ihC⟩ := ih h2 hallr
          refine ⟨?_, ihB, ihC⟩
          simp only [List.map_cons, List.flatten_cons]
          rw [plookup_append, plookup_append, ihA]
        · subst hr
          have hnopid : ∀ e : Entry, (e ∈ cs.f16 ∨ e ∈ cs.f32) → e.pid ≠ pid := by
            intro e he hx
            obtain ⟨h16, h32⟩ := classify_bucket_dtype hcl e
            rcases he with he | he
            · rcases h16 he with he' | ⟨q, hq, hqe, hqd⟩
              · cases he'
              · have := hall0 q hq (by rw [← hqe, hx])
                rcases hqd with hd | hd <;> rw [hd] at this <;> cases this
            · rcases h32 he with he' | ⟨q, hq, hqe, hqd⟩
              · cases he'
              · have := hall0 q hq (by rw [← hqe, hx])
                rw [hqd] at this
                cases this
          have hdis := @dispatchGroup_other_plain self env g0 (stepT self g0 buf)
            cs buf pid hc hm hnopid
          have hkeep : ∀ st, slookup smap pid = some st →
              slookup cs.smap pid = some st := fun st hst => classify_smap_keep hcl hst
          have hchar := classify_pid_state pid (masterOff_mw_grads hm) hcl
          obtain ⟨ihA, ihB, ihC⟩ := ih h2 hallr
          refine ⟨?_, ?_, ?_⟩
          · simp only [List.map_cons, List.flatten_cons]
            rw [plookup_append, plookup_append, ihA, hdis.1]
          · intro st hst
            exact ihB st (by rw [hdis.2]; exact hkeep st hst)
          · intro st' hst'
            rcases ihC st' hst' with hmid | ⟨hmid, hz1, hz2, hmn⟩
            · rw [hdis.2] at hmid
              rcases hchar st' hmid with hold | ⟨hnone, hz1, hz2, -, hmn⟩
              · exact Or.inl hold
              · exact Or.inr ⟨hnone, hz1, hz2, hmn hm⟩
            · rw [hdis.2] at hmid
              have hnone : slookup smap pid = none := by
                cases hx : slookup smap pid with
                | none => rfl
                | some st0 =>
                  rw [hkeep st0 hx] at hmid
                  cases hmid
              exact Or.inr ⟨hnone, hz1, hz2, hmn⟩

/-! Step-level wrappers. -/

theorem step_ok_spec {self : FusedAdam} {sc : Option Scaler} {o' : FusedAdam}
    {tr : List KernelCall} (h : self.step sc = (.ok o', tr)) :
    runGroups self (mkEnv sc) self.param_groups self.state 0 self.dummy_overflow_buf =
      (.ok (o'.param_groups, o'.state, o'.dummy_overflow_buf), tr) ∧
    o'.adam_w_mode = self.adam_w_mode ∧ o'.capturable = self.capturable ∧
    o'.master_weights = self.master_weights := by
  unfold FusedAdam.step at h
  split at h
  next e tr0 hrun => simp at h
  next gs smap buf tr0 hrun =>
    injection h with hA hB
    injection hA with hC
    subst hB
    subst hC
    exact ⟨hrun, rfl, rfl, rfl⟩

theorem step_error_spec {self : FusedAdam} {sc : Option Scaler} {e : StepError}
    {tr : List KernelCall} (h : self.step sc = (.error e, tr)) :
    runGroups self (mkEnv sc) self.param_groups self.state 0 self.dummy_overflow_buf =
      (.error e, tr) := by
  unfold FusedAdam.step at h
  split at h
  next e0 tr0 hrun =>
    injection h with hA hB
    injection hA with hC
    subst hC
    subst hB
    exact hrun
  next gs smap buf tr0 hrun => simp at h

theorem step_of_runGroups_ok {self : FusedAdam} {sc : Option Scaler}
    {gs : List Group} {smap : List (ℕ × ParamState)} {buf : ℤ} {tr : List KernelCall}
    (h : runGroups self (mkEnv sc) self.param_groups self.state 0
      self.dummy_overflow_buf = (.ok (gs, smap, buf), tr)) :
    self.step sc = (.ok { self with
      param_groups := gs
      state := smap
      dummy_overflow_buf := buf }, tr) := by
  unfold FusedAdam.step
  rw [h]

theorem step_of_runGroups_error {self : FusedAdam} {sc : Option Scaler}
    {e : StepError} {tr : List KernelCall}
    (h : runGroups self (mkEnv sc) self.param_groups self.state 0
      self.dummy_overflow_buf = (.error e, tr)) :
    self.step sc = (.error e, tr) := by
  unfold FusedAdam.step
  rw [h]

end TE

namespace TE

/-! Small helpers for the claim statements. -/

theorem group_eta (g : Group) {s : ℕ} (h : g.step = some s) :
    { g with step := some s } = g := by
  rw [← h]

theorem stepT_capturable {self : FusedAdam} {g : Group} {b : ℤ}
    (hc : self.capturable = true) :
    stepT self g b = (match g.step with
      | some s => s + (if b ≠ 1 then 1 else 0)
      | none => 1) := by
  unfold stepT
  cases hx : g.step
  · rfl
  · rw [if_pos hc]

theorem stepT_noncapturable {self : FusedAdam} {g : Group} {b : ℤ}
    (hc : self.capturable = false) :
    stepT self g b = (match g.step with
      | some s => s + 1
      | none => 1) := by
  unfold stepT
  cases hx : g.step
  · rfl
  · rw [if_neg (by rw [hc]; exact Bool.false_ne_true)]

theorem sublist_flatten_of_mem' {α : Type} :
    ∀ {L : List (List α)} {l : List α}, l ∈ L → l.Sublist L.flatten := by
  intro L
  induction L with
  | nil =>
    intro l hl
    cases hl
  | cons L0 Ls ih =>
    intro l hl
    rw [List.flatten_cons]
    rcases List.mem_cons.mp hl with hl | hl
    · subst hl
      exact List.sublist_append_left l Ls.flatten
    · exact (ih hl).trans (List.sublist_append_right L0 Ls.flatten)

theorem group_ids_nodup {o : FusedAdam} (hnd : ((flatParams o).map Param.id).Nodup) :
    ∀ g ∈ o.param_groups, (g.params.map Param.id).Nodup := by
  intro g hg
  refine List.Nodup.sublist ?_ hnd
  refine List.Sublist.map Param.id ?_
  exact sublist_flatten_of_mem' (List.mem_map_of_mem Group.params hg)

theorem plookup_map_value {f : Param → Param}
    (hf : ∀ p : Param, (f p).id = p.id ∧ (f p).value = p.value) :
    ∀ (l : List Param) (pid : ℕ),
    ((plookup (l.map f) pid).map Param.value) = ((plookup l pid).map Param.value) := by
  intro l
  induction l with
  | nil =>
    intro pid
    rfl
  | cons p ps ih =>
    intro pid
    rw [List.map_cons]
    unfold plookup
    rw [(hf p).1]
    by_cases hx : p.id = pid
    · rw [if_pos hx, if_pos hx]
      show some (f p).value = some p.value
      rw [(hf p).2]
    · rw [if_neg hx, if_neg hx]
      exact ih pid

theorem flatParams_setGrads (o : FusedAdam) (f : ℕ → Option Grad) :
    flatParams (setGrads o f) =
      (flatParams o).map fun p => { p with grad := f p.id } := by
  unfold flatParams setGrads
  rw [List.map_map, List.map_flatten, List.map_map]
  rfl

theorem pvalue_setGrads (o : FusedAdam) (f : ℕ → Option Grad) (pid : ℕ) :
    pvalue (setGrads o f) pid = pvalue o pid := by
  unfold pvalue
  rw [flatParams_setGrads]
  exact plookup_map_value (f := fun p => { p with grad := f p.id })
    (fun p => ⟨rfl, rfl⟩) (flatParams o) pid

/-- Across any sequence of calls in which the identity never receives a
gradient, its value is untouched and any state entry it holds has zero
moments and a gradient-free master shadow. -/
theorem runCalls_untouched (pid : ℕ) :
    ∀ (calls : List ((ℕ → Option Grad) × Option Scaler)) (o : FusedAdam),
    (∀ l, o.master_weights = some l → ∀ mt ∈ l, mt.grad = none) →
    (∀ c ∈ calls, c.1 pid = none) →
    (∀ st, slookup o.state pid = some st → st.exp_avg = 0 ∧ st.exp_avg_sq = 0 ∧
      ∀ mp, st.master_param = some mp → mp.grad = none) →
    ∀ {o' : FusedAdam}, runCalls o calls = .ok o' →
    pvalue o' pid = pvalue o pid ∧
    (∀ st, slookup o'.state pid = some st → st.exp_avg = 0 ∧ st.exp_avg_sq = 0 ∧
      ∀ mp, st.master_param = some mp → mp.grad = none) := by
  intro calls
  induction calls with
  | nil =>
    intro o hmw hg hstate o' h
    unfold runCalls at h
    injection h with h1
    subst h1
    exact ⟨rfl, hstate⟩
  | cons c rest ih =>
    obtain ⟨f, s⟩ := c
    intro o hmw hg hstate o' h
    unfold runCalls at h
    split at h
    next e hstep => cases h
    next o1 hstep =>
      have hpair : (setGrads o f).step s =
          (.ok o1, ((setGrads o f).step s).2) := by
        rw [← hstep]
      obtain ⟨hrun, -, -, hmw1⟩ := step_ok_spec hpair
      have hgrads : ∀ g ∈ (setGrads o f).param_groups, ∀ p ∈ g.params,
          p.id = pid → p.grad = none := by
        intro g hgm p hp hpe
        obtain ⟨g0, hg0, hge⟩ := List.mem_map.mp hgm
        subst hge
        obtain ⟨q, hq, hqe⟩ := List.mem_map.mp hp
        subst hqe
        show f q.id = none
        have hqid : q.id = pid := hpe
        rw [hqid]
        exact hg (f, s) (List.mem_cons_self (f, s) rest)
      have hstm : ∀ st, slookup (setGrads o f).state pid = some st →
          ∀ mp, st.master_param = some mp → mp.grad = none := by
        intro st hst
        exact (hstate st hst).2.2
      have hmw' : ∀ l, (setGrads o f).master_weights = some l →
          ∀ mt ∈ l, mt.grad = none := hmw
      have hunt := runGroups_untouched pid hmw' hrun hgrads hstm
      have hval1 : pvalue o1 pid = pvalue (setGrads o f) pid := by
        unfold pvalue flatParams
        rw [hunt.1]
      have hstate1 : ∀ st, slookup o1.state pid = some st →
          st.exp_avg = 0 ∧ st.exp_avg_sq = 0 ∧
          ∀ mp, st.master_param = some mp → mp.grad = none := by
        intro st hst
        rcases hunt.2.2 st hst with hold | ⟨-, hz1, hz2, hmg, -⟩
        · exact hstate st hold
        · exact ⟨hz1, hz2, hmg⟩
      have hmwo1 : ∀ l, o1.master_weights = some l → ∀ mt ∈ l, mt.grad = none := by
        rw [hmw1]
        exact hmw
      obtain ⟨ihA, ihB⟩ := ih o1 hmwo1
        (fun c hc => hg c (List.mem_cons_of_mem (f, s) hc)) hstate1 h
      refine ⟨?_, ihB⟩
      rw [ihA, hval1, pvalue_setGrads]

end TE

namespace TE

set_option maxRecDepth 2000 in
/-- C8: the concrete scenario — lr = 1e-3, betas = (0.9, 0.999), eps = 1e-8,
weight_decay = 0, bias correction and adamw mode on, one float32 parameter
p = 1 with gradient 0.1 and zero initial moments — produces, per the section
4.4 update mathematics realized by the fused kernel, m = 0.01, v = 0.00001,
and an updated parameter within 1e-6 of 0.999, via a single adam launch. -/
theorem claim_C8_concrete_step :
    (exGet c8opt (c8opt.step none).1).state =
      [(0, ⟨1/100, 1/100000, none⟩)] ∧
    pvalue (exGet c8opt (c8opt.step none).1) 0 = some (9990001/10000001) ∧
    ((9990001/10000001 : ℚ) - 999/1000 < 1/1000000 ∧
      (999/1000 : ℚ) - 9990001/10000001 < 1/1000000) ∧
    (c8opt.step none).2 = [⟨KernelKind.adam, 1⟩] := by
  refine ⟨?_, ?_, ⟨by norm_num, by norm_num⟩, ?_⟩
  · with_unfolding_all rfl
  · with_unfolding_all rfl
  · with_unfolding_all rfl

/-- C2 (amended): in non-capturable mode every non-empty group's step counter
advances by exactly 1 per call (to 1 on first sight) whether or not any
member carries a pending gradient, and empty groups are untouched. -/
theorem claim_C2_step_counter {self : FusedAdam} {sc : Option Scaler}
    {o' : FusedAdam} {tr : List KernelCall}
    (hc : self.capturable = false) (h : self.step sc = (.ok o', tr)) :
    ∀ i g, self.param_groups.get? i = some g →
      (g.params = [] → o'.param_groups.get? i = some g) ∧
      (g.params ≠ [] → ∃ g', o'.param_groups.get? i = some g' ∧
        g'.step = some (match g.step with
          | some s => s + 1
          | none => 1)) := by
  obtain ⟨hrun, -, -, -⟩ := step_ok_spec h
  obtain ⟨-, hsteps⟩ := runGroups_steps hrun
  intro i g hg
  obtain ⟨h1, h2⟩ := hsteps i g hg
  refine ⟨h1, fun hne => ?_⟩
  obtain ⟨g', hgg, hstep⟩ := h2 hne
  refine ⟨g', hgg, ?_⟩
  rw [hstep, stepT_noncapturable hc]

/-- Witness for C2: a first call on one non-empty group initializes the
counter to 1. -/
theorem claim_C2_witness :
    c2opt.capturable = false ∧
    (∃ g', (exGet c2opt (c2opt.step none).1).param_groups.get? 0 = some g' ∧
      g'.step = some 1) := by
  refine ⟨rfl, ?_⟩
  obtain ⟨g', hg, hstep⟩ := (@claim_C2_step_counter c2opt none
      (exGet c2opt (c2opt.step none).1) (c2opt.step none).2 rfl rfl 0
      ⟨[g32 0 5 none], 1/1000, (9/10, 999/1000), 1/100000000, 0, true, none⟩ rfl).2
    (by decide)
  exact ⟨g', hg, hstep⟩

/-- Counterexample to C2 as stated: a non-empty group none of whose members
has a pending gradient still has its counter advanced (5 to 6) by the call. -/
theorem claim_C2_counterexample :
    (∀ g ∈ c2c.param_groups, ∀ p ∈ g.params, p.grad = none) ∧
    c2c.param_groups.map Group.step = [some 5] ∧
    exIsOk (c2c.step none).1 = true ∧
    (exGet c2c (c2c.step none).1).param_groups.map Group.step = [some 6] := by
  decide

/-- C7: a parameter whose gradient is absent in every call (and whose master
tensors, if any, are gradient-free) keeps its data value across any number of
calls, and any state entry it acquires keeps zero moments. -/
theorem claim_C7_zero_grad_frame {o0 : FusedAdam} {pid : ℕ}
    {calls : List ((ℕ → Option Grad) × Option Scaler)} {o' : FusedAdam}
    (hmw : ∀ l, o0.master_weights = some l → ∀ mt ∈ l, mt.grad = none)
    (hwd : ∀ g ∈ o0.param_groups, g.weight_decay = 0)
    (hg : ∀ c ∈ calls, c.1 pid = none)
    (hs0 : slookup o0.state pid = none)
    (h : runCalls o0 calls = .ok o') :
    pvalue o' pid = pvalue o0 pid ∧
    (∀ st, slookup o'.state pid = some st →
      st.exp_avg = 0 ∧ st.exp_avg_sq = 0) := by
  obtain ⟨hA, hB⟩ := runCalls_untouched pid calls o0 hmw hg
    (fun st hst => by rw [hs0] at hst; cases hst) h
  exact ⟨hA, fun st hst => ⟨(hB st hst).1, (hB st hst).2.1⟩⟩

/-- Witness for C7: two gradient-free calls leave the parameter's value at 5
and its moments zero. -/
theorem claim_C7_witness :
    pvalue (exGet c2opt (runCalls c2opt
        [(fun _ => none, none), (fun _ => none, none)])) 0 = pvalue c2opt 0 ∧
    (∀ st, slookup (exGet c2opt (runCalls c2opt
        [(fun _ => none, none), (fun _ => none, none)])).state 0 = some st →
      st.exp_avg = 0 ∧ st.exp_avg_sq = 0) :=
  @claim_C7_zero_grad_frame c2opt 0 [(fun _ => none, none), (fun _ => none, none)]
    (exGet c2opt (runCalls c2opt [(fun _ => none, none), (fun _ => none, none)]))
    (by intro l hl; cases hl) (by decide) (by decide) rfl rfl

end TE

namespace TE

/-- C1 (amended): in capturable mode, when the overflow buffer left by the
previous call agrees with the freshly queried flag, a flag of 1 leaves
parameters, moments and the (initialized) step counters unchanged, and a
flag of 0 advances every non-empty group's counter by exactly 1.  (Without
the agreement hypothesis the first group's increment is gated by the stale
buffer value, not the current flag; see the counterexample.) -/
theorem claim_C1_capturable_flag {self : FusedAdam} {sc : Scaler}
    {o' : FusedAdam} {tr : List KernelCall}
    (hc : self.capturable = true)
    (hagree : self.dummy_overflow_buf = sc.foundInf)
    (hinit : ∀ g ∈ self.param_groups, ∃ s, g.step = some s)
    (h : self.step (some sc) = (.ok o', tr)) :
    (sc.foundInf = 1 →
      o'.param_groups = self.param_groups ∧
      (∀ pid st, slookup self.state pid = some st → slookup o'.state pid = some st) ∧
      o'.dummy_overflow_buf = 1) ∧
    (sc.foundInf = 0 →
      ∀ i g, self.param_groups.get? i = some g → g.params ≠ [] →
        ∀ s, g.step = some s →
        ∃ g', o'.param_groups.get? i = some g' ∧ g'.step = some (s + 1)) := by
  obtain ⟨hrun, -, -, -⟩ := step_ok_spec h
  constructor
  · intro hf1
    have hbuf1 : self.dummy_overflow_buf = 1 := by rw [hagree, hf1]
    rw [hbuf1] at hrun
    have henv : (mkEnv (some sc)).foundInf = 1 := hf1
    obtain ⟨hgroups, hstate, hbuf'⟩ := runGroups_noop hc henv hrun
    obtain ⟨hlen, -⟩ := runGroups_steps hrun
    refine ⟨?_, hstate, hbuf'⟩
    apply List.ext_get?
    intro n
    cases hgn : self.param_groups.get? n with
    | none =>
      rw [List.get?_eq_none] at hgn ⊢
      omega
    | some g =>
      rw [hgroups n g hgn]
      by_cases hemp : g.params = []
      · rw [if_pos hemp]
      · rw [if_neg hemp]
        obtain ⟨s, hs⟩ := hinit g (List.get?_mem hgn)
        have hstepT : stepT self g 1 = s := by
          rw [stepT_capturable hc, hs]
          norm_num
        rw [hstepT, group_eta g hs]
  · intro hf0 i g hg hne s hs
    obtain ⟨-, hsteps⟩ := runGroups_steps hrun
    obtain ⟨g', hgg, hstep⟩ := (hsteps i g hg).2 hne
    refine ⟨g', hgg, ?_⟩
    have hbval : (if ((self.param_groups.take i).all fun x => x.params.isEmpty)
        then self.dummy_overflow_buf else (mkEnv (some sc)).foundInf) = 0 := by
      split
      · rw [hagree]
        exact hf0
      · exact hf0
    rw [hstep, hbval, stepT_capturable hc, hs]
    norm_num

/-- Witness for C1 at a concrete capturable optimizer whose buffer and flag
are both 1: the groups come back unchanged. -/
theorem claim_C1_witness :
    c1w.capturable = true ∧ c1w.dummy_overflow_buf = (1 : ℤ) ∧
    (exGet c1w (c1w.step (some ⟨1, 1⟩)).1).param_groups = c1w.param_groups := by
  refine ⟨rfl, rfl, ?_⟩
  exact ((@claim_C1_capturable_flag c1w ⟨1, 1⟩
      (exGet c1w (c1w.step (some ⟨1, 1⟩)).1) (c1w.step (some ⟨1, 1⟩)).2
      rfl rfl
      (by
        intro g hg
        cases hg with
        | head => exact ⟨3, rfl⟩
        | tail _ hg2 => cases hg2)
      rfl).1 rfl).1

/-- Counterexample to C1 as stated: with the overflow flag equal to 1 but a
buffer still holding 0 from the previous call, the step counter advances
from 1 to 2 during the call. -/
theorem claim_C1_counterexample :
    c1c.capturable = true ∧
    c1c.param_groups.map Group.step = [some 1] ∧
    (exGet c1c (c1c.step (some ⟨1, 1⟩)).1).param_groups.map Group.step =
      [some 2] := by
  decide

/-- C10 (amended): in capturable mode the counter of a processed group is
initialized to 1 unconditionally on first sight; an existing counter is
incremented by 1 exactly when the gating buffer value differs from 1, where
that value is the buffer as left by the previous call only while all earlier
groups of this call are empty, and the freshly queried flag otherwise
(each non-empty group's dispatch overwrites the buffer before later groups
increment). -/
theorem claim_C10_buffer_timing {self : FusedAdam} {sc : Scaler}
    {o' : FusedAdam} {tr : List KernelCall}
    (hc : self.capturable = true)
    (h : self.step (some sc) = (.ok o', tr)) :
    ∀ i g, self.param_groups.get? i = some g → g.params ≠ [] →
      ∃ g', o'.param_groups.get? i = some g' ∧
        g'.step = some (match g.step with
          | some s => s + (if (if ((self.param_groups.take i).all fun x =>
              x.params.isEmpty) then self.dummy_overflow_buf else sc.foundInf) ≠ 1
              then 1 else 0)
          | none => 1) := by
  obtain ⟨hrun, -, -, -⟩ := step_ok_spec h
  intro i g hg hne
  obtain ⟨g', hgg, hstep⟩ := ((runGroups_steps hrun).2 i g hg).2 hne
  refine ⟨g', hgg, ?_⟩
  rw [hstep, stepT_capturable hc]
  rfl

/-- Witness for C10: second group of a two-group call; the previous call's
buffer holds 1 but the first group's dispatch overwrites it with the fresh
flag 0, so the second group's counter advances from 1 to 2. -/
theorem claim_C10_witness :
    c10w.capturable = true ∧ c10w.dummy_overflow_buf = (1 : ℤ) ∧
    (∃ g', (exGet c10w (c10w.step (some ⟨0, 1⟩)).1).param_groups.get? 1 = some g' ∧
      g'.step = some 2) := by
  refine ⟨rfl, rfl, ?_⟩
  obtain ⟨g', hg, hstep⟩ := @claim_C10_buffer_timing c10w ⟨0, 1⟩
      (exGet c10w (c10w.step (some ⟨0, 1⟩)).1) (c10w.step (some ⟨0, 1⟩)).2
      rfl rfl 1
      ⟨[g32 1 6 none], 1/1000, (9/10, 999/1000), 1/100000000, 0, true, some 1⟩
      rfl (by decide)
  refine ⟨g', hg, ?_⟩
  rw [hstep]
  decide

/-- Counterexample to C10 as stated: were every group's increment gated by
the pre-overwrite buffer (1 here), both counters would stay at 1; in fact
the second group's counter advances to 2. -/
theorem claim_C10_counterexample :
    c10w.dummy_overflow_buf = (1 : ℤ) ∧
    (exGet c10w (c10w.step (some ⟨0, 1⟩)).1).param_groups.map Group.step =
      [some 1, some 2] := by
  decide

end TE

namespace TE

/-- C5 (amended): with master weights disabled, clean parameters and no
fp8-with-capturable conflict, a call raises the mixing error exactly when a
single group holds both a pending float16 and a pending bfloat16 parameter;
the two halves in different groups of the same call raise nothing (the
bucket lists and flags are rebuilt per group). -/
theorem claim_C5_mixed_same_group {self : FusedAdam} {sc : Option Scaler}
    (hm : self.masterOn = false)
    (hok : ∀ g ∈ self.param_groups, ∀ p ∈ g.params, okParam p = true)
    (hfp8 : self.capturable = true →
      ∀ g ∈ self.param_groups, fp8PendingGroup g = false) :
    (∃ g ∈ self.param_groups, mixedGroup g = true) ↔
      (∃ tr, self.step sc = (.error StepError.mixedF16Bf16, tr)) := by
  constructor
  · intro ⟨g, hgm, hgx⟩
    cases hres : (self.step sc).1 with
    | ok o1 =>
      exfalso
      have hpair : self.step sc = (.ok o1, (self.step sc).2) := by rw [← hres]
      obtain ⟨hrun, -, -, -⟩ := step_ok_spec hpair
      have hno := (runGroups_ok_noMixed hm hrun g hgm).1
      rw [hgx] at hno
      cases hno
    | error e =>
      have hpair : self.step sc = (.error e, (self.step sc).2) := by rw [← hres]
      have hrun := step_error_spec hpair
      have he := runGroups_error_mixed hm hrun hok hfp8
      subst he
      exact ⟨(self.step sc).2, hpair⟩
  · intro ⟨tr, htr⟩
    by_contra hno
    push_neg at hno
    have hmix : ∀ g ∈ self.param_groups, mixedGroup g = false := by
      intro g hgm
      cases hx : mixedGroup g
      · rfl
      · exact absurd hx (hno g hgm)
    obtain ⟨res, tr2, hrun⟩ := @runGroups_ok_of_clean self (mkEnv sc) hm
      self.param_groups self.state 0 self.dummy_overflow_buf hok hmix hfp8
    rw [show res = (res.1, res.2.1, res.2.2) from rfl] at hrun
    have hok2 := step_of_runGroups_ok hrun
    rw [htr] at hok2
    simp at hok2

/-- Witness for C5: both halves pending in one group makes the call fail
with the mixing error. -/
theorem claim_C5_witness :
    c5same.masterOn = false ∧
    (∃ g ∈ c5same.param_groups, mixedGroup g = true) ∧
    (∃ tr, c5same.step none = (.error StepError.mixedF16Bf16, tr)) := by
  refine ⟨rfl, by decide, ?_⟩
  exact (@claim_C5_mixed_same_group c5same none rfl (by decide)
    (fun hcap => absurd hcap (by decide))).mp (by decide)

/-- Counterexample to C5 as stated: a pending float16 parameter and a
pending bfloat16 parameter in two different groups of the same call raise no
error. -/
theorem claim_C5_counterexample :
    (∃ g ∈ c5opt.param_groups, g.params.any (pendingOf DType.float16) = true) ∧
    (∃ g ∈ c5opt.param_groups, g.params.any (pendingOf DType.bfloat16) = true) ∧
    exIsOk (c5opt.step none).1 = true := by
  decide

/-- C6: with capturable mode on (master weights off, clean parameters, no
mixing anywhere), a call fails with the fp8-with-capturable error exactly
when some group holds a pending fp8 parameter; when the offending group is
the first one, the call fails with an empty launch trace, before any
fused-kernel dispatch. -/
theorem claim_C6_fp8_capturable {self : FusedAdam} {sc : Option Scaler}
    (hc : self.capturable = true) (hm : self.masterOn = false)
    (hok : ∀ g ∈ self.param_groups, ∀ p ∈ g.params, okParam p = true)
    (hnomix : ∀ g ∈ self.param_groups, mixedGroup g = false) :
    ((∃ g ∈ self.param_groups, fp8PendingGroup g = true) ↔
      (∃ tr, self.step sc = (.error StepError.fp8Capturable, tr))) ∧
    (∀ g0 rest, self.param_groups = g0 :: rest → fp8PendingGroup g0 = true →
      self.step sc = (.error StepError.fp8Capturable, [])) := by
  constructor
  · constructor
    · intro ⟨g, hgm, hgx⟩
      cases hres : (self.step sc).1 with
      | ok o1 =>
        exfalso
        have hpair : self.step sc = (.ok o1, (self.step sc).2) := by rw [← hres]
        obtain ⟨hrun, -, -, -⟩ := step_ok_spec hpair
        have hno := (runGroups_ok_noMixed hm hrun g hgm).2 hc
        rw [hgx] at hno
        cases hno
      | error e =>
        have hpair : self.step sc = (.error e, (self.step sc).2) := by rw [← hres]
        have hrun := step_error_spec hpair
        have he := runGroups_error_fp8cap hm hrun hok hnomix
        subst he
        exact ⟨(self.step sc).2, hpair⟩
    · intro ⟨tr, htr⟩
      by_contra hno
      push_neg at hno
      have hfp8 : self.capturable = true → ∀ g ∈ self.param_groups,
          fp8PendingGroup g = false := by
        intro _ g hgm
        cases hx : fp8PendingGroup g
        · rfl
        · exact absurd hx (hno g hgm)
      obtain ⟨res, tr2, hrun⟩ := @runGroups_ok_of_clean self (mkEnv sc) hm
        self.param_groups self.state 0 self.dummy_overflow_buf hok hnomix hfp8
      rw [show res = (res.1, res.2.1, res.2.2) from rfl] at hrun
      have hok2 := step_of_runGroups_ok hrun
      rw [htr] at hok2
      simp at hok2
  · intro g0 rest hgs hpend
    have hne : g0.params ≠ [] := by
      intro hx
      unfold fp8PendingGroup at hpend
      rw [hx] at hpend
      simp at hpend
    have hok0 : ∀ p ∈ g0.params, okParam p = true :=
      hok g0 (by rw [hgs]; exact List.mem_cons_self g0 rest)
    have hmix0 : mixedGroup g0 = false :=
      hnomix g0 (by rw [hgs]; exact List.mem_cons_self g0 rest)
    cases hclr : classify self ⟨self.state, 0, [], [], [], false, false⟩ g0.params with
    | ok cs =>
      exfalso
      have hnofp8 := (classify_capturable_no_fp8 hm hc hclr).2
      unfold fp8PendingGroup at hpend
      rw [hpend] at hnofp8
      cases hnofp8
    | error e =>
      have he : e = StepError.fp8Capturable := by
        refine classify_error_fp8cap hm hclr hok0 ?_
        unfold mixedGroup at hmix0
        intro ⟨h1x, h2x⟩
        simp only [Bool.false_or] at h1x h2x
        rw [h1x, h2x] at hmix0
        cases hmix0
      subst he
      have hsg : stepGroup self (mkEnv sc) g0 self.state 0 self.dummy_overflow_buf =
          .error StepError.fp8Capturable := by
        unfold stepGroup
        rw [if_neg hne, hclr]
      refine step_of_runGroups_error ?_
      rw [hgs]
      unfold runGroups
      rw [hsg]

/-- Witness for C6: a capturable call on a group holding a pending fp8
parameter fails with the fp8-with-capturable error and an empty trace. -/
theorem claim_C6_witness :
    c6opt.capturable = true ∧
    (∃ g0 rest, c6opt.param_groups = g0 :: rest ∧ fp8PendingGroup g0 = true) ∧
    c6opt.step (some ⟨0, 1⟩) = (.error StepError.fp8Capturable, []) := by
  refine ⟨rfl, ⟨⟨[g32 0 5 (some ⟨1/10, false⟩),
      ⟨1, .fp8, [1], 2, some ⟨1/10, false⟩, true⟩],
      1/1000, (9/10, 999/1000), 1/100000000, 0, true, none⟩, [], rfl, by decide⟩, ?_⟩
  exact (@claim_C6_fp8_capturable c6opt (some ⟨0, 1⟩) rfl rfl (by decide)
    (by decide)).2 _ [] rfl (by decide)

/-- C3: in plain mode (no master weights, not capturable) a call on clean
unmixed groups succeeds even when an fp8 parameter carries a pending
gradient; the fp8 kernel entry point is never launched, the parameter's
value is untouched, an existing state entry is kept exactly, and a created
one holds zero moments and no master shadow. -/
theorem claim_C3_fp8_dropped {self : FusedAdam} {sc : Option Scaler} {pid : ℕ}
    (hc : self.capturable = false) (hm : self.masterOn = false)
    (hok : ∀ g ∈ self.param_groups, ∀ p ∈ g.params, okParam p = true)
    (hnomix : ∀ g ∈ self.param_groups, mixedGroup g = false)
    (hfp8 : ∀ g ∈ self.param_groups, ∀ q ∈ g.params, q.id = pid →
      q.dtype = DType.fp8)
    (hpend : ∃ g ∈ self.param_groups, ∃ q ∈ g.params, q.id = pid ∧
      pending q = true) :
    ∃ o' tr, self.step sc = (.ok o', tr) ∧
      pvalue o' pid = pvalue self pid ∧
      (∀ st, slookup self.state pid = some st → slookup o'.state pid = some st) ∧
      (∀ st', slookup o'.state pid = some st' →
        slookup self.state pid = some st' ∨
        (slookup self.state pid = none ∧ st'.exp_avg = 0 ∧ st'.exp_avg_sq = 0 ∧
          st'.master_param = none)) ∧
      (∀ c ∈ tr, c.kind ≠ KernelKind.adam_fp8) := by
  obtain ⟨res, tr, hrun⟩ := @runGroups_ok_of_clean self (mkEnv sc) hm
    self.param_groups self.state 0 self.dummy_overflow_buf hok hnomix
    (fun hcap => absurd hcap (by rw [hc]; exact Bool.false_ne_true))
  rw [show res = (res.1, res.2.1, res.2.2) from rfl] at hrun
  have hstep := step_of_runGroups_ok hrun
  have hunt := runGroups_fp8_untouched pid hc hm hrun hfp8
  have htr := (runGroups_trace hrun).2 hm
  refine ⟨_, tr, hstep, ?_, hunt.2.1, hunt.2.2, htr⟩
  unfold pvalue flatParams
  rw [hunt.1]

/-- Witness for C3: a plain call on a group with a pending fp8 parameter and
a pending float32 parameter succeeds, never launches the fp8 kernel, and
leaves the fp8 parameter with value 2 and zero moments. -/
theorem claim_C3_witness :
    c3opt.capturable = false ∧ c3opt.masterOn = false ∧
    (∃ o' tr, c3opt.step none = (.ok o', tr) ∧
      pvalue o' 1 = pvalue c3opt 1 ∧
      (∀ st, slookup c3opt.state 1 = some st → slookup o'.state 1 = some st) ∧
      (∀ st', slookup o'.state 1 = some st' →
        slookup c3opt.state 1 = some st' ∨
        (slookup c3opt.state 1 = none ∧ st'.exp_avg = 0 ∧ st'.exp_avg_sq = 0 ∧
          st'.master_param = none)) ∧
      (∀ c ∈ tr, c.kind ≠ KernelKind.adam_fp8)) :=
  ⟨rfl, rfl, @claim_C3_fp8_dropped c3opt none 1 rfl rfl (by decide) (by decide)
    (by decide) (by decide)⟩

end TE

namespace TE

/-- C4 (amended): in master-weights mode a first-seen non-float32 parameter
is assigned the master tensor at the index counting the first-seen (that is,
slot-consuming) non-float32 parameters that precede it in traversal order
within the same call — the counter restarts at 0 on every call, so the index
is not the lifetime count of non-float32 parameters seen before it — and the
assigned shadow has the parameter's shape; a parameter that already holds
state keeps the slot and shape of its master shadow across the call. -/
theorem claim_C4_master_slots {self : FusedAdam} {sc : Option Scaler}
    {o' : FusedAdam} {tr : List KernelCall}
    (hmon : self.masterOn = true)
    (hnd : ((flatParams self).map Param.id).Nodup)
    (h : self.step sc = (.ok o', tr)) :
    (∀ pre p suf, flatParams self = pre ++ p :: suf →
      slookup self.state p.id = none → p.dtype ≠ DType.float32 →
      ∃ st, slookup o'.state p.id = some st ∧
        msig st.master_param = some (freshNonF32 self.state pre, p.shape)) ∧
    (∀ pid st, slookup self.state pid = some st →
      ∃ st', slookup o'.state pid = some st' ∧
        msig st'.master_param = msig st.master_param) := by
  obtain ⟨hrun, -, -, -⟩ := step_ok_spec h
  constructor
  · intro pre p suf hflat hfresh hdt
    obtain ⟨st, hst, hmsig⟩ := runGroups_fresh hmon hrun hnd hflat hfresh hdt
    refine ⟨st, hst, ?_⟩
    rw [hmsig, Nat.zero_add]
  · intro pid st hst
    exact runGroups_smsig pid hrun (group_ids_nodup hnd) st hst

/-- Witness for C4: the first-seen float16 parameter of a call takes slot 0
with shape [1]. -/
theorem claim_C4_witness :
    c4opt.masterOn = true ∧
    (∃ st, slookup (exGet c4opt (c4opt.step none).1).state 0 = some st ∧
      msig st.master_param = some (0, [1])) := by
  refine ⟨rfl, ?_⟩
  obtain ⟨st, hst, hmsig⟩ := (@claim_C4_master_slots c4opt none
      (exGet c4opt (c4opt.step none).1) (c4opt.step none).2 rfl (by decide) rfl).1
    [] ⟨0, .float16, [1], 5, none, false⟩ [] rfl rfl (by decide)
  exact ⟨st, hst, by rw [hmsig]; decide⟩

/-- Counterexample to C4 as stated: after a first call assigns slot 0 to
parameter 0, a second float16 parameter appended before the next call — the
second non-float32 parameter of the optimizer's lifetime, preceded by
parameter 0 in encounter order — is also assigned slot 0, because
master_param_idx restarts at 0 on every call. -/
theorem claim_C4_counterexample :
    smsig (slookup c4optB.state 0) = some (some (0, [1])) ∧
    (plookup (flatParams c4optB) 1).map Param.dtype = some DType.float16 ∧
    smsig (slookup c4optB.state 1) = none ∧
    smsig (slookup (exGet c4optB (c4optB.step none).1).state 1) =
      some (some (0, [1])) := by
  decide

/-- C9: state creation precedes the null-gradient skip: the first call that
sees a parameter creates its zero-moment state and, in master-weights mode
for a non-float32 parameter, consumes the next master slot, even though the
parameter's gradient is null. -/
theorem claim_C9_state_before_skip {self : FusedAdam} {sc : Option Scaler}
    {o' : FusedAdam} {tr : List KernelCall} {pre : List Param} {p : Param}
    {suf : List Param}
    (hmon : self.masterOn = true)
    (hmw : ∀ l, self.master_weights = some l → ∀ mt ∈ l, mt.grad = none)
    (hnd : ((flatParams self).map Param.id).Nodup)
    (hflat : flatParams self = pre ++ p :: suf)
    (hgr : p.grad = none)
    (hfresh : slookup self.state p.id = none)
    (hdt : p.dtype ≠ DType.float32)
    (h : self.step sc = (.ok o', tr)) :
    ∃ st, slookup o'.state p.id = some st ∧ st.exp_avg = 0 ∧ st.exp_avg_sq = 0 ∧
      msig st.master_param = some (freshNonF32 self.state pre, p.shape) := by
  obtain ⟨hrun, -, -, -⟩ := step_ok_spec h
  obtain ⟨st, hst, hmsig⟩ := runGroups_fresh hmon hrun hnd hflat hfresh hdt
  have hpin : p ∈ flatParams self := by
    rw [hflat]
    exact List.mem_append_right pre (List.mem_cons_self p suf)
  have hgrads : ∀ g ∈ self.param_groups, ∀ q ∈ g.params, q.id = p.id →
      q.grad = none := by
    intro g hgm q hq hqe
    have hqflat : q ∈ flatParams self := by
      unfold flatParams
      rw [List.mem_flatten]
      exact ⟨g.params, List.mem_map_of_mem Group.params hgm, hq⟩
    have hqp : q = p := List.inj_on_of_nodup_map hnd hqflat hpin hqe
    rw [hqp, hgr]
  have hunt := runGroups_untouched p.id hmw hrun hgrads
    (fun st0 hst0 => by rw [hfresh] at hst0; cases hst0)
  rcases hunt.2.2 st hst with hold | ⟨-, hz1, hz2, -, -⟩
  · rw [hfresh] at hold
    cases hold
  · refine ⟨st, hst, hz1, hz2, ?_⟩
    rw [hmsig, Nat.zero_add]

/-- Witness for C9: a gradient-free first-seen float16 parameter still gets
a zero-moment state with master slot 0. -/
theorem claim_C9_witness :
    (plookup (flatParams c4opt) 0).map Param.grad = some none ∧
    (∃ st, slookup (exGet c4opt (c4opt.step none).1).state 0 = some st ∧
      st.exp_avg = 0 ∧ st.exp_avg_sq = 0 ∧
      msig st.master_param = some (0, [1])) := by
  refine ⟨rfl, ?_⟩
  obtain ⟨st, hst, h1, h2, h3⟩ := @claim_C9_state_before_skip c4opt none
    (exGet c4opt (c4opt.step none).1) (c4opt.step none).2
    [] ⟨0, .float16, [1], 5, none, false⟩ []
    rfl (by intro l hl; injection hl with hl2; subst hl2; decide)
    (by decide) rfl rfl rfl (by decide) rfl
  exact ⟨st, hst, h1, h2, by rw [h3]; decide⟩

end TE
